import Mathlib

/-!
# Buffer-layout adapters of `faust/dsp/dsp-tools.h`

A shallow embedding of the three adapters `Deinterleaver`, `Interleaver` and
`AudioChannels`.

Modelling conventions.

* A sample (`FAUSTFLOAT`, by default `float`) is an element of an arbitrary type
  `α` with a zero: the adapters only copy samples and store the constant `0`.
* A heap array (`new FAUSTFLOAT[n]`, or the array behind a `float*` argument) is
  a `List α` holding its extent; an access outside the extent is the fault
  `Fault.outOfBounds`.  A group of per-channel buffers is a `List (List α)`.
* Sizes and indices are natural numbers: the constructors are modelled for
  non-negative arguments.  An `int` result above `INT_MAX` is the fault
  `Fault.overflow`; `unsigned int` arithmetic is done modulo `2 ^ 32`.
* A `for` loop is `forLoop lo hi body`, which runs `body lo`, ..., `body (hi-1)`
  on an explicit state and stops at the first fault.
* `assert` is active unless `NDEBUG` is set; the flag is a parameter.
-/

namespace McpUI

/-- Ways in which an execution can leave the defined behaviour of the program. -/
inductive Fault where
  /-- An `assert` failed. -/
  | assertion
  /-- An array was accessed outside its extent. -/
  | outOfBounds
  /-- A signed `int` computation left the range of `int`. -/
  | overflow
  deriving DecidableEq

/-- Largest value of a 32-bit `int`. -/
def INT_MAX : Nat := 2 ^ 31 - 1

/-- Number of values of a 32-bit `unsigned int`. -/
def UINT_RANGE : Nat := 2 ^ 32

/-- Capacity of the channel tables `fOutputs[256]` and `fInputs[256]`. -/
def MAX_CHANNELS : Nat := 256

/-! ## Memory accesses -/

/-- The read `buf[i]`. -/
def load {α : Type} (buf : List α) (i : Nat) : Except Fault α :=
  match buf[i]? with
  | some v => .ok v
  | none => .error .outOfBounds

/-- The write `buf[i] = v`. -/
def store {α : Type} (buf : List α) (i : Nat) (v : α) : Except Fault (List α) :=
  if i < buf.length then .ok (buf.set i v) else .error .outOfBounds

/-- The content of `chans[c][f]`, when that cell exists. -/
def sample {α : Type} (chans : List (List α)) (c f : Nat) : Option α :=
  match chans[c]? with
  | some b => b[f]?
  | none => none

/-- The read `chans[c][f]`. -/
def load2 {α : Type} (chans : List (List α)) (c f : Nat) : Except Fault α :=
  match sample chans c f with
  | some v => .ok v
  | none => .error .outOfBounds

/-- The write `chans[c][f] = v`. -/
def store2 {α : Type} (chans : List (List α)) (c f : Nat) (v : α) :
    Except Fault (List (List α)) :=
  match chans[c]? with
  | some b => if f < b.length then .ok (chans.set c (b.set f v)) else .error .outOfBounds
  | none => .error .outOfBounds

/-! ## Loops -/

/-- Runs `body i`, `body (i+1)`, ... for `n` iterations, stopping at a fault. -/
def iterate {σ : Type} (body : Nat → σ → Except Fault σ) : Nat → Nat → σ → Except Fault σ
  | 0, _, s => .ok s
  | n + 1, i, s =>
    match body i s with
    | .ok s' => iterate body n (i + 1) s'
    | .error e => .error e

/-- The loop `for (i = lo; i < hi; i++) body`. -/
def forLoop {σ : Type} (lo hi : Nat) (body : Nat → σ → Except Fault σ) (s : σ) :
    Except Fault σ :=
  iterate body (hi - lo) lo s

/-! ## Deinterleaver -/

/-- State of a `Deinterleaver`: `fOutputs` holds the allocated entries of the
table `fOutputs[256]`. -/
structure Deinterleaver (α : Type) where
  fNumFrames : Nat
  fNumInputs : Nat
  fNumOutputs : Nat
  fInput : List α
  fOutputs : List (List α)
  deriving DecidableEq

/-- The statement `table[i] = new FAUSTFLOAT[...]` of the constructors, on the
allocated entries of a table of `MAX_CHANNELS` pointers; `fresh` is the new
array. -/
def allocChannel {α : Type} (fresh : List α) (i : Nat) (table : List (List α)) :
    Except Fault (List (List α)) :=
  if i < MAX_CHANNELS then .ok (table ++ [fresh]) else .error .outOfBounds

/-- The constructor `Deinterleaver(numFrames, numInputs, numOutputs)` for
non-negative arguments.  `new FAUSTFLOAT[n]` leaves its content
indeterminate: `uIn` and `uOut` give the content found in the fresh arrays. -/
def Deinterleaver.new {α : Type} (numFrames numInputs numOutputs : Nat)
    (uIn : Nat → α) (uOut : Nat → Nat → α) : Except Fault (Deinterleaver α) :=
  let fNumFrames := numFrames
  let fNumInputs := numInputs
  let fNumOutputs := max numInputs numOutputs
  -- fInput = new FAUSTFLOAT[fNumFrames * fNumInputs]
  if INT_MAX < fNumFrames * fNumInputs then .error .overflow else
  let fInput := (List.range (fNumFrames * fNumInputs)).map uIn
  -- for (i = 0; i < fNumOutputs; i++) fOutputs[i] = new FAUSTFLOAT[fNumFrames]
  match forLoop 0 fNumOutputs
      (fun i table => allocChannel ((List.range fNumFrames).map (uOut i)) i table) [] with
  | .ok fOutputs => .ok ⟨fNumFrames, fNumInputs, fNumOutputs, fInput, fOutputs⟩
  | .error e => .error e

/-- The statement `fOutputs[c][s] = fInput[c + s * fNumInputs]`. -/
def Deinterleaver.copy {α : Type} (self : Deinterleaver α) (s c : Nat)
    (outs : List (List α)) : Except Fault (List (List α)) :=
  if INT_MAX < c + s * self.fNumInputs then .error .overflow else
  match load self.fInput (c + s * self.fNumInputs) with
  | .ok v => store2 outs c s v
  | .error e => .error e

/-- The method `deinterleave()`. -/
def Deinterleaver.deinterleave {α : Type} (self : Deinterleaver α) :
    Except Fault (Deinterleaver α) :=
  -- for (s = 0; s < fNumFrames; s++) for (c = 0; c < fNumInputs; c++) ...
  match forLoop 0 self.fNumFrames
      (fun s outs => forLoop 0 self.fNumInputs (self.copy s) outs) self.fOutputs with
  | .ok outs => .ok { self with fOutputs := outs }
  | .error e => .error e

/-! ## Interleaver -/

/-- State of an `Interleaver`: `fInputs` holds the allocated entries of the
table `fInputs[256]`. -/
structure Interleaver (α : Type) where
  fNumFrames : Nat
  fNumInputs : Nat
  fNumOutputs : Nat
  fInputs : List (List α)
  fOutput : List α
  deriving DecidableEq

/-- The constructor `Interleaver(numFrames, numInputs, numOutputs)` for
non-negative arguments; `uIn` and `uOut` give the indeterminate content of the
fresh arrays. -/
def Interleaver.new {α : Type} (numFrames numInputs numOutputs : Nat)
    (uIn : Nat → Nat → α) (uOut : Nat → α) : Except Fault (Interleaver α) :=
  let fNumFrames := numFrames
  let fNumInputs := max numInputs numOutputs
  let fNumOutputs := numOutputs
  -- for (i = 0; i < fNumInputs; i++) fInputs[i] = new FAUSTFLOAT[fNumFrames]
  match forLoop 0 fNumInputs
      (fun i table => allocChannel ((List.range fNumFrames).map (uIn i)) i table) [] with
  | .error e => .error e
  | .ok fInputs =>
    -- fOutput = new FAUSTFLOAT[fNumFrames * fNumOutputs]
    if INT_MAX < fNumFrames * fNumOutputs then .error .overflow else
    .ok ⟨fNumFrames, fNumInputs, fNumOutputs, fInputs,
      (List.range (fNumFrames * fNumOutputs)).map uOut⟩

/-- The statement `fOutput[c + s * fNumOutputs] = fInputs[c][s]`. -/
def Interleaver.copy {α : Type} (self : Interleaver α) (s c : Nat) (out : List α) :
    Except Fault (List α) :=
  if INT_MAX < c + s * self.fNumOutputs then .error .overflow else
  match load2 self.fInputs c s with
  | .ok v => store out (c + s * self.fNumOutputs) v
  | .error e => .error e

/-- The method `interleave()`. -/
def Interleaver.interleave {α : Type} (self : Interleaver α) :
    Except Fault (Interleaver α) :=
  -- for (s = 0; s < fNumFrames; s++) for (c = 0; c < fNumOutputs; c++) ...
  match forLoop 0 self.fNumFrames
      (fun s out => forLoop 0 self.fNumOutputs (self.copy s) out) self.fOutput with
  | .ok out => .ok { self with fOutput := out }
  | .error e => .error e

/-! ## AudioChannels -/

/-- State of an `AudioChannels`. -/
structure AudioChannels (α : Type) where
  fNumFrames : Nat
  fNumChannels : Nat
  fChannels : List (List α)
  deriving DecidableEq

/-- The constructor `AudioChannels(nframes, nchannels)` for non-negative
arguments: `nchannels` arrays of `nframes` samples, each cleared by `memset`. -/
def AudioChannels.new {α : Type} [Zero α] (nframes nchannels : Nat) : AudioChannels α :=
  ⟨nframes, nchannels, List.replicate nchannels (List.replicate nframes 0)⟩

/-- The class invariant of `AudioChannels`: `fNumChannels` buffers of
`fNumFrames` samples each. -/
def AudioChannels.WF {α : Type} (self : AudioChannels α) : Prop :=
  self.fChannels.length = self.fNumChannels ∧
    ∀ b ∈ self.fChannels, b.length = self.fNumFrames

/-- The statement `fChannels[c][f] = inbuffer[p++]` on the pair
`(fChannels, p)`. -/
def readSample {α : Type} (inbuffer : List α) (f c : Nat) (st : List (List α) × Nat) :
    Except Fault (List (List α) × Nat) :=
  match load inbuffer st.2 with
  | .ok v =>
    match store2 st.1 c f v with
    | .ok chans => .ok (chans, (st.2 + 1) % UINT_RANGE)
    | .error e => .error e
  | .error e => .error e

/-- The body of the frame loop of `interleavedRead`, with `C` the number of
channels copied and `N` the number of internal channels. -/
def readFrame {α : Type} [Zero α] (inbuffer : List α) (inchannels C N : Nat) (f : Nat)
    (chans : List (List α)) : Except Fault (List (List α)) :=
  -- unsigned int p = f * inchannels
  let p := (f * inchannels) % UINT_RANGE
  -- for (c = 0; c < C; c++) fChannels[c][f] = inbuffer[p++]
  match forLoop 0 C (readSample inbuffer f) (chans, p) with
  | .ok st =>
    -- for (c = C; c < fNumChannels; c++) fChannels[c][f] = 0
    forLoop C N (fun c chans' => store2 chans' c f 0) st.1
  | .error e => .error e

/-- The method `interleavedRead(inbuffer, length, inchannels)`; the result is
the state of the object and of the array behind `inbuffer`. -/
def AudioChannels.interleavedRead {α : Type} [Zero α] (NDEBUG : Bool)
    (self : AudioChannels α) (inbuffer : List α) (length inchannels : Nat) :
    Except Fault (AudioChannels α × List α) :=
  -- assert(length <= fNumFrames)
  if !NDEBUG && decide (self.fNumFrames < length) then .error .assertion else
  let C := min inchannels self.fNumChannels
  let F := min length self.fNumFrames
  match forLoop 0 F (readFrame inbuffer inchannels C self.fNumChannels) self.fChannels with
  | .ok chans => .ok ({ self with fChannels := chans }, inbuffer)
  | .error e => .error e

/-- The statement `outbuffer[p++] = fChannels[c][f]` on the pair
`(outbuffer, p)`. -/
def writeSample {α : Type} (chans : List (List α)) (f c : Nat) (st : List α × Nat) :
    Except Fault (List α × Nat) :=
  match load2 chans c f with
  | .ok v =>
    match store st.1 st.2 v with
    | .ok out => .ok (out, (st.2 + 1) % UINT_RANGE)
    | .error e => .error e
  | .error e => .error e

/-- The statement `outbuffer[p++] = 0` on the pair `(outbuffer, p)`. -/
def writeZero {α : Type} [Zero α] (_c : Nat) (st : List α × Nat) :
    Except Fault (List α × Nat) :=
  match store st.1 st.2 0 with
  | .ok out => .ok (out, (st.2 + 1) % UINT_RANGE)
  | .error e => .error e

/-- The body of the frame loop of `interleavedWrite`, with `C` the number of
channels copied. -/
def writeFrame {α : Type} [Zero α] (chans : List (List α)) (outchannels C : Nat) (f : Nat)
    (out : List α) : Except Fault (List α) :=
  -- unsigned int p = f * outchannels
  let p := (f * outchannels) % UINT_RANGE
  -- for (c = 0; c < C; c++) outbuffer[p++] = fChannels[c][f]
  match forLoop 0 C (writeSample chans f) (out, p) with
  | .ok st =>
    -- for (c = C; c < outchannels; c++) outbuffer[p++] = 0
    match forLoop C outchannels writeZero st with
    | .ok st' => .ok st'.1
    | .error e => .error e
  | .error e => .error e

/-- The method `interleavedWrite(outbuffer, length, outchannels)`; the result is
the state of the object and of the array behind `outbuffer`. -/
def AudioChannels.interleavedWrite {α : Type} [Zero α] (NDEBUG : Bool)
    (self : AudioChannels α) (outbuffer : List α) (length outchannels : Nat) :
    Except Fault (AudioChannels α × List α) :=
  -- assert(length <= fNumFrames)
  if !NDEBUG && decide (self.fNumFrames < length) then .error .assertion else
  let C := min outchannels self.fNumChannels
  let F := min length self.fNumFrames
  match forLoop 0 F (writeFrame self.fChannels outchannels C) outbuffer with
  | .ok out => .ok (self, out)
  | .error e => .error e

/-! ## Loop invariants -/

/-- Loop invariant of `deinterleave` at frame `s` and channel `c`: for channels
below `n`, the cells of frames below `s`, and of frame `s` for channels below
`c`, hold the input samples; every other cell is as in `outs0`. -/
def DeintInv {α : Type} (input : List α) (n : Nat) (outs0 : List (List α)) (s c : Nat)
    (outs : List (List α)) : Prop :=
  ∀ c' f, sample outs c' f =
    if c' < n ∧ (f < s ∨ (f = s ∧ c' < c)) then input[c' + f * n]? else sample outs0 c' f

/-- Loop invariant of `interleave` after `k` copies: the first `k` cells of the
output hold the input samples in frame-major order over `n` channels; every
other cell is as in `out0`. -/
def InterInv {α : Type} (inputs : List (List α)) (n : Nat) (out0 : List α) (k : Nat)
    (out : List α) : Prop :=
  out.length = out0.length ∧
    ∀ i, out[i]? = if i < k then sample inputs (i % n) (i / n) else out0[i]?

/-- Loop invariant of the copy loop of `interleavedRead` in frame `f`, before
channel `c`: `p` is `f * n + c` modulo `2 ^ 32`, the cells of frame `f` for
channels below `c` hold the samples read, every other cell is as in `chans0`. -/
def ReadCopyInv {α : Type} (inbuffer : List α) (n f : Nat) (chans0 : List (List α)) (c : Nat)
    (st : List (List α) × Nat) : Prop :=
  st.2 = (f * n + c) % UINT_RANGE ∧
  st.1.map List.length = chans0.map List.length ∧
  ∀ c' f', sample st.1 c' f' =
    if f' = f ∧ c' < c then inbuffer[(f * n + c') % UINT_RANGE]? else sample chans0 c' f'

/-- Loop invariant of the zero-fill loop of `interleavedRead` in frame `f`,
before channel `c`: the cells of frame `f` for channels from `C` to `c - 1`
hold zero, every other cell is as in `chans1`. -/
def ReadZeroInv {α : Type} [Zero α] (f C : Nat) (chans1 : List (List α)) (c : Nat)
    (chans : List (List α)) : Prop :=
  chans.map List.length = chans1.map List.length ∧
  ∀ c' f', sample chans c' f' =
    if f' = f ∧ C ≤ c' ∧ c' < c then some 0 else sample chans1 c' f'

/-- The content of cell `(c, f)` after `interleavedRead` has processed `F` frames
of `inbuffer` (over `n` channels) into `N` internal channels, copying `C`
channels, from the channel buffers `chans0`. -/
def readCell {α : Type} [Zero α] (inbuffer : List α) (n C N : Nat) (chans0 : List (List α))
    (F : Nat) (c f : Nat) : Option α :=
  if f < F then
    if c < C then inbuffer[(f * n + c) % UINT_RANGE]?
    else if c < N then some 0
    else sample chans0 c f
  else sample chans0 c f

/-- Loop invariant of the frame loop of `interleavedRead`, before frame `f`. -/
def ReadInv {α : Type} [Zero α] (inbuffer : List α) (n C N : Nat) (chans0 : List (List α))
    (f : Nat) (chans : List (List α)) : Prop :=
  chans.map List.length = chans0.map List.length ∧
  ∀ c' f', sample chans c' f' = readCell inbuffer n C N chans0 f c' f'

/-- The content of cell `i` of the destination after `interleavedWrite` has
written its first `k` samples (over `n` channels, `C` of them copied from
`chans`) without wrap-around of the index, from the destination `out0`. -/
def writeCell {α : Type} [Zero α] (chans : List (List α)) (n C : Nat) (out0 : List α)
    (k : Nat) (i : Nat) : Option α :=
  if i < k then
    if i % n < C then sample chans (i % n) (i / n) else some 0
  else out0[i]?

/-- Loop invariant of the two inner loops of `interleavedWrite` after `k`
writes without wrap-around: `p` is `k`, and the destination is given by
`writeCell`. -/
def WriteInv {α : Type} [Zero α] (chans : List (List α)) (n C : Nat) (out0 : List α)
    (k : Nat) (st : List α × Nat) : Prop :=
  st.2 = k % UINT_RANGE ∧ st.1.length = out0.length ∧
  ∀ i, st.1[i]? = writeCell chans n C out0 k i

/-- Loop invariant of the two inner loops of `interleavedWrite` in frame `f`,
before channel `c`, wrap-around included: `p` is `f * n + c` modulo `2 ^ 32`,
and every cell whose index is not the index of a sample of the `F` frames is
as in `out0`. -/
def WriteFrameInv {α : Type} (n F : Nat) (out0 : List α) (f c : Nat)
    (st : List α × Nat) : Prop :=
  st.2 = (f * n + c) % UINT_RANGE ∧ st.1.length = out0.length ∧
  ∀ i, (∀ f' c', f' < F → c' < n → i ≠ (f' * n + c') % UINT_RANGE) → st.1[i]? = out0[i]?

/-- The accesses of `deinterleave()` are defined: no index leaves the range of
`int`, every sample read is inside the input buffer and every cell written
exists. -/
def DeintReady {α : Type} (d : Deinterleaver α) : Prop :=
  ∀ c s, c < d.fNumInputs → s < d.fNumFrames →
    c + s * d.fNumInputs ≤ INT_MAX ∧ c + s * d.fNumInputs < d.fInput.length ∧
    (sample d.fOutputs c s).isSome

/-- Index `i` has been written by `interleavedWrite` (over `n` external
channels) before channel `c` of frame `f`: it is the index
`(f' * n + c') mod 2^32` of a slot `(f', c')` that comes before `(f, c)`. -/
def Written (n f c i : Nat) : Prop :=
  ∃ f' c', (f' < f ∨ (f' = f ∧ c' < c)) ∧ c' < n ∧ i = (f' * n + c') % UINT_RANGE

/-! ## Memory access lemmas -/

section Memory

variable {α : Type}

theorem load_eq_ok {buf : List α} {i : Nat} {v : α} :
    load buf i = .ok v ↔ buf[i]? = some v := by
  unfold load
  cases h : buf[i]? <;> simp

theorem load_eq_of_getElem? {b1 b2 : List α} {i j : Nat} (h : b1[i]? = b2[j]?) :
    load b1 i = load b2 j := by
  unfold load
  rw [h]

theorem load_ok_of_lt {buf : List α} {i : Nat} (h : i < buf.length) :
    load buf i = .ok buf[i] := by
  rw [load_eq_ok]
  exact List.getElem?_eq_getElem h

theorem store_eq_ok {buf buf' : List α} {i : Nat} {v : α} :
    store buf i v = .ok buf' ↔ i < buf.length ∧ buf' = buf.set i v := by
  unfold store
  by_cases h : i < buf.length
  · simp [h, eq_comm]
  · simp [h]

theorem store_ok_of_lt {buf : List α} {i : Nat} (v : α) (h : i < buf.length) :
    store buf i v = .ok (buf.set i v) := by
  simp [store, h]

theorem length_of_store {buf buf' : List α} {i : Nat} {v : α}
    (h : store buf i v = .ok buf') : buf'.length = buf.length := by
  obtain ⟨_, rfl⟩ := store_eq_ok.1 h
  simp

theorem getElem?_of_store {buf buf' : List α} {i : Nat} {v : α}
    (h : store buf i v = .ok buf') (j : Nat) :
    buf'[j]? = if j = i then some v else buf[j]? := by
  obtain ⟨hi, rfl⟩ := store_eq_ok.1 h
  by_cases hj : j = i
  · subst hj
    simp [List.getElem?_set, hi]
  · have hj' : i ≠ j := fun e => hj e.symm
    simp [List.getElem?_set, hj, hj']

theorem sample_isSome_iff {chans : List (List α)} {c f : Nat} :
    (sample chans c f).isSome ↔ ∃ b, chans[c]? = some b ∧ f < b.length := by
  unfold sample
  cases h : chans[c]? with
  | none => simp
  | some b =>
    simp only [Option.some.injEq, exists_eq_left']
    constructor
    · intro hs
      by_contra hlt
      rw [List.getElem?_eq_none (Nat.le_of_not_lt hlt)] at hs
      simp at hs
    · intro hlt
      rw [List.getElem?_eq_getElem hlt]
      rfl

theorem load2_eq_ok {chans : List (List α)} {c f : Nat} {v : α} :
    load2 chans c f = .ok v ↔ sample chans c f = some v := by
  unfold load2
  cases h : sample chans c f <;> simp

theorem load2_eq_of_sample {ch1 ch2 : List (List α)} {c f : Nat}
    (h : sample ch1 c f = sample ch2 c f) : load2 ch1 c f = load2 ch2 c f := by
  unfold load2
  rw [h]

theorem store2_eq_ok {chans chans' : List (List α)} {c f : Nat} {v : α} :
    store2 chans c f v = .ok chans' ↔
      ∃ b, chans[c]? = some b ∧ f < b.length ∧ chans' = chans.set c (b.set f v) := by
  unfold store2
  cases h : chans[c]? with
  | none => simp
  | some b =>
    by_cases hf : f < b.length
    · simp [hf, eq_comm]
    · simp [hf]

theorem store2_ok_of_isSome {chans : List (List α)} {c f : Nat} (v : α)
    (h : (sample chans c f).isSome) : ∃ chans', store2 chans c f v = .ok chans' := by
  obtain ⟨b, hb, hf⟩ := sample_isSome_iff.1 h
  exact ⟨_, store2_eq_ok.2 ⟨b, hb, hf, rfl⟩⟩

theorem sample_of_store2 {chans chans' : List (List α)} {c f : Nat} {v : α}
    (h : store2 chans c f v = .ok chans') (c' f' : Nat) :
    sample chans' c' f' = if c' = c ∧ f' = f then some v else sample chans c' f' := by
  obtain ⟨b, hb, hf, rfl⟩ := store2_eq_ok.1 h
  have hc : c < chans.length := by
    rcases List.getElem?_eq_some.1 hb with ⟨hc, _⟩
    exact hc
  unfold sample
  by_cases hcc : c' = c
  · subst hcc
    simp only [List.getElem?_set, hc, if_true, true_and, hb]
    by_cases hff : f' = f
    · subst hff
      simp [hf]
    · have hff' : f ≠ f' := fun e => hff e.symm
      simp [hff, hff']
  · have hcc' : c ≠ c' := fun e => hcc e.symm
    simp [List.getElem?_set, hcc, hcc']

theorem shape_of_store2 {chans chans' : List (List α)} {c f : Nat} {v : α}
    (h : store2 chans c f v = .ok chans') :
    chans'.map List.length = chans.map List.length := by
  obtain ⟨b, hb, hf, rfl⟩ := store2_eq_ok.1 h
  apply List.ext_getElem?
  intro n
  simp only [List.getElem?_map, List.getElem?_set]
  by_cases hn : c = n
  · subst hn
    rcases List.getElem?_eq_some.1 hb with ⟨hc, _⟩
    simp [hc, hb]
  · simp [hn]

end Memory

/-! ## Loop rules -/

section Loops

variable {σ : Type}

/-- Partial correctness of `iterate`: an invariant preserved by every
successful iteration holds at exit. -/
theorem iterate_inv (body : Nat → σ → Except Fault σ) (P : Nat → σ → Prop) :
    ∀ (n i : Nat) (s s' : σ),
      (∀ j t t', i ≤ j → j < i + n → P j t → body j t = .ok t' → P (j + 1) t') →
      P i s → iterate body n i s = .ok s' → P (i + n) s' := by
  intro n
  induction n with
  | zero =>
    intro i s s' _ hP h
    simp only [iterate, Except.ok.injEq] at h
    subst h
    simpa using hP
  | succ n ih =>
    intro i s s' hstep hP h
    simp only [iterate] at h
    cases hb : body i s with
    | error e => simp [hb] at h
    | ok t =>
      simp only [hb] at h
      have hP' : P (i + 1) t := hstep i s t (Nat.le_refl i) (by omega) hP hb
      have := ih (i + 1) t s'
        (fun j u u' h1 h2 => hstep j u u' (by omega) (by omega)) hP' h
      have e : i + 1 + n = i + (n + 1) := by omega
      rw [e] at this
      exact this

/-- Total correctness of `iterate`: if every iteration succeeds from a state
satisfying the invariant and re-establishes it, the loop succeeds. -/
theorem iterate_total (body : Nat → σ → Except Fault σ) (P : Nat → σ → Prop) :
    ∀ (n i : Nat) (s : σ),
      (∀ j t, i ≤ j → j < i + n → P j t → ∃ t', body j t = .ok t' ∧ P (j + 1) t') →
      P i s → ∃ s', iterate body n i s = .ok s' ∧ P (i + n) s' := by
  intro n
  induction n with
  | zero =>
    intro i s _ hP
    exact ⟨s, rfl, by simpa using hP⟩
  | succ n ih =>
    intro i s hstep hP
    obtain ⟨t, hb, hP'⟩ := hstep i s (Nat.le_refl i) (by omega) hP
    obtain ⟨s', hs', hQ⟩ := ih (i + 1) t
      (fun j u h1 h2 => hstep j u (by omega) (by omega)) hP'
    refine ⟨s', ?_, ?_⟩
    · simp only [iterate, hb]
      exact hs'
    · have e : i + 1 + n = i + (n + 1) := by omega
      rw [e] at hQ
      exact hQ

/-- Two loops whose bodies agree on every state satisfying an invariant of the
first one compute the same result, faults included. -/
theorem iterate_congr (body1 body2 : Nat → σ → Except Fault σ) (P : Nat → σ → Prop) :
    ∀ (n i : Nat) (s : σ),
      (∀ j t, i ≤ j → j < i + n → P j t →
        body1 j t = body2 j t ∧ ∀ t', body1 j t = .ok t' → P (j + 1) t') →
      P i s → iterate body1 n i s = iterate body2 n i s := by
  intro n
  induction n with
  | zero => intro i s _ _; rfl
  | succ n ih =>
    intro i s hstep hP
    obtain ⟨heq, hnext⟩ := hstep i s (Nat.le_refl i) (by omega) hP
    simp only [iterate, ← heq]
    cases hb : body1 i s with
    | error e => rfl
    | ok t =>
      exact ih (i + 1) t (fun j u h1 h2 => hstep j u (by omega) (by omega)) (hnext t hb)

theorem forLoop_inv (lo hi : Nat) (body : Nat → σ → Except Fault σ) (P : Nat → σ → Prop)
    (s s' : σ) (hle : lo ≤ hi)
    (hstep : ∀ j t t', lo ≤ j → j < hi → P j t → body j t = .ok t' → P (j + 1) t')
    (hP : P lo s) (h : forLoop lo hi body s = .ok s') : P hi s' := by
  have := iterate_inv body P (hi - lo) lo s s'
    (fun j t t' h1 h2 => hstep j t t' h1 (by omega)) hP h
  have e : lo + (hi - lo) = hi := by omega
  rw [e] at this
  exact this

theorem forLoop_total (lo hi : Nat) (body : Nat → σ → Except Fault σ) (P : Nat → σ → Prop)
    (s : σ) (hle : lo ≤ hi)
    (hstep : ∀ j t, lo ≤ j → j < hi → P j t → ∃ t', body j t = .ok t' ∧ P (j + 1) t')
    (hP : P lo s) : ∃ s', forLoop lo hi body s = .ok s' ∧ P hi s' := by
  have := iterate_total body P (hi - lo) lo s
    (fun j t h1 h2 => hstep j t h1 (by omega)) hP
  have e : lo + (hi - lo) = hi := by omega
  rw [e] at this
  exact this

theorem forLoop_congr (lo hi : Nat) (body1 body2 : Nat → σ → Except Fault σ)
    (P : Nat → σ → Prop) (s : σ)
    (hstep : ∀ j t, lo ≤ j → j < hi → P j t →
      body1 j t = body2 j t ∧ ∀ t', body1 j t = .ok t' → P (j + 1) t')
    (hP : P lo s) : forLoop lo hi body1 s = forLoop lo hi body2 s :=
  iterate_congr body1 body2 P (hi - lo) lo s
    (fun j t h1 h2 => hstep j t h1 (by omega)) hP

theorem forLoop_empty {lo hi : Nat} (body : Nat → σ → Except Fault σ) (s : σ)
    (h : hi ≤ lo) : forLoop lo hi body s = .ok s := by
  unfold forLoop
  rw [Nat.sub_eq_zero_of_le h]
  rfl

end Loops

/-! ## Index arithmetic -/

theorem interleaved_index_lt {c s n F : Nat} (hc : c < n) (hs : s < F) :
    c + s * n < F * n := by
  have h1 : (s + 1) * n ≤ F * n := Nat.mul_le_mul_right n hs
  have h2 : (s + 1) * n = s * n + n := by ring
  omega

/-! ## Deinterleaver and Interleaver: construction -/

section Construction

variable {α : Type}

/-- The allocation loop of both constructors: it succeeds exactly up to the
capacity of the channel table, and yields `n` buffers given by `mk`. -/
theorem alloc_loop_eq_ok (mk : Nat → List α) {n : Nat} {bufs : List (List α)}
    (h : forLoop 0 n (fun i table => allocChannel (mk i) i table) [] = .ok bufs) :
    n ≤ MAX_CHANNELS ∧ bufs.length = n ∧ ∀ i, i < n → bufs[i]? = some (mk i) := by
  refine forLoop_inv 0 n _
    (fun i (outs : List (List α)) =>
      i ≤ MAX_CHANNELS ∧ outs.length = i ∧ ∀ k, k < i → outs[k]? = some (mk k))
    [] bufs (Nat.zero_le n) ?_ ?_ h
  · intro j t t' _ _ hP hb
    obtain ⟨_, hlen, hget⟩ := hP
    by_cases hj : j < MAX_CHANNELS
    · simp only [allocChannel, hj, if_true, Except.ok.injEq] at hb
      subst hb
      refine ⟨hj, by simp [hlen], ?_⟩
      intro k hk
      by_cases hkj : k < j
      · rw [List.getElem?_append_left (by omega)]
        exact hget k hkj
      · have : k = j := by omega
        subst this
        rw [List.getElem?_append_right (by omega)]
        simp [hlen]
    · simp [allocChannel, hj] at hb
  · exact ⟨Nat.zero_le _, rfl, fun k hk => absurd hk (Nat.not_lt_zero k)⟩

theorem alloc_loop_ok (mk : Nat → List α) {n : Nat} (hn : n ≤ MAX_CHANNELS) :
    ∃ bufs, forLoop 0 n (fun i table => allocChannel (mk i) i table) [] = .ok bufs := by
  obtain ⟨bufs, h, _⟩ := forLoop_total 0 n
    (fun i table => allocChannel (mk i) i table)
    (fun _ (_ : List (List α)) => True) [] (Nat.zero_le n)
    (fun j t _ hj _ =>
      ⟨t ++ [mk j], by simp [allocChannel, Nat.lt_of_lt_of_le hj hn], trivial⟩) trivial
  exact ⟨bufs, h⟩

/-- What a successful `Deinterleaver` construction guarantees. -/
theorem deinterleaver_new_eq_ok {F Cin Cout : Nat} {uIn : Nat → α} {uOut : Nat → Nat → α}
    {d : Deinterleaver α} (h : Deinterleaver.new F Cin Cout uIn uOut = .ok d) :
    F * Cin ≤ INT_MAX ∧ max Cin Cout ≤ MAX_CHANNELS ∧
    d.fNumFrames = F ∧ d.fNumInputs = Cin ∧ d.fNumOutputs = max Cin Cout ∧
    d.fInput = (List.range (F * Cin)).map uIn ∧
    d.fOutputs.length = max Cin Cout ∧
    ∀ i, i < max Cin Cout → d.fOutputs[i]? = some ((List.range F).map (uOut i)) := by
  unfold Deinterleaver.new at h
  simp only at h
  by_cases hov : INT_MAX < F * Cin
  · simp [hov] at h
  · simp only [hov, if_false] at h
    cases hl : forLoop 0 (max Cin Cout)
        (fun i table => allocChannel ((List.range F).map (uOut i)) i table)
        ([] : List (List α)) with
    | error e => simp [hl] at h
    | ok bufs =>
      simp only [hl, Except.ok.injEq] at h
      obtain ⟨h1, h2, h3⟩ := alloc_loop_eq_ok (fun i => (List.range F).map (uOut i)) hl
      subst h
      exact ⟨Nat.le_of_not_lt hov, h1, rfl, rfl, rfl, rfl, h2, h3⟩

/-- What a successful `Interleaver` construction guarantees. -/
theorem interleaver_new_eq_ok {F Cin Cout : Nat} {uIn : Nat → Nat → α} {uOut : Nat → α}
    {it : Interleaver α} (h : Interleaver.new F Cin Cout uIn uOut = .ok it) :
    F * Cout ≤ INT_MAX ∧ max Cin Cout ≤ MAX_CHANNELS ∧
    it.fNumFrames = F ∧ it.fNumInputs = max Cin Cout ∧ it.fNumOutputs = Cout ∧
    it.fOutput = (List.range (F * Cout)).map uOut ∧
    it.fInputs.length = max Cin Cout ∧
    ∀ i, i < max Cin Cout → it.fInputs[i]? = some ((List.range F).map (uIn i)) := by
  unfold Interleaver.new at h
  simp only at h
  cases hl : forLoop 0 (max Cin Cout)
      (fun i table => allocChannel ((List.range F).map (uIn i)) i table)
      ([] : List (List α)) with
  | error e => simp [hl] at h
  | ok bufs =>
    simp only [hl] at h
    by_cases hov : INT_MAX < F * Cout
    · simp [hov] at h
    · simp only [hov, if_false, Except.ok.injEq] at h
      obtain ⟨h1, h2, h3⟩ := alloc_loop_eq_ok (fun i => (List.range F).map (uIn i)) hl
      subst h
      exact ⟨Nat.le_of_not_lt hov, h1, rfl, rfl, rfl, rfl, h2, h3⟩

/-- A `Deinterleaver` can be constructed when the channel table is large enough
and the size of the interleaved buffer is an `int`. -/
theorem deinterleaver_new_ok (F Cin Cout : Nat) (uIn : Nat → α) (uOut : Nat → Nat → α)
    (hcap : max Cin Cout ≤ MAX_CHANNELS) (hov : F * Cin ≤ INT_MAX) :
    ∃ d, Deinterleaver.new F Cin Cout uIn uOut = .ok d := by
  obtain ⟨bufs, h⟩ := alloc_loop_ok (fun i => (List.range F).map (uOut i)) hcap
  exact ⟨⟨F, Cin, max Cin Cout, (List.range (F * Cin)).map uIn, bufs⟩, by
    simp only [Deinterleaver.new, Nat.not_lt.2 hov, if_false, h]⟩

/-- An `Interleaver` can be constructed when the channel table is large enough
and the size of the interleaved buffer is an `int`. -/
theorem interleaver_new_ok (F Cin Cout : Nat) (uIn : Nat → Nat → α) (uOut : Nat → α)
    (hcap : max Cin Cout ≤ MAX_CHANNELS) (hov : F * Cout ≤ INT_MAX) :
    ∃ it, Interleaver.new F Cin Cout uIn uOut = .ok it := by
  obtain ⟨bufs, h⟩ := alloc_loop_ok (fun i => (List.range F).map (uIn i)) hcap
  exact ⟨⟨F, max Cin Cout, Cout, bufs, (List.range (F * Cout)).map uOut⟩, by
    simp only [Interleaver.new, h, Nat.not_lt.2 hov, if_false]⟩

/-- Every cell `(c, f)` with `c` below the number of buffers and `f` below their
common length exists. -/
theorem sample_isSome_of_shape {chans : List (List α)} {n F : Nat}
    (hlen : n ≤ chans.length) (hb : ∀ b ∈ chans, b.length = F) {c f : Nat}
    (hc : c < n) (hf : f < F) : (sample chans c f).isSome := by
  rw [sample_isSome_iff]
  have hc' : c < chans.length := Nat.lt_of_lt_of_le hc hlen
  refine ⟨chans[c], List.getElem?_eq_getElem hc', ?_⟩
  rw [hb _ (List.getElem_mem hc')]
  exact hf

end Construction

/-! ## Deinterleaver.deinterleave -/

section Deinterleave

variable {α : Type}

theorem deintInv_step {d : Deinterleaver α} {outs0 outs outs' : List (List α)}
    {s c : Nat} (hc : c < d.fNumInputs)
    (hinv : DeintInv d.fInput d.fNumInputs outs0 s c outs)
    (hb : d.copy s c outs = .ok outs') :
    DeintInv d.fInput d.fNumInputs outs0 s (c + 1) outs' := by
  unfold Deinterleaver.copy at hb
  by_cases hov : INT_MAX < c + s * d.fNumInputs
  · simp [hov] at hb
  · simp only [hov, if_false] at hb
    cases hl : load d.fInput (c + s * d.fNumInputs) with
    | error e => simp [hl] at hb
    | ok v =>
      simp only [hl] at hb
      have hv := load_eq_ok.1 hl
      intro c' f
      rw [sample_of_store2 hb c' f, hinv c' f]
      by_cases h1 : c' = c ∧ f = s
      · obtain ⟨rfl, rfl⟩ := h1
        simp [hc, hv]
      · simp only [h1, if_false]
        have : (c' < d.fNumInputs ∧ (f < s ∨ f = s ∧ c' < c + 1)) ↔
            (c' < d.fNumInputs ∧ (f < s ∨ f = s ∧ c' < c)) := by
          constructor
          · rintro ⟨h2, h3⟩
            refine ⟨h2, ?_⟩
            rcases h3 with h3 | ⟨h3, h4⟩
            · exact Or.inl h3
            · right
              refine ⟨h3, ?_⟩
              have : c' ≠ c := fun e => h1 ⟨e, h3⟩
              omega
          · rintro ⟨h2, h3⟩
            refine ⟨h2, ?_⟩
            rcases h3 with h3 | ⟨h3, h4⟩
            · exact Or.inl h3
            · exact Or.inr ⟨h3, by omega⟩
        simp only [this]

theorem deintInv_next {input : List α} {n : Nat} {outs0 outs : List (List α)} {s : Nat}
    (h : DeintInv input n outs0 s n outs) : DeintInv input n outs0 (s + 1) 0 outs := by
  intro c' f
  rw [h c' f]
  have : (c' < n ∧ (f < s ∨ f = s ∧ c' < n)) ↔ (c' < n ∧ (f < s + 1 ∨ f = s + 1 ∧ c' < 0)) := by
    constructor
    · rintro ⟨h2, h3⟩
      exact ⟨h2, Or.inl (by omega)⟩
    · rintro ⟨h2, h3⟩
      refine ⟨h2, ?_⟩
      rcases h3 with h3 | ⟨_, h4⟩
      · by_cases h5 : f < s
        · exact Or.inl h5
        · exact Or.inr ⟨by omega, h2⟩
      · exact absurd h4 (Nat.not_lt_zero _)
  simp only [this]

theorem deintInv_init (input : List α) (n : Nat) (outs0 : List (List α)) :
    DeintInv input n outs0 0 0 outs0 := by
  intro c' f
  simp

/-- Partial correctness of `deinterleave`, on any state: the cells `(c, f)`
with `c < fNumInputs` and `f < fNumFrames` receive `fInput[c + f*fNumInputs]`,
and nothing else changes. -/
theorem deinterleave_eq_ok {d d' : Deinterleaver α}
    (h : d.deinterleave = .ok d') :
    d' = { d with fOutputs := d'.fOutputs } ∧
    ∀ c f, sample d'.fOutputs c f =
      if c < d.fNumInputs ∧ f < d.fNumFrames then d.fInput[c + f * d.fNumInputs]?
      else sample d.fOutputs c f := by
  unfold Deinterleaver.deinterleave at h
  cases hl : forLoop 0 d.fNumFrames
      (fun s outs => forLoop 0 d.fNumInputs (d.copy s) outs) d.fOutputs with
  | error e => simp [hl] at h
  | ok outs =>
    simp only [hl, Except.ok.injEq] at h
    subst h
    refine ⟨rfl, ?_⟩
    have hfin := forLoop_inv 0 d.fNumFrames _
      (fun s outs => DeintInv d.fInput d.fNumInputs d.fOutputs s 0 outs)
      d.fOutputs outs (Nat.zero_le _)
      (fun s t t' _ _ hP hb => deintInv_next
        (forLoop_inv 0 d.fNumInputs _
          (fun c outs => DeintInv d.fInput d.fNumInputs d.fOutputs s c outs)
          t t' (Nat.zero_le _)
          (fun c u u' _ hc hQ hb' => deintInv_step hc hQ hb') hP hb))
      (deintInv_init _ _ _) hl
    intro c f
    rw [hfin c f]
    simp

/-- Total correctness of `deinterleave`: it succeeds on every state whose
buffers have the sizes given by the constructor. -/
theorem deinterleave_ok (d : Deinterleaver α)
    (hov : d.fNumFrames * d.fNumInputs ≤ INT_MAX)
    (hin : d.fNumFrames * d.fNumInputs ≤ d.fInput.length)
    (hout : ∀ c f, c < d.fNumInputs → f < d.fNumFrames → (sample d.fOutputs c f).isSome) :
    ∃ d', d.deinterleave = .ok d' := by
  have hinner : ∀ s t, 0 ≤ s → s < d.fNumFrames →
      DeintInv d.fInput d.fNumInputs d.fOutputs s 0 t →
      ∃ t', forLoop 0 d.fNumInputs (d.copy s) t = .ok t' ∧
        DeintInv d.fInput d.fNumInputs d.fOutputs (s + 1) 0 t' := by
    intro s t _ hs hP
    have hstep : ∀ c u, 0 ≤ c → c < d.fNumInputs →
        DeintInv d.fInput d.fNumInputs d.fOutputs s c u →
        ∃ u', d.copy s c u = .ok u' ∧
          DeintInv d.fInput d.fNumInputs d.fOutputs s (c + 1) u' := by
      intro c u _ hc hQ
      have hidx := interleaved_index_lt hc hs
      have hno : ¬ INT_MAX < c + s * d.fNumInputs := by omega
      have hlt : c + s * d.fNumInputs < d.fInput.length := by omega
      have hcell : (sample u c s).isSome := by
        rw [hQ c s]
        simpa using hout c s hc hs
      obtain ⟨u', hu'⟩ := store2_ok_of_isSome d.fInput[c + s * d.fNumInputs] hcell
      have hb : d.copy s c u = .ok u' := by
        simp only [Deinterleaver.copy, hno, if_false, load_ok_of_lt hlt]
        exact hu'
      exact ⟨u', hb, deintInv_step hc hQ hb⟩
    obtain ⟨t', ht', hQ⟩ := forLoop_total 0 d.fNumInputs (d.copy s)
      (fun c outs => DeintInv d.fInput d.fNumInputs d.fOutputs s c outs)
      t (Nat.zero_le _) hstep hP
    exact ⟨t', ht', deintInv_next hQ⟩
  obtain ⟨outs, hl, _⟩ := forLoop_total 0 d.fNumFrames
    (fun s outs => forLoop 0 d.fNumInputs (d.copy s) outs)
    (fun s outs => DeintInv d.fInput d.fNumInputs d.fOutputs s 0 outs)
    d.fOutputs (Nat.zero_le _) hinner (deintInv_init _ _ _)
  exact ⟨{ d with fOutputs := outs }, by simp [Deinterleaver.deinterleave, hl]⟩

end Deinterleave

/-! ## Interleaver.interleave -/

section Interleave

variable {α : Type}

theorem interInv_step {it : Interleaver α} {out0 out out' : List α} {s c : Nat}
    (hc : c < it.fNumOutputs)
    (hinv : InterInv it.fInputs it.fNumOutputs out0 (s * it.fNumOutputs + c) out)
    (hb : it.copy s c out = .ok out') :
    InterInv it.fInputs it.fNumOutputs out0 (s * it.fNumOutputs + (c + 1)) out' := by
  unfold Interleaver.copy at hb
  by_cases hov : INT_MAX < c + s * it.fNumOutputs
  · simp [hov] at hb
  · simp only [hov, if_false] at hb
    cases hl : load2 it.fInputs c s with
    | error e => simp [hl] at hb
    | ok v =>
      simp only [hl] at hb
      have hv := load2_eq_ok.1 hl
      refine ⟨by rw [length_of_store hb]; exact hinv.1, ?_⟩
      intro i
      rw [getElem?_of_store hb i, hinv.2 i]
      by_cases h1 : i = c + s * it.fNumOutputs
      · subst h1
        have hlt : c + s * it.fNumOutputs < s * it.fNumOutputs + (c + 1) := by omega
        have hmod : (c + s * it.fNumOutputs) % it.fNumOutputs = c := by
          rw [Nat.add_mul_mod_self_right]
          exact Nat.mod_eq_of_lt hc
        have hdiv : (c + s * it.fNumOutputs) / it.fNumOutputs = s := by
          rw [Nat.add_mul_div_right _ _ (by omega), Nat.div_eq_of_lt hc]
          omega
        simp only [if_true, hlt, hmod, hdiv, hv]
      · simp only [h1, if_false]
        have : (i < s * it.fNumOutputs + (c + 1)) ↔ (i < s * it.fNumOutputs + c) := by omega
        simp only [this]

theorem interInv_init (inputs : List (List α)) (n : Nat) (out0 : List α) :
    InterInv inputs n out0 0 out0 :=
  ⟨rfl, fun i => by simp⟩

/-- Partial correctness of `interleave`, on any state: the first
`fNumFrames * fNumOutputs` cells of the output receive the input samples in
frame-major order, and nothing else changes. -/
theorem interleave_eq_ok {it it' : Interleaver α}
    (h : it.interleave = .ok it') :
    it' = { it with fOutput := it'.fOutput } ∧
    it'.fOutput.length = it.fOutput.length ∧
    ∀ i, it'.fOutput[i]? =
      if i < it.fNumFrames * it.fNumOutputs
      then sample it.fInputs (i % it.fNumOutputs) (i / it.fNumOutputs)
      else it.fOutput[i]? := by
  unfold Interleaver.interleave at h
  cases hl : forLoop 0 it.fNumFrames
      (fun s out => forLoop 0 it.fNumOutputs (it.copy s) out) it.fOutput with
  | error e => simp [hl] at h
  | ok out =>
    simp only [hl, Except.ok.injEq] at h
    subst h
    refine ⟨rfl, ?_⟩
    have hfin := forLoop_inv 0 it.fNumFrames _
      (fun s out => InterInv it.fInputs it.fNumOutputs it.fOutput (s * it.fNumOutputs) out)
      it.fOutput out (Nat.zero_le _)
      (fun s t t' _ _ hP hb => by
        have := forLoop_inv 0 it.fNumOutputs _
          (fun c out =>
            InterInv it.fInputs it.fNumOutputs it.fOutput (s * it.fNumOutputs + c) out)
          t t' (Nat.zero_le _)
          (fun c u u' _ hc hQ hb' => interInv_step hc hQ hb') hP hb
        have e : (s + 1) * it.fNumOutputs = s * it.fNumOutputs + it.fNumOutputs := by ring
        show InterInv it.fInputs it.fNumOutputs it.fOutput ((s + 1) * it.fNumOutputs) t'
        rw [e]
        exact this)
      (by simpa using interInv_init it.fInputs it.fNumOutputs it.fOutput) hl
    exact hfin

/-- Total correctness of `interleave`: it succeeds on every state whose buffers
have the sizes given by the constructor. -/
theorem interleave_ok (it : Interleaver α)
    (hov : it.fNumFrames * it.fNumOutputs ≤ INT_MAX)
    (hout : it.fNumFrames * it.fNumOutputs ≤ it.fOutput.length)
    (hin : ∀ c f, c < it.fNumOutputs → f < it.fNumFrames → (sample it.fInputs c f).isSome) :
    ∃ it', it.interleave = .ok it' := by
  have hinner : ∀ s t, 0 ≤ s → s < it.fNumFrames →
      InterInv it.fInputs it.fNumOutputs it.fOutput (s * it.fNumOutputs) t →
      ∃ t', forLoop 0 it.fNumOutputs (it.copy s) t = .ok t' ∧
        InterInv it.fInputs it.fNumOutputs it.fOutput ((s + 1) * it.fNumOutputs) t' := by
    intro s t _ hs hP
    have hstep : ∀ c u, 0 ≤ c → c < it.fNumOutputs →
        InterInv it.fInputs it.fNumOutputs it.fOutput (s * it.fNumOutputs + c) u →
        ∃ u', it.copy s c u = .ok u' ∧
          InterInv it.fInputs it.fNumOutputs it.fOutput (s * it.fNumOutputs + (c + 1)) u' := by
      intro c u _ hc hQ
      have hidx := interleaved_index_lt hc hs
      have hno : ¬ INT_MAX < c + s * it.fNumOutputs := by omega
      have hlt : c + s * it.fNumOutputs < u.length := by
        rw [hQ.1]
        omega
      obtain ⟨v, hv⟩ := Option.isSome_iff_exists.1 (hin c s hc hs)
      have hb : it.copy s c u = .ok (u.set (c + s * it.fNumOutputs) v) := by
        simp only [Interleaver.copy, hno, if_false, load2_eq_ok.2 hv]
        exact store_ok_of_lt v hlt
      exact ⟨_, hb, interInv_step hc hQ hb⟩
    obtain ⟨t', ht', hQ⟩ := forLoop_total 0 it.fNumOutputs (it.copy s)
      (fun c out => InterInv it.fInputs it.fNumOutputs it.fOutput (s * it.fNumOutputs + c) out)
      t (Nat.zero_le _) hstep (by simpa using hP)
    have e : (s + 1) * it.fNumOutputs = s * it.fNumOutputs + it.fNumOutputs := by ring
    rw [e]
    exact ⟨t', ht', hQ⟩
  obtain ⟨out, hl, _⟩ := forLoop_total 0 it.fNumFrames
    (fun s out => forLoop 0 it.fNumOutputs (it.copy s) out)
    (fun s out => InterInv it.fInputs it.fNumOutputs it.fOutput (s * it.fNumOutputs) out)
    it.fOutput (Nat.zero_le _) hinner
    (by simpa using interInv_init it.fInputs it.fNumOutputs it.fOutput)
  exact ⟨{ it with fOutput := out }, by simp [Interleaver.interleave, hl]⟩

end Interleave

/-! ## Shapes of the buffers of `Deinterleaver` and `Interleaver` -/

section ShapeLemmas
variable {α : Type}

/-- The shape of a group of buffers whose entries are known. -/
theorem shape_of_entries {chans : List (List α)} {n F : Nat} {mk : Nat → List α}
    (hlen : chans.length = n) (hget : ∀ i, i < n → chans[i]? = some (mk i))
    (hmk : ∀ i, (mk i).length = F) : chans.map List.length = List.replicate n F := by
  apply List.ext_getElem?
  intro i
  rw [List.getElem?_map, List.getElem?_replicate]
  by_cases hi : i < n
  · simp [hget i hi, hi, hmk i]
  · rw [List.getElem?_eq_none (by omega)]
    simp [hi]

theorem deinterleaver_new_shape {F Cin Cout : Nat} {uIn : Nat → α} {uOut : Nat → Nat → α}
    {d : Deinterleaver α} (h : Deinterleaver.new F Cin Cout uIn uOut = .ok d) :
    d.fOutputs.map List.length = List.replicate (max Cin Cout) F := by
  obtain ⟨_, _, _, _, _, _, hlen, hget⟩ := deinterleaver_new_eq_ok h
  exact shape_of_entries hlen hget (fun i => by simp)

theorem interleaver_new_shape {F Cin Cout : Nat} {uIn : Nat → Nat → α} {uOut : Nat → α}
    {it : Interleaver α} (h : Interleaver.new F Cin Cout uIn uOut = .ok it) :
    it.fInputs.map List.length = List.replicate (max Cin Cout) F := by
  obtain ⟨_, _, _, _, _, _, hlen, hget⟩ := interleaver_new_eq_ok h
  exact shape_of_entries hlen hget (fun i => by simp)

theorem deinterleaver_copy_shape {d : Deinterleaver α} {s c : Nat} {outs outs' : List (List α)}
    (h : d.copy s c outs = .ok outs') :
    outs'.map List.length = outs.map List.length := by
  unfold Deinterleaver.copy at h
  by_cases hov : INT_MAX < c + s * d.fNumInputs
  · simp [hov] at h
  · simp only [hov, if_false] at h
    cases hl : load d.fInput (c + s * d.fNumInputs) with
    | error e => simp [hl] at h
    | ok v =>
      simp only [hl] at h
      exact shape_of_store2 h

/-- The method `deinterleave()` keeps the number and the sizes of the output
buffers. -/
theorem deinterleave_shape {d d' : Deinterleaver α} (h : d.deinterleave = .ok d') :
    d'.fOutputs.map List.length = d.fOutputs.map List.length := by
  unfold Deinterleaver.deinterleave at h
  cases hl : forLoop 0 d.fNumFrames
      (fun s outs => forLoop 0 d.fNumInputs (d.copy s) outs) d.fOutputs with
  | error e => simp [hl] at h
  | ok outs =>
    simp only [hl, Except.ok.injEq] at h
    subst h
    exact forLoop_inv 0 d.fNumFrames _
      (fun _ (o : List (List α)) => o.map List.length = d.fOutputs.map List.length)
      d.fOutputs outs (Nat.zero_le _)
      (fun s t t' _ _ hP hb =>
        forLoop_inv 0 d.fNumInputs _
          (fun _ (o : List (List α)) => o.map List.length = d.fOutputs.map List.length)
          t t' (Nat.zero_le _)
          (fun c u u' _ _ hQ hb' => by
            show u'.map List.length = d.fOutputs.map List.length
            rw [deinterleaver_copy_shape hb']
            exact hQ)
          hP hb)
      rfl hl

end ShapeLemmas

/-! ## Claims on `Deinterleaver` and `Interleaver` -/

section LayoutClaims

variable {α : Type}

theorem sample_of_getElem? {chans : List (List α)} {c : Nat} {b : List α}
    (h : chans[c]? = some b) (f : Nat) : sample chans c f = b[f]? := by
  simp [sample, h]

theorem deinterleaver_sample_new {F Cin Cout : Nat} {uIn : Nat → α} {uOut : Nat → Nat → α}
    {d : Deinterleaver α} (h : Deinterleaver.new F Cin Cout uIn uOut = .ok d) {c f : Nat}
    (hc : c < max Cin Cout) (hf : f < F) : sample d.fOutputs c f = some (uOut c f) := by
  obtain ⟨_, _, _, _, _, _, _, hget⟩ := deinterleaver_new_eq_ok h
  rw [sample_of_getElem? (hget c hc), List.getElem?_map, List.getElem?_range hf]
  rfl

/-- C1: for every `Deinterleaver` constructed with frame count `F` and channel
counts `Cin`, `Cout`, and every content `input` of its interleaved input buffer
(`F * Cin` samples), `deinterleave()` completes, leaves the input buffer as it
is, and afterwards `outputs[c][f] = input[c + f*Cin]` for every frame `f < F`
and every channel `c < Cin`. -/
theorem deinterleave_layout (F Cin Cout : Nat) (uIn : Nat → α) (uOut : Nat → Nat → α)
    (d : Deinterleaver α) (hnew : Deinterleaver.new F Cin Cout uIn uOut = .ok d)
    (input : List α) (hlen : input.length = F * Cin) :
    ∃ d', Deinterleaver.deinterleave { d with fInput := input } = .ok d' ∧
      d'.fInput = input ∧
      ∀ f c, f < F → c < Cin →
        ∃ v, input[c + f * Cin]? = some v ∧ sample d'.fOutputs c f = some v := by
  obtain ⟨hov, _, hF, hCin, _, _, _, _⟩ := deinterleaver_new_eq_ok hnew
  have hsome : ∀ c f, c < Cin → f < F → (sample d.fOutputs c f).isSome := by
    intro c f hc hf
    rw [deinterleaver_sample_new hnew (lt_max_of_lt_left hc) hf]
    rfl
  obtain ⟨d', hd'⟩ := deinterleave_ok { d with fInput := input }
    (by simpa [hF, hCin] using hov) (by simp [hF, hCin, hlen])
    (by simpa [hF, hCin] using hsome)
  obtain ⟨hrec, hcells⟩ := deinterleave_eq_ok hd'
  refine ⟨d', hd', by rw [hrec], ?_⟩
  intro f c hf hc
  have hidx : c + f * Cin < input.length := by
    rw [hlen]
    exact interleaved_index_lt hc hf
  refine ⟨input[c + f * Cin], List.getElem?_eq_getElem hidx, ?_⟩
  rw [hcells c f]
  simp [hF, hCin, hc, hf, List.getElem?_eq_getElem hidx]

/-- The scenario of C1: `Deinterleaver(4, 2, 2)` fed `[1,2, 3,4, 5,6, 7,8]`
yields `outputs[0] = [1,3,5,7]` and `outputs[1] = [2,4,6,8]`. -/
theorem deinterleave_layout_witness :
    (Deinterleaver.new 4 2 2 (fun _ => (0 : Int)) (fun _ _ => 0)
        = .ok ⟨4, 2, 2, [0, 0, 0, 0, 0, 0, 0, 0], [[0, 0, 0, 0], [0, 0, 0, 0]]⟩) ∧
    (Deinterleaver.deinterleave
        (⟨4, 2, 2, [1, 2, 3, 4, 5, 6, 7, 8], [[0, 0, 0, 0], [0, 0, 0, 0]]⟩ : Deinterleaver Int)
        = .ok ⟨4, 2, 2, [1, 2, 3, 4, 5, 6, 7, 8], [[1, 3, 5, 7], [2, 4, 6, 8]]⟩) ∧
    (∃ d', Deinterleaver.deinterleave
        (⟨4, 2, 2, [1, 2, 3, 4, 5, 6, 7, 8], [[0, 0, 0, 0], [0, 0, 0, 0]]⟩ : Deinterleaver Int)
        = .ok d' ∧
      d'.fInput = [1, 2, 3, 4, 5, 6, 7, 8] ∧
      ∀ f c, f < 4 → c < 2 →
        ∃ v, ([1, 2, 3, 4, 5, 6, 7, 8] : List Int)[c + f * 2]? = some v ∧
          sample d'.fOutputs c f = some v) :=
  ⟨rfl, rfl,
    deinterleave_layout 4 2 2 (fun _ => (0 : Int)) (fun _ _ => 0)
      ⟨4, 2, 2, [0, 0, 0, 0, 0, 0, 0, 0], [[0, 0, 0, 0], [0, 0, 0, 0]]⟩ rfl
      [1, 2, 3, 4, 5, 6, 7, 8] rfl⟩

theorem interleaver_sample_new {F Cin Cout : Nat} {uIn : Nat → Nat → α} {uOut : Nat → α}
    {it : Interleaver α} (h : Interleaver.new F Cin Cout uIn uOut = .ok it) {c f : Nat}
    (hc : c < max Cin Cout) (hf : f < F) : sample it.fInputs c f = some (uIn c f) := by
  obtain ⟨_, _, _, _, _, _, _, hget⟩ := interleaver_new_eq_ok h
  rw [sample_of_getElem? (hget c hc), List.getElem?_map, List.getElem?_range hf]
  rfl

theorem mod_add_div_mul (i n : Nat) : i % n + i / n * n = i := by
  rw [Nat.mul_comm]
  exact Nat.mod_add_div i n

theorem div_lt_of_lt_mul_right {i F n : Nat} (h : i < F * n) : i / n < F :=
  Nat.div_lt_of_lt_mul (by rw [Nat.mul_comm]; exact h)

theorem mod_lt_of_lt_mul_right {i F n : Nat} (h : i < F * n) : i % n < n := by
  apply Nat.mod_lt
  rcases Nat.eq_zero_or_pos n with h0 | h0
  · subst h0
    simp at h
  · exact h0

/-- C2: for every `Interleaver` constructed with frame count `F` and channel
counts `Cin`, `Cout`, and every content `inputs` of its per-channel input
buffers (`max Cin Cout` buffers of `F` samples), `interleave()` completes, leaves
the inputs as they are, and afterwards `output[c + f*Cout] = inputs[c][f]` for
every frame `f < F` and channel `c < Cout`; the output has exactly `F * Cout`
samples, so that every sample `i` of it is `inputs[i % Cout][i / Cout]`. -/
theorem interleave_layout (F Cin Cout : Nat) (uIn : Nat → Nat → α) (uOut : Nat → α)
    (it : Interleaver α) (hnew : Interleaver.new F Cin Cout uIn uOut = .ok it)
    (inputs : List (List α)) (hlen : inputs.length = max Cin Cout)
    (hbuf : ∀ b ∈ inputs, b.length = F) :
    ∃ it', Interleaver.interleave { it with fInputs := inputs } = .ok it' ∧
      it'.fInputs = inputs ∧
      it'.fOutput.length = F * Cout ∧
      (∀ f c, f < F → c < Cout →
        ∃ v, sample inputs c f = some v ∧ it'.fOutput[c + f * Cout]? = some v) ∧
      (∀ i, i < F * Cout →
        ∃ v, sample inputs (i % Cout) (i / Cout) = some v ∧ it'.fOutput[i]? = some v) := by
  obtain ⟨hov, _, hF, _, hCout, hout, _, _⟩ := interleaver_new_eq_ok hnew
  have hsome : ∀ c f, c < Cout → f < F → (sample inputs c f).isSome := fun c f hc hf =>
    sample_isSome_of_shape (Nat.le_of_eq hlen.symm) hbuf (lt_max_of_lt_right hc) hf
  have holen : it.fOutput.length = F * Cout := by simp [hout]
  obtain ⟨it', hit'⟩ := interleave_ok { it with fInputs := inputs }
    (by simpa [hF, hCout] using hov) (by simp [hF, hCout, holen])
    (by simpa [hF, hCout] using hsome)
  obtain ⟨hrec, hlen', hcells⟩ := interleave_eq_ok hit'
  simp only [hF, hCout] at hcells hlen'
  have hall : ∀ i, i < F * Cout →
      ∃ v, sample inputs (i % Cout) (i / Cout) = some v ∧ it'.fOutput[i]? = some v := by
    intro i hi
    obtain ⟨v, hv⟩ := Option.isSome_iff_exists.1
      (hsome (i % Cout) (i / Cout) (mod_lt_of_lt_mul_right hi) (div_lt_of_lt_mul_right hi))
    exact ⟨v, hv, by rw [hcells i, if_pos hi, hv]⟩
  refine ⟨it', hit', by rw [hrec], by rw [hlen', holen], ?_, hall⟩
  intro f c hf hc
  have hi := interleaved_index_lt hc hf
  obtain ⟨v, hv, hv'⟩ := hall (c + f * Cout) hi
  refine ⟨v, ?_, hv'⟩
  rw [← hv, Nat.add_mul_mod_self_right, Nat.mod_eq_of_lt hc,
    Nat.add_mul_div_right _ _ (by omega), Nat.div_eq_of_lt hc, Nat.zero_add]

/-- An instance of C2: `Interleaver(2, 1, 3)` with inputs `[1,2]`, `[3,4]`,
`[5,6]` produces the output `[1,3,5, 2,4,6]`. -/
theorem interleave_layout_witness :
    (Interleaver.new 2 1 3 (fun _ _ => (0 : Int)) (fun _ => 0)
        = .ok ⟨2, 3, 3, [[0, 0], [0, 0], [0, 0]], [0, 0, 0, 0, 0, 0]⟩) ∧
    (Interleaver.interleave
        (⟨2, 3, 3, [[1, 2], [3, 4], [5, 6]], [0, 0, 0, 0, 0, 0]⟩ : Interleaver Int)
        = .ok ⟨2, 3, 3, [[1, 2], [3, 4], [5, 6]], [1, 3, 5, 2, 4, 6]⟩) ∧
    (∃ it', Interleaver.interleave
        (⟨2, 3, 3, [[1, 2], [3, 4], [5, 6]], [0, 0, 0, 0, 0, 0]⟩ : Interleaver Int)
        = .ok it' ∧
      it'.fInputs = [[1, 2], [3, 4], [5, 6]] ∧
      it'.fOutput.length = 2 * 3 ∧
      (∀ f c, f < 2 → c < 3 →
        ∃ v, sample ([[1, 2], [3, 4], [5, 6]] : List (List Int)) c f = some v ∧
          it'.fOutput[c + f * 3]? = some v) ∧
      (∀ i, i < 2 * 3 →
        ∃ v, sample ([[1, 2], [3, 4], [5, 6]] : List (List Int)) (i % 3) (i / 3) = some v ∧
          it'.fOutput[i]? = some v)) :=
  ⟨rfl, rfl,
    interleave_layout 2 1 3 (fun _ _ => (0 : Int)) (fun _ => 0)
      ⟨2, 3, 3, [[0, 0], [0, 0], [0, 0]], [0, 0, 0, 0, 0, 0]⟩ rfl
      [[1, 2], [3, 4], [5, 6]] rfl (by decide)⟩

/-- C3: round trip.  For every `F`, `C` and every interleaved buffer `b` of
`F * C` samples, loading `b` into a constructed `Deinterleaver(F, C, C)`,
calling `deinterleave()`, passing the resulting per-channel buffers (which have
the sizes of the input buffers of the `Interleaver`) as the inputs of a
constructed `Interleaver(F, C, C)` and calling `interleave()` completes and
yields an interleaved output equal to `b`. -/
theorem interleave_deinterleave_roundtrip (F C : Nat)
    (uIn : Nat → α) (uOut : Nat → Nat → α) (vIn : Nat → Nat → α) (vOut : Nat → α)
    (d : Deinterleaver α) (it : Interleaver α)
    (hd : Deinterleaver.new F C C uIn uOut = .ok d)
    (hit : Interleaver.new F C C vIn vOut = .ok it)
    (b : List α) (hb : b.length = F * C) :
    ∃ d' it', Deinterleaver.deinterleave { d with fInput := b } = .ok d' ∧
      d'.fOutputs.map List.length = it.fInputs.map List.length ∧
      Interleaver.interleave { it with fInputs := d'.fOutputs } = .ok it' ∧
      it'.fOutput = b := by
  obtain ⟨hov', _, hF', hCin', _, _, _, _⟩ := deinterleaver_new_eq_ok hd
  obtain ⟨d', hd'⟩ := deinterleave_ok { d with fInput := b }
    (by simpa [hF', hCin'] using hov') (by simp [hF', hCin', hb])
    (by
      intro c f hc hf
      simp only [hF', hCin'] at hc hf
      rw [deinterleaver_sample_new hd (lt_max_of_lt_left hc) hf]
      rfl)
  have hcells : ∀ f c, f < F → c < C →
      ∃ v, b[c + f * C]? = some v ∧ sample d'.fOutputs c f = some v := by
    intro f c hf hc
    have hidx : c + f * C < b.length := by
      rw [hb]
      exact interleaved_index_lt hc hf
    refine ⟨b[c + f * C], List.getElem?_eq_getElem hidx, ?_⟩
    rw [(deinterleave_eq_ok hd').2 c f]
    simp [hF', hCin', hc, hf, List.getElem?_eq_getElem hidx]
  obtain ⟨hov, _, hF, _, hCout, hout, _, _⟩ := interleaver_new_eq_ok hit
  have holen : it.fOutput.length = F * C := by simp [hout]
  have hsome : ∀ c f, c < C → f < F → (sample d'.fOutputs c f).isSome := by
    intro c f hc hf
    obtain ⟨v, _, hv⟩ := hcells f c hf hc
    rw [hv]
    rfl
  obtain ⟨it', hit'⟩ := interleave_ok { it with fInputs := d'.fOutputs }
    (by simpa [hF, hCout] using hov) (by simp [hF, hCout, holen])
    (by simpa [hF, hCout] using hsome)
  obtain ⟨_, hlen', hout'⟩ := interleave_eq_ok hit'
  simp only [hF, hCout] at hout' hlen'
  have hshape : d'.fOutputs.map List.length = it.fInputs.map List.length := by
    have h1 := deinterleave_shape hd'
    have h2 : d.fOutputs.map List.length = List.replicate (max C C) F :=
      deinterleaver_new_shape hd
    rw [h1, interleaver_new_shape hit]
    exact h2
  refine ⟨d', it', hd', hshape, hit', ?_⟩
  apply List.ext_getElem?
  intro i
  by_cases hi : i < F * C
  · obtain ⟨v, hv, hv'⟩ :=
      hcells (i / C) (i % C) (div_lt_of_lt_mul_right hi) (mod_lt_of_lt_mul_right hi)
    rw [hout' i, if_pos hi, hv', ← hv, mod_add_div_mul]
  · rw [List.getElem?_eq_none (by omega), List.getElem?_eq_none (by omega)]

/-- An instance of C3 with `F = 2`, `C = 2` and `b = [1, 2, 3, 4]`. -/
theorem interleave_deinterleave_roundtrip_witness :
    ∃ d' it', Deinterleaver.deinterleave
        (⟨2, 2, 2, [1, 2, 3, 4], [[7, 7], [7, 7]]⟩ : Deinterleaver Int) = .ok d' ∧
      d'.fOutputs.map List.length = ([[8, 8], [8, 8]] : List (List Int)).map List.length ∧
      Interleaver.interleave
        (⟨2, 2, 2, d'.fOutputs, [8, 8, 8, 8]⟩ : Interleaver Int) = .ok it' ∧
      it'.fOutput = [1, 2, 3, 4] :=
  interleave_deinterleave_roundtrip 2 2 (fun _ => (7 : Int)) (fun _ _ => 7)
    (fun _ _ => 8) (fun _ => 8)
    ⟨2, 2, 2, [7, 7, 7, 7], [[7, 7], [7, 7]]⟩ ⟨2, 2, 2, [[8, 8], [8, 8]], [8, 8, 8, 8]⟩
    rfl rfl [1, 2, 3, 4] rfl

end LayoutClaims

/-! ## AudioChannels.interleavedRead -/

section ReadCopy

variable {α : Type}

theorem succ_mod_uint (a : Nat) : (a % UINT_RANGE + 1) % UINT_RANGE = (a + 1) % UINT_RANGE :=
  Nat.mod_add_mod a UINT_RANGE 1

theorem readCopyInv_init (inbuffer : List α) (n f : Nat) (chans0 : List (List α)) :
    ReadCopyInv inbuffer n f chans0 0 (chans0, (f * n) % UINT_RANGE) :=
  ⟨rfl, rfl, fun c' f' => by simp⟩

theorem readCopyInv_step {inbuffer : List α} {n f c : Nat} {chans0 : List (List α)}
    {st st' : List (List α) × Nat} (hinv : ReadCopyInv inbuffer n f chans0 c st)
    (hb : readSample inbuffer f c st = .ok st') :
    ReadCopyInv inbuffer n f chans0 (c + 1) st' := by
  obtain ⟨hp, hshape, hcells⟩ := hinv
  unfold readSample at hb
  cases hl : load inbuffer st.2 with
  | error e => simp [hl] at hb
  | ok v =>
    simp only [hl] at hb
    cases hs : store2 st.1 c f v with
    | error e => simp [hs] at hb
    | ok chans =>
      simp only [hs, Except.ok.injEq] at hb
      subst hb
      have hv := load_eq_ok.1 hl
      rw [hp] at hv
      refine ⟨?_, ?_, ?_⟩
      · show (st.2 + 1) % UINT_RANGE = (f * n + (c + 1)) % UINT_RANGE
        rw [hp, succ_mod_uint]
        rfl
      · show chans.map List.length = chans0.map List.length
        rw [shape_of_store2 hs, hshape]
      · intro c' f'
        show sample chans c' f' = _
        rw [sample_of_store2 hs c' f', hcells c' f']
        by_cases h1 : c' = c ∧ f' = f
        · obtain ⟨rfl, rfl⟩ := h1
          simp [hv]
        · simp only [h1, if_false]
          have : (f' = f ∧ c' < c + 1) ↔ (f' = f ∧ c' < c) := by
            constructor
            · rintro ⟨h2, h3⟩
              have : c' ≠ c := fun e => h1 ⟨e, h2⟩
              exact ⟨h2, by omega⟩
            · rintro ⟨h2, h3⟩
              exact ⟨h2, by omega⟩
          simp only [this]

end ReadCopy

section Read

variable {α : Type} [Zero α]

theorem readZeroInv_init (f C : Nat) (chans1 : List (List α)) :
    ReadZeroInv f C chans1 C chans1 :=
  ⟨rfl, fun c' f' => by
    have : ¬ (f' = f ∧ C ≤ c' ∧ c' < C) := by omega
    simp [this]⟩

theorem readZeroInv_step {f C c : Nat} {chans1 chans chans' : List (List α)}
    (hC : C ≤ c) (hinv : ReadZeroInv f C chans1 c chans)
    (hb : store2 chans c f (0 : α) = .ok chans') :
    ReadZeroInv f C chans1 (c + 1) chans' := by
  obtain ⟨hshape, hcells⟩ := hinv
  refine ⟨by rw [shape_of_store2 hb, hshape], ?_⟩
  intro c' f'
  rw [sample_of_store2 hb c' f', hcells c' f']
  by_cases h1 : c' = c ∧ f' = f
  · obtain ⟨rfl, rfl⟩ := h1
    simp [hC]
  · simp only [h1, if_false]
    have : (f' = f ∧ C ≤ c' ∧ c' < c + 1) ↔ (f' = f ∧ C ≤ c' ∧ c' < c) := by
      constructor
      · rintro ⟨h2, h3, h4⟩
        have : c' ≠ c := fun e => h1 ⟨e, h2⟩
        exact ⟨h2, h3, by omega⟩
      · rintro ⟨h2, h3, h4⟩
        exact ⟨h2, h3, by omega⟩
    simp only [this]

theorem readInv_init (inbuffer : List α) (n C N : Nat) (chans0 : List (List α)) :
    ReadInv inbuffer n C N chans0 0 chans0 :=
  ⟨rfl, fun c' f' => by simp [readCell]⟩

/-- One frame of `interleavedRead` extends the invariant of the frame loop. -/
theorem readInv_of_frames {inbuffer : List α} {n C N f : Nat}
    {chans0 chans st1 chans' : List (List α)} {p : Nat}
    (hinv : ReadInv inbuffer n C N chans0 f chans)
    (h1 : ReadCopyInv inbuffer n f chans C (st1, p))
    (h2 : ReadZeroInv f C st1 N chans') :
    ReadInv inbuffer n C N chans0 (f + 1) chans' := by
  obtain ⟨hshape, hcells⟩ := hinv
  obtain ⟨_, hshape1, hcells1⟩ := h1
  obtain ⟨hshape2, hcells2⟩ := h2
  refine ⟨by rw [hshape2, hshape1, hshape], ?_⟩
  intro c' f'
  rw [hcells2 c' f', hcells1 c' f', hcells c' f']
  unfold readCell
  by_cases hf : f' = f
  · subst hf
    have hlt : f' < f' + 1 := Nat.lt_succ_self f'
    have hnlt : ¬ f' < f' := Nat.lt_irrefl f'
    by_cases hc : c' < C
    · have : ¬ (C ≤ c' ∧ c' < N) := by omega
      simp [hc, this, hlt]
    · by_cases hn : c' < N
      · have : C ≤ c' ∧ c' < N := ⟨by omega, hn⟩
        simp [hc, hn, this, hlt]
      · have : ¬ (C ≤ c' ∧ c' < N) := by omega
        simp [hc, hn, this, hlt, hnlt]
  · by_cases hlt : f' < f
    · have : f' < f + 1 := by omega
      simp [hf, hlt, this]
    · have : ¬ f' < f + 1 := by omega
      simp [hf, hlt, this]

/-- Partial correctness of one frame of `interleavedRead`. -/
theorem readFrame_eq_ok {inbuffer : List α} {n C N f : Nat}
    {chans0 chans chans' : List (List α)} (hCN : C ≤ N)
    (hinv : ReadInv inbuffer n C N chans0 f chans)
    (hb : readFrame inbuffer n C N f chans = .ok chans') :
    ReadInv inbuffer n C N chans0 (f + 1) chans' := by
  unfold readFrame at hb
  simp only at hb
  cases h1 : forLoop 0 C (readSample inbuffer f) (chans, (f * n) % UINT_RANGE) with
  | error e => simp [h1] at hb
  | ok st =>
    simp only [h1] at hb
    have hI1 := forLoop_inv 0 C _ (fun c st => ReadCopyInv inbuffer n f chans c st)
      (chans, (f * n) % UINT_RANGE) st (Nat.zero_le _)
      (fun c u u' _ _ hQ hb' => readCopyInv_step hQ hb')
      (readCopyInv_init inbuffer n f chans) h1
    have hI2 := forLoop_inv C N _ (fun c ch => ReadZeroInv f C st.1 c ch)
      st.1 chans' hCN
      (fun c u u' hc _ hQ hb' => readZeroInv_step hc hQ hb')
      (readZeroInv_init f C st.1) hb
    exact readInv_of_frames hinv hI1 hI2

/-- Total correctness of one frame of `interleavedRead`: it succeeds when the
samples read are inside the source buffer and the cells written exist. -/
theorem readFrame_ok (inbuffer : List α) (n C N f : Nat) (chans : List (List α))
    (hCN : C ≤ N)
    (hbuf : ∀ c, c < C → (f * n + c) % UINT_RANGE < inbuffer.length)
    (hcell : ∀ c, c < N → (sample chans c f).isSome) :
    ∃ chans', readFrame inbuffer n C N f chans = .ok chans' := by
  obtain ⟨st, h1, hI1⟩ := forLoop_total 0 C (readSample inbuffer f)
    (fun c st => ReadCopyInv inbuffer n f chans c st)
    (chans, (f * n) % UINT_RANGE) (Nat.zero_le _)
    (fun c u _ hc hQ => by
      have hlt : u.2 < inbuffer.length := by
        rw [hQ.1]
        exact hbuf c hc
      have hsome : (sample u.1 c f).isSome := by
        rw [hQ.2.2 c f]
        simpa using hcell c (by omega)
      obtain ⟨ch, hch⟩ := store2_ok_of_isSome inbuffer[u.2] hsome
      have hb : readSample inbuffer f c u = .ok (ch, (u.2 + 1) % UINT_RANGE) := by
        simp only [readSample, load_ok_of_lt hlt, hch]
      exact ⟨_, hb, readCopyInv_step hQ hb⟩)
    (readCopyInv_init inbuffer n f chans)
  obtain ⟨chans', h2, _⟩ := forLoop_total C N (fun c chans' => store2 chans' c f (0 : α))
    (fun c ch => ReadZeroInv f C st.1 c ch) st.1 hCN
    (fun c u hc hN hQ => by
      have hsome : (sample u c f).isSome := by
        rw [hQ.2 c f, hI1.2.2 c f]
        have h3 : ¬ (f = f ∧ C ≤ c ∧ c < c) := by omega
        have h4 : ¬ c < C := by omega
        simpa [h3, h4] using hcell c hN
      obtain ⟨ch, hch⟩ := store2_ok_of_isSome (0 : α) hsome
      exact ⟨ch, hch, readZeroInv_step hc hQ hch⟩)
    (readZeroInv_init f C st.1)
  exact ⟨chans', by simp only [readFrame, h1, h2]⟩

end Read

/-! ## Faults raised by loops and memory accesses -/

section Faults

variable {α σ : Type}

theorem iterate_error (body : Nat → σ → Except Fault σ) (Q : Fault → Prop) :
    ∀ (n i : Nat) (s : σ) (e : Fault),
      (∀ j t e', body j t = .error e' → Q e') → iterate body n i s = .error e → Q e := by
  intro n
  induction n with
  | zero => intro i s e _ h; simp [iterate] at h
  | succ n ih =>
    intro i s e hbody h
    simp only [iterate] at h
    cases hb : body i s with
    | error e' =>
      simp only [hb, Except.error.injEq] at h
      subst h
      exact hbody i s e' hb
    | ok t =>
      simp only [hb] at h
      exact ih (i + 1) t e hbody h

theorem forLoop_error {lo hi : Nat} {body : Nat → σ → Except Fault σ} (Q : Fault → Prop)
    {s : σ} {e : Fault} (hbody : ∀ j t e', body j t = .error e' → Q e')
    (h : forLoop lo hi body s = .error e) : Q e :=
  iterate_error body Q (hi - lo) lo s e hbody h

theorem load_error {buf : List α} {i : Nat} {e : Fault} (h : load buf i = .error e) :
    e = .outOfBounds := by
  unfold load at h
  cases hb : buf[i]? <;> simp [hb] at h
  exact h.symm

theorem store_error {buf : List α} {i : Nat} {v : α} {e : Fault}
    (h : store buf i v = .error e) : e = .outOfBounds := by
  unfold store at h
  by_cases hi : i < buf.length <;> simp [hi] at h
  exact h.symm

theorem load2_error {chans : List (List α)} {c f : Nat} {e : Fault}
    (h : load2 chans c f = .error e) : e = .outOfBounds := by
  unfold load2 at h
  cases hb : sample chans c f <;> simp [hb] at h
  exact h.symm

theorem store2_error {chans : List (List α)} {c f : Nat} {v : α} {e : Fault}
    (h : store2 chans c f v = .error e) : e = .outOfBounds := by
  unfold store2 at h
  cases hb : chans[c]? with
  | none =>
    simp [hb] at h
    exact h.symm
  | some b =>
    by_cases hf : f < b.length <;> simp [hb, hf] at h
    exact h.symm

theorem readSample_error {inbuffer : List α} {f c : Nat} {st : List (List α) × Nat}
    {e : Fault} (h : readSample inbuffer f c st = .error e) : e = .outOfBounds := by
  unfold readSample at h
  cases hl : load inbuffer st.2 with
  | error e' =>
    simp only [hl, Except.error.injEq] at h
    subst h
    exact load_error hl
  | ok v =>
    simp only [hl] at h
    cases hs : store2 st.1 c f v with
    | error e' =>
      simp only [hs, Except.error.injEq] at h
      subst h
      exact store2_error hs
    | ok ch => simp [hs] at h

theorem readFrame_error [Zero α] {inbuffer : List α} {n C N f : Nat}
    {chans : List (List α)} {e : Fault}
    (h : readFrame inbuffer n C N f chans = .error e) : e = .outOfBounds := by
  unfold readFrame at h
  simp only at h
  cases h1 : forLoop 0 C (readSample inbuffer f) (chans, (f * n) % UINT_RANGE) with
  | error e' =>
    simp only [h1, Except.error.injEq] at h
    subst h
    exact forLoop_error (fun e => e = .outOfBounds) (fun _ _ _ hb => readSample_error hb) h1
  | ok st =>
    simp only [h1] at h
    exact forLoop_error (fun e => e = .outOfBounds) (fun _ _ _ hb => store2_error hb) h

end Faults

/-! ## AudioChannels.interleavedRead: the method -/

section ReadMethod

variable {α : Type} [Zero α]

/-- Partial correctness of `interleavedRead`, on any state and any source
buffer: the assertion held, the source buffer and the dimensions are
unchanged, and every cell is given by `readCell`. -/
theorem interleavedRead_eq_ok {nd : Bool} {ac : AudioChannels α} {buf : List α}
    {len n : Nat} {r : AudioChannels α × List α}
    (h : ac.interleavedRead nd buf len n = .ok r) :
    (nd = false → len ≤ ac.fNumFrames) ∧ r.2 = buf ∧
    r.1.fNumFrames = ac.fNumFrames ∧ r.1.fNumChannels = ac.fNumChannels ∧
    r.1.fChannels.map List.length = ac.fChannels.map List.length ∧
    ∀ c f, sample r.1.fChannels c f =
      readCell buf n (min n ac.fNumChannels) ac.fNumChannels ac.fChannels
        (min len ac.fNumFrames) c f := by
  unfold AudioChannels.interleavedRead at h
  by_cases ha : (!nd && decide (ac.fNumFrames < len)) = true
  · simp [ha] at h
  · simp only [ha] at h
    cases hl : forLoop 0 (min len ac.fNumFrames)
        (readFrame buf n (min n ac.fNumChannels) ac.fNumChannels) ac.fChannels with
    | error e => simp [hl] at h
    | ok chans =>
      simp only [hl, Bool.false_eq_true, if_false, Except.ok.injEq] at h
      subst h
      have hI := forLoop_inv 0 (min len ac.fNumFrames) _
        (fun f ch => ReadInv buf n (min n ac.fNumChannels) ac.fNumChannels ac.fChannels f ch)
        ac.fChannels chans (Nat.zero_le _)
        (fun f t t' _ _ hP hb => readFrame_eq_ok (Nat.min_le_right _ _) hP hb)
        (readInv_init _ _ _ _ _) hl
      refine ⟨?_, rfl, rfl, rfl, hI.1, hI.2⟩
      intro hnd
      subst hnd
      simpa using ha

/-- Total correctness of `interleavedRead`: it succeeds when the assertion
holds, the samples read are inside the source buffer and the cells written
exist. -/
theorem interleavedRead_ok (nd : Bool) (ac : AudioChannels α) (buf : List α) (len n : Nat)
    (hassert : nd = true ∨ len ≤ ac.fNumFrames)
    (hbuf : ∀ f c, f < min len ac.fNumFrames → c < min n ac.fNumChannels →
      (f * n + c) % UINT_RANGE < buf.length)
    (hcell : ∀ c f, c < ac.fNumChannels → f < min len ac.fNumFrames →
      (sample ac.fChannels c f).isSome) :
    ∃ ac', ac.interleavedRead nd buf len n = .ok (ac', buf) := by
  have ha : ¬ (!nd && decide (ac.fNumFrames < len)) = true := by
    rcases hassert with h | h
    · simp [h]
    · simp [Nat.not_lt.2 h]
  obtain ⟨chans, hl, _⟩ := forLoop_total 0 (min len ac.fNumFrames)
    (readFrame buf n (min n ac.fNumChannels) ac.fNumChannels)
    (fun f ch => ReadInv buf n (min n ac.fNumChannels) ac.fNumChannels ac.fChannels f ch)
    ac.fChannels (Nat.zero_le _)
    (fun f t _ hf hP => by
      obtain ⟨t', ht'⟩ := readFrame_ok buf n (min n ac.fNumChannels) ac.fNumChannels f t
        (Nat.min_le_right n ac.fNumChannels) (fun c hc => hbuf f c hf hc)
        (fun c hc => by
          rw [hP.2 c f]
          simpa [readCell] using hcell c f hc hf)
      exact ⟨t', ht', readFrame_eq_ok (Nat.min_le_right _ _) hP ht'⟩)
    (readInv_init _ _ _ _ _)
  exact ⟨{ ac with fChannels := chans }, by
    simp only [AudioChannels.interleavedRead, ha, hl, Bool.false_eq_true, if_false]⟩

/-- The only faults of `interleavedRead` are the failed assertion, raised
exactly when assertions are enabled and `length > fNumFrames`, and accesses
outside a buffer. -/
theorem interleavedRead_error {nd : Bool} {ac : AudioChannels α} {buf : List α}
    {len n : Nat} {e : Fault} (h : ac.interleavedRead nd buf len n = .error e) :
    (e = .assertion ∧ nd = false ∧ ac.fNumFrames < len) ∨
    (e = .outOfBounds ∧ (nd = true ∨ len ≤ ac.fNumFrames)) := by
  unfold AudioChannels.interleavedRead at h
  by_cases ha : (!nd && decide (ac.fNumFrames < len)) = true
  · simp only [ha, if_true, Except.error.injEq] at h
    left
    simp only [Bool.and_eq_true, Bool.not_eq_true', decide_eq_true_eq] at ha
    exact ⟨h.symm, ha.1, ha.2⟩
  · simp only [ha] at h
    right
    cases hl : forLoop 0 (min len ac.fNumFrames)
        (readFrame buf n (min n ac.fNumChannels) ac.fNumChannels) ac.fChannels with
    | ok chans => simp [hl] at h
    | error e' =>
      simp only [hl, Bool.false_eq_true, if_false, Except.error.injEq] at h
      subst h
      refine ⟨forLoop_error (fun e => e = .outOfBounds)
        (fun _ _ _ hb => readFrame_error hb) hl, ?_⟩
      cases nd
      · right
        simpa using ha
      · left
        rfl

theorem interleavedRead_assertion (ac : AudioChannels α) (buf : List α) (len n : Nat)
    (h : ac.fNumFrames < len) : ac.interleavedRead false buf len n = .error .assertion := by
  simp [AudioChannels.interleavedRead, h]

end ReadMethod

/-! ## Shapes and extensionality of channel buffers -/

section Shape

variable {α : Type}

theorem getElem?_length_of_shape {a b : List (List α)}
    (h : a.map List.length = b.map List.length) (c : Nat) :
    (a[c]?).map List.length = (b[c]?).map List.length := by
  rw [← List.getElem?_map, ← List.getElem?_map, h]

theorem sample_isSome_of_shape_eq {a b : List (List α)}
    (h : a.map List.length = b.map List.length) (c f : Nat) :
    (sample a c f).isSome = (sample b c f).isSome := by
  have hc := getElem?_length_of_shape h c
  unfold sample
  cases ha : a[c]? with
  | none =>
    cases hb : b[c]? with
    | none => rfl
    | some y => simp [ha, hb] at hc
  | some x =>
    cases hb : b[c]? with
    | none => simp [ha, hb] at hc
    | some y =>
      simp only [ha, hb, Option.map_some', Option.some.injEq] at hc
      show (x[f]?).isSome = (y[f]?).isSome
      by_cases hf : f < x.length
      · have hf' : f < y.length := hc ▸ hf
        rw [List.getElem?_eq_getElem hf, List.getElem?_eq_getElem hf']
        rfl
      · have h1 : x[f]? = none := List.getElem?_eq_none (by omega)
        have h2 : y[f]? = none := List.getElem?_eq_none (by omega)
        rw [h1, h2]

/-- Two groups of channel buffers with the same shape and the same cells are
equal. -/
theorem channels_ext {a b : List (List α)} (h : a.map List.length = b.map List.length)
    (hcells : ∀ c f, sample a c f = sample b c f) : a = b := by
  apply List.ext_getElem?
  intro c
  have hc := getElem?_length_of_shape h c
  cases ha : a[c]? with
  | none =>
    cases hb : b[c]? with
    | none => rfl
    | some y => simp [ha, hb] at hc
  | some x =>
    cases hb : b[c]? with
    | none => simp [ha, hb] at hc
    | some y =>
      congr 1
      apply List.ext_getElem?
      intro f
      have := hcells c f
      simpa [sample, ha, hb] using this

/-- In a well-formed `AudioChannels` every cell `(c, f)` with
`c < fNumChannels` and `f < fNumFrames` exists. -/
theorem sample_isSome_of_WF {ac : AudioChannels α} (h : ac.WF) {c f : Nat}
    (hc : c < ac.fNumChannels) (hf : f < ac.fNumFrames) :
    (sample ac.fChannels c f).isSome :=
  sample_isSome_of_shape (Nat.le_of_eq h.1.symm) h.2 hc hf

theorem getElem?_cons_replicate (a b : α) (m i : Nat) :
    (a :: List.replicate m b)[i]? = if i = 0 then some a else if i ≤ m then some b else none := by
  cases i with
  | zero => simp
  | succ j =>
    simp only [List.getElem?_cons_succ, List.getElem?_replicate, Nat.succ_ne_zero, if_false]
    by_cases h : j < m
    · simp [h, Nat.succ_le_of_lt h]
    · have : ¬ j + 1 ≤ m := by omega
      simp [h, this]

end Shape

section ReadResult

variable {α : Type} [Zero α]

/-- The result of `interleavedRead` in closed form: when the call is defined,
it yields the channel buffers of the same shape whose cells are given by
`readCell`. -/
theorem interleavedRead_eq_of_cells (nd : Bool) (ac : AudioChannels α) (buf : List α)
    (len n : Nat) (hassert : nd = true ∨ len ≤ ac.fNumFrames)
    (hbuf : ∀ f c, f < min len ac.fNumFrames → c < min n ac.fNumChannels →
      (f * n + c) % UINT_RANGE < buf.length)
    (hcell : ∀ c f, c < ac.fNumChannels → f < min len ac.fNumFrames →
      (sample ac.fChannels c f).isSome)
    (chans : List (List α)) (hshape : chans.map List.length = ac.fChannels.map List.length)
    (hcells : ∀ c f, sample chans c f =
      readCell buf n (min n ac.fNumChannels) ac.fNumChannels ac.fChannels
        (min len ac.fNumFrames) c f) :
    ac.interleavedRead nd buf len n = .ok (⟨ac.fNumFrames, ac.fNumChannels, chans⟩, buf) := by
  obtain ⟨ac', h⟩ := interleavedRead_ok nd ac buf len n hassert hbuf hcell
  obtain ⟨_, _, hF, hN, hsh, hc⟩ := interleavedRead_eq_ok h
  have : ac'.fChannels = chans :=
    channels_ext (by rw [hsh, hshape]) (fun c f => by rw [hc c f, hcells c f])
  rw [h]
  cases ac'
  simp only at hF hN this
  subst hF hN this
  rfl

end ReadResult

/-! ## Claims on `AudioChannels.interleavedRead` -/

section ReadClaims

variable {α : Type} [Zero α]

theorem wrapped_index_eq {len n f c : Nat} (h : len * n ≤ UINT_RANGE) (hf : f < len)
    (hc : c < n) : (f * n + c) % UINT_RANGE = f * n + c := by
  apply Nat.mod_eq_of_lt
  have := interleaved_index_lt hc hf
  omega

/-- C4, amended: the external index is computed in `unsigned int`.  For every
well-formed `AudioChannels` (`NF` frames, `NC` channels), every source buffer,
every `inchannels` and every `length <= NF`, with `C = min(inchannels, NC)` and
`F = min(length, NF)`: the call completes when the samples it reads are inside
the source buffer, and after it, for every frame `f < F`,
`channel[c][f] = buffer[(f*inchannels + c) mod 2^32]` for `c < C` and
`channel[c][f] = 0` for `C <= c < NC`; the index is `f*inchannels + c` itself
whenever `length * inchannels <= 2^32`. -/
theorem interleavedRead_layout (nd : Bool) (ac : AudioChannels α) (hwf : ac.WF)
    (buf : List α) (len n : Nat) (hlen : len ≤ ac.fNumFrames) :
    ((∀ f c, f < len → c < min n ac.fNumChannels → (f * n + c) % UINT_RANGE < buf.length) →
      ∃ ac', ac.interleavedRead nd buf len n = .ok (ac', buf)) ∧
    (∀ ac' buf', ac.interleavedRead nd buf len n = .ok (ac', buf') →
      ∀ f, f < min len ac.fNumFrames →
        (∀ c, c < min n ac.fNumChannels →
          ∃ v, buf[(f * n + c) % UINT_RANGE]? = some v ∧ sample ac'.fChannels c f = some v) ∧
        (∀ c, min n ac.fNumChannels ≤ c → c < ac.fNumChannels →
          sample ac'.fChannels c f = some 0)) ∧
    (len * n ≤ UINT_RANGE →
      ∀ f c, f < len → c < n → (f * n + c) % UINT_RANGE = f * n + c) := by
  have hF : min len ac.fNumFrames = len := Nat.min_eq_left hlen
  refine ⟨?_, ?_, fun h f c hf hc => wrapped_index_eq h hf hc⟩
  · intro hbuf
    exact interleavedRead_ok nd ac buf len n (Or.inr hlen)
      (fun f c hf hc => hbuf f c (hF ▸ hf) hc)
      (fun c f hc hf => sample_isSome_of_WF hwf hc (Nat.lt_of_lt_of_le (hF ▸ hf) hlen))
  · intro ac' buf' h f hf
    obtain ⟨_, _, _, _, hshape, hcells⟩ := interleavedRead_eq_ok h
    simp only at hshape hcells
    have hfNF : f < ac.fNumFrames := Nat.lt_of_lt_of_le hf (Nat.min_le_right _ _)
    constructor
    · intro c hc
      have hcN : c < ac.fNumChannels := Nat.lt_of_lt_of_le hc (Nat.min_le_right _ _)
      have hsome : (sample ac'.fChannels c f).isSome := by
        rw [sample_isSome_of_shape_eq hshape]
        exact sample_isSome_of_WF hwf hcN hfNF
      obtain ⟨v, hv⟩ := Option.isSome_iff_exists.1 hsome
      refine ⟨v, ?_, hv⟩
      rw [← hv, hcells c f]
      simp [readCell, hf, hc]
    · intro c hC hN
      rw [hcells c f]
      have : ¬ c < min n ac.fNumChannels := Nat.not_lt.2 hC
      simp [readCell, hf, this, hN]

/-- An instance of C4 as amended: three channels of two frames reading one
frame of a two-channel buffer. -/
theorem interleavedRead_layout_witness :
    (⟨2, 3, [[5, 5], [6, 6], [7, 7]]⟩ : AudioChannels Int).WF ∧ 1 ≤ 2 ∧
    (AudioChannels.interleavedRead false (⟨2, 3, [[5, 5], [6, 6], [7, 7]]⟩ : AudioChannels Int)
      [1, 2] 1 2 = .ok (⟨2, 3, [[1, 5], [2, 6], [0, 7]]⟩, [1, 2])) ∧
    (((∀ f c, f < 1 → c < min 2 3 → (f * 2 + c) % UINT_RANGE < ([1, 2] : List Int).length) →
      ∃ ac', AudioChannels.interleavedRead false
        (⟨2, 3, [[5, 5], [6, 6], [7, 7]]⟩ : AudioChannels Int) [1, 2] 1 2 = .ok (ac', [1, 2])) ∧
    (∀ ac' buf', AudioChannels.interleavedRead false
        (⟨2, 3, [[5, 5], [6, 6], [7, 7]]⟩ : AudioChannels Int) [1, 2] 1 2 = .ok (ac', buf') →
      ∀ f, f < min 1 2 →
        (∀ c, c < min 2 3 →
          ∃ v, ([1, 2] : List Int)[(f * 2 + c) % UINT_RANGE]? = some v ∧
            sample ac'.fChannels c f = some v) ∧
        (∀ c, min 2 3 ≤ c → c < 3 → sample ac'.fChannels c f = some 0)) ∧
    (1 * 2 ≤ UINT_RANGE →
      ∀ f c, f < 1 → c < 2 → (f * 2 + c) % UINT_RANGE = f * 2 + c)) :=
  ⟨⟨rfl, by decide⟩, by decide, rfl,
    interleavedRead_layout false ⟨2, 3, [[5, 5], [6, 6], [7, 7]]⟩ ⟨rfl, by decide⟩
      [1, 2] 1 2 (by decide)⟩

/-- C4 as stated fails when `f * inchannels` wraps around in `unsigned int`:
with `NF = 3`, `NC = 1`, `length = 3` and `inchannels = 2^31`, frame 2 is read
at index `2 * 2^31 mod 2^32 = 0`, so `channel[0][2] = buffer[0] = 1`, whereas
`buffer[2 * 2^31 + 0] = 0`. -/
theorem interleavedRead_layout_counterexample :
    AudioChannels.interleavedRead false (⟨3, 1, [[9, 9, 9]]⟩ : AudioChannels Int)
        (1 :: List.replicate UINT_RANGE 0) 3 (2 ^ 31)
      = .ok (⟨3, 1, [[1, 0, 1]]⟩, 1 :: List.replicate UINT_RANGE 0) ∧
    sample ([[1, 0, 1]] : List (List Int)) 0 2 = some 1 ∧
    (1 :: List.replicate UINT_RANGE (0 : Int))[2 * 2 ^ 31 + 0]? = some 0 := by
  refine ⟨?_, rfl, ?_⟩
  · refine interleavedRead_eq_of_cells false ⟨3, 1, [[9, 9, 9]]⟩
      (1 :: List.replicate UINT_RANGE 0) 3 (2 ^ 31) (Or.inr (by decide)) ?_ ?_
      [[1, 0, 1]] rfl ?_
    · intro f c _ _
      have : (f * 2 ^ 31 + c) % UINT_RANGE < UINT_RANGE := Nat.mod_lt _ (by decide)
      rw [List.length_cons, List.length_replicate]
      exact Nat.lt_succ_of_lt this
    · intro c f hc hf
      have hc0 : c = 0 := by simpa using hc
      have hf3 : f < 3 := by simpa using hf
      subst hc0
      interval_cases f <;> rfl
    · intro c f
      show sample ([[1, 0, 1]] : List (List Int)) c f
        = readCell (1 :: List.replicate UINT_RANGE 0) (2 ^ 31) (min (2 ^ 31) 1) 1
            [[9, 9, 9]] (min 3 3) c f
      have hC : min (2 ^ 31) 1 = 1 := by decide
      have hF : min 3 3 = 3 := by decide
      rw [hC, hF]
      unfold readCell
      by_cases hf : f < 3
      · by_cases hc : c < 1
        · have hc0 : c = 0 := by omega
          subst hc0
          simp only [hf, if_true, Nat.lt_one_iff, getElem?_cons_replicate]
          interval_cases f
          · rfl
          · have h1 : (1 * 2 ^ 31 + 0) % UINT_RANGE = 2 ^ 31 := by decide
            have h2 : (2 : Nat) ^ 31 ≠ 0 := by decide
            have h3 : (2 : Nat) ^ 31 ≤ UINT_RANGE := by decide
            rw [h1]
            simp only [h2, h3, if_false, if_true]
            rfl
          · have h1 : (2 * 2 ^ 31 + 0) % UINT_RANGE = 0 := by decide
            rw [h1]
            rfl
        · have : sample ([[1, 0, 1]] : List (List Int)) c f = none := by
            have : ([[1, 0, 1]] : List (List Int))[c]? = none :=
              List.getElem?_eq_none (by simp; omega)
            simp [sample, this]
          have h9 : sample ([[9, 9, 9]] : List (List Int)) c f = none := by
            have : ([[9, 9, 9]] : List (List Int))[c]? = none :=
              List.getElem?_eq_none (by simp; omega)
            simp [sample, this]
          simp only [hf, hc, if_true, if_false, this, h9]
      · have : sample ([[1, 0, 1]] : List (List Int)) c f = none := by
          unfold sample
          cases c with
          | zero => exact List.getElem?_eq_none (by simp; omega)
          | succ k => simp
        have h9 : sample ([[9, 9, 9]] : List (List Int)) c f = none := by
          unfold sample
          cases c with
          | zero => exact List.getElem?_eq_none (by simp; omega)
          | succ k => simp
        simp only [hf, if_false, this, h9]
  · rw [getElem?_cons_replicate]
    have h1 : (2 * 2 ^ 31 + 0 : Nat) ≠ 0 := by decide
    have h2 : (2 * 2 ^ 31 + 0 : Nat) ≤ UINT_RANGE := by decide
    simp only [h1, h2, if_false, if_true]


theorem sample_new_audio (NF NC : Nat) {c f : Nat} (hc : c < NC) (hf : f < NF) :
    sample (AudioChannels.new NF NC : AudioChannels α).fChannels c f = some 0 := by
  simp [AudioChannels.new, sample, List.getElem?_replicate, hc, hf]

theorem audioChannels_new_WF (NF NC : Nat) : (AudioChannels.new NF NC : AudioChannels α).WF := by
  refine ⟨by simp [AudioChannels.new], ?_⟩
  intro b hb
  simp only [AudioChannels.new] at hb
  rw [List.eq_of_mem_replicate hb]
  simp [AudioChannels.new]

/-- C6, amended: only the frames that are processed are zero-filled.  For every
well-formed `AudioChannels` state, every source buffer, every `length <= NF`
and every `inchannels < NC`: the call completes when the samples it reads are
inside the source buffer, and after it every frame `f < length` of every
channel `c` with `inchannels <= c < NC` is zero, while every frame
`f >= length` of every channel keeps its previous content. -/
theorem interleavedRead_zero_fill (nd : Bool) (ac : AudioChannels α) (hwf : ac.WF)
    (buf : List α) (len n : Nat) (hlen : len ≤ ac.fNumFrames) (hn : n < ac.fNumChannels) :
    ((∀ f c, f < len → c < n → (f * n + c) % UINT_RANGE < buf.length) →
      ∃ ac', ac.interleavedRead nd buf len n = .ok (ac', buf)) ∧
    (∀ ac' buf', ac.interleavedRead nd buf len n = .ok (ac', buf') →
      (∀ f c, f < len → n ≤ c → c < ac.fNumChannels → sample ac'.fChannels c f = some 0) ∧
      (∀ f c, len ≤ f → sample ac'.fChannels c f = sample ac.fChannels c f)) := by
  have hF : min len ac.fNumFrames = len := Nat.min_eq_left hlen
  have hC : min n ac.fNumChannels = n := Nat.min_eq_left (Nat.le_of_lt hn)
  constructor
  · intro hbuf
    exact interleavedRead_ok nd ac buf len n (Or.inr hlen)
      (fun f c hf hc => hbuf f c (hF ▸ hf) (hC ▸ hc))
      (fun c f hc hf => sample_isSome_of_WF hwf hc (Nat.lt_of_lt_of_le (hF ▸ hf) hlen))
  · intro ac' buf' h
    obtain ⟨_, _, _, _, _, hcells⟩ := interleavedRead_eq_ok h
    simp only [hF, hC] at hcells
    constructor
    · intro f c hf hc hN
      rw [hcells c f]
      have : ¬ c < n := Nat.not_lt.2 hc
      simp [readCell, hf, this, hN]
    · intro f c hf
      rw [hcells c f]
      have : ¬ f < len := Nat.not_lt.2 hf
      simp [readCell, this]

/-- An instance of C6 as amended: two channels of two frames reading one frame
of a one-channel buffer. -/
theorem interleavedRead_zero_fill_witness :
    (⟨2, 2, [[5, 5], [6, 6]]⟩ : AudioChannels Int).WF ∧ 1 ≤ 2 ∧ 1 < 2 ∧
    ((∀ f c, f < 1 → c < 1 → (f * 1 + c) % UINT_RANGE < ([1] : List Int).length) →
      ∃ ac', AudioChannels.interleavedRead false
        (⟨2, 2, [[5, 5], [6, 6]]⟩ : AudioChannels Int) [1] 1 1 = .ok (ac', [1])) ∧
    (∀ ac' buf', AudioChannels.interleavedRead false
        (⟨2, 2, [[5, 5], [6, 6]]⟩ : AudioChannels Int) [1] 1 1 = .ok (ac', buf') →
      (∀ f c, f < 1 → 1 ≤ c → c < 2 → sample ac'.fChannels c f = some 0) ∧
      (∀ f c, 1 ≤ f →
        sample ac'.fChannels c f = sample ([[5, 5], [6, 6]] : List (List Int)) c f)) :=
  ⟨⟨rfl, by decide⟩, by decide, by decide,
    interleavedRead_zero_fill false ⟨2, 2, [[5, 5], [6, 6]]⟩ ⟨rfl, by decide⟩ [1] 1 1
      (by decide) (by decide)⟩

/-- C6 as stated fails on the frames that are not processed: with `NF = 2`,
`NC = 2`, channel buffers `[5,5]` and `[6,6]`, `length = 1` and
`inchannels = 1`, frame 1 of channel 1 still holds 6 after the call. -/
theorem interleavedRead_zero_fill_counterexample :
    AudioChannels.interleavedRead false (⟨2, 2, [[5, 5], [6, 6]]⟩ : AudioChannels Int) [1] 1 1
      = .ok (⟨2, 2, [[1, 5], [0, 6]]⟩, [1]) ∧
    sample ([[1, 5], [0, 6]] : List (List Int)) 1 1 = some 6 ∧ (6 : Int) ≠ 0 :=
  ⟨rfl, rfl, by decide⟩

/-- C7, amended: the external index is computed in `unsigned int`.  For every
freshly constructed `AudioChannels(NF, NC)`, every source buffer, every
`inchannels` and every `length <= NF`: the call completes when the samples it
reads are inside the source buffer, and the state after it is fully
determined: `channel[c][f] = buffer[(f*inchannels + c) mod 2^32]` when
`f < length` and `c < min(inchannels, NC)`, and `channel[c][f] = 0` for every
other `(c, f)` with `c < NC` and `f < NF`; the index is `f*inchannels + c`
itself whenever `length * inchannels <= 2^32`. -/
theorem interleavedRead_fresh (nd : Bool) (NF NC : Nat) (buf : List α) (len n : Nat)
    (hlen : len ≤ NF) :
    ((∀ f c, f < len → c < min n NC → (f * n + c) % UINT_RANGE < buf.length) →
      ∃ ac', (AudioChannels.new NF NC).interleavedRead nd buf len n = .ok (ac', buf)) ∧
    (∀ ac' buf', (AudioChannels.new NF NC).interleavedRead nd buf len n = .ok (ac', buf') →
      ac'.fNumFrames = NF ∧ ac'.fNumChannels = NC ∧
      ∀ c f, c < NC → f < NF →
        (f < len ∧ c < min n NC →
          ∃ v, buf[(f * n + c) % UINT_RANGE]? = some v ∧ sample ac'.fChannels c f = some v) ∧
        (¬ (f < len ∧ c < min n NC) → sample ac'.fChannels c f = some 0)) ∧
    (len * n ≤ UINT_RANGE →
      ∀ f c, f < len → c < n → (f * n + c) % UINT_RANGE = f * n + c) := by
  have hF : min len NF = len := Nat.min_eq_left hlen
  refine ⟨?_, ?_, fun h f c hf hc => wrapped_index_eq h hf hc⟩
  · intro hbuf
    exact interleavedRead_ok nd (AudioChannels.new NF NC) buf len n (Or.inr hlen)
      (fun f c hf hc => hbuf f c (by simpa [AudioChannels.new, hF] using hf) hc)
      (fun c f hc hf => sample_isSome_of_WF (audioChannels_new_WF NF NC) hc
        (Nat.lt_of_lt_of_le (by simpa [AudioChannels.new, hF] using hf) hlen))
  · intro ac' buf' h
    obtain ⟨_, _, hNF, hNC, hshape, hcells⟩ := interleavedRead_eq_ok h
    have e1 : (AudioChannels.new NF NC : AudioChannels α).fNumFrames = NF := rfl
    have e2 : (AudioChannels.new NF NC : AudioChannels α).fNumChannels = NC := rfl
    rw [e1, e2, hF] at hcells
    refine ⟨hNF, hNC, ?_⟩
    intro c f hc hf
    constructor
    · rintro ⟨hfl, hcC⟩
      have hsome : (sample ac'.fChannels c f).isSome := by
        rw [sample_isSome_of_shape_eq hshape, sample_new_audio NF NC hc hf]
        rfl
      obtain ⟨v, hv⟩ := Option.isSome_iff_exists.1 hsome
      refine ⟨v, ?_, hv⟩
      rw [← hv, hcells c f]
      simp [readCell, hfl, hcC]
    · intro hnot
      rw [hcells c f]
      unfold readCell
      by_cases hfl : f < len
      · have hcC : ¬ c < min n NC := fun h => hnot ⟨hfl, h⟩
        simp [hfl, hcC, hc]
      · simp [hfl, sample_new_audio NF NC hc hf]

/-- The scenario of C7: `AudioChannels(2, 3)` reading one frame of the
two-channel buffer `[1, 2]` holds `[[1,0],[2,0],[0,0]]`. -/
theorem interleavedRead_fresh_witness :
    1 ≤ 2 ∧
    ((AudioChannels.new 2 3 : AudioChannels Int).interleavedRead false [1, 2] 1 2
      = .ok (⟨2, 3, [[1, 0], [2, 0], [0, 0]]⟩, [1, 2])) ∧
    (((∀ f c, f < 1 → c < min 2 3 → (f * 2 + c) % UINT_RANGE < ([1, 2] : List Int).length) →
      ∃ ac', (AudioChannels.new 2 3 : AudioChannels Int).interleavedRead false [1, 2] 1 2
        = .ok (ac', [1, 2])) ∧
    (∀ ac' buf', (AudioChannels.new 2 3 : AudioChannels Int).interleavedRead false [1, 2] 1 2
        = .ok (ac', buf') →
      ac'.fNumFrames = 2 ∧ ac'.fNumChannels = 3 ∧
      ∀ c f, c < 3 → f < 2 →
        (f < 1 ∧ c < min 2 3 →
          ∃ v, ([1, 2] : List Int)[(f * 2 + c) % UINT_RANGE]? = some v ∧
            sample ac'.fChannels c f = some v) ∧
        (¬ (f < 1 ∧ c < min 2 3) → sample ac'.fChannels c f = some 0)) ∧
    (1 * 2 ≤ UINT_RANGE →
      ∀ f c, f < 1 → c < 2 → (f * 2 + c) % UINT_RANGE = f * 2 + c)) :=
  ⟨by decide, rfl, interleavedRead_fresh false 2 3 [1, 2] 1 2 (by decide)⟩


theorem sample_eq_none_of_length_le {β : Type} {chans : List (List β)} {c : Nat} (f : Nat)
    (h : chans.length ≤ c) : sample chans c f = none := by
  simp [sample, List.getElem?_eq_none h]

theorem sample_eq_none_of_frame_ge {β : Type} {chans : List (List β)} {F : Nat} (c : Nat)
    {f : Nat} (hb : ∀ b ∈ chans, b.length = F) (h : F ≤ f) : sample chans c f = none := by
  unfold sample
  cases hc : chans[c]? with
  | none => rfl
  | some b =>
    have hmem : b ∈ chans := by
      obtain ⟨hlt, rfl⟩ := List.getElem?_eq_some.1 hc
      exact List.getElem_mem hlt
    exact List.getElem?_eq_none (by rw [hb b hmem]; exact h)

/-- C7 as stated fails when the running index `p` wraps around in
`unsigned int`: with `NF = 2`, `NC = 2`, `length = 2` and
`inchannels = 2^32 - 1`, channel 1 of frame 1 is read at index
`(2^32 - 1 + 1) mod 2^32 = 0`, so `channel[1][1] = buffer[0] = 1`, whereas
`buffer[1 * (2^32 - 1) + 1] = 0`. -/
theorem interleavedRead_fresh_counterexample :
    (AudioChannels.new 2 2 : AudioChannels Int).interleavedRead false
        (1 :: List.replicate UINT_RANGE 0) 2 (2 ^ 32 - 1)
      = .ok (⟨2, 2, [[1, 0], [0, 1]]⟩, 1 :: List.replicate UINT_RANGE 0) ∧
    sample ([[1, 0], [0, 1]] : List (List Int)) 1 1 = some 1 ∧
    (1 :: List.replicate UINT_RANGE (0 : Int))[1 * (2 ^ 32 - 1) + 1]? = some 0 := by
  refine ⟨?_, rfl, ?_⟩
  · refine interleavedRead_eq_of_cells false (AudioChannels.new 2 2)
      (1 :: List.replicate UINT_RANGE 0) 2 (2 ^ 32 - 1) (Or.inr (by decide)) ?_ ?_
      [[1, 0], [0, 1]] rfl ?_
    · intro f c _ _
      have : (f * (2 ^ 32 - 1) + c) % UINT_RANGE < UINT_RANGE := Nat.mod_lt _ (by decide)
      rw [List.length_cons, List.length_replicate]
      exact Nat.lt_succ_of_lt this
    · intro c f hc hf
      exact sample_isSome_of_WF (audioChannels_new_WF 2 2) hc
        (Nat.lt_of_lt_of_le hf (Nat.min_le_right _ _))
    · intro c f
      show sample ([[1, 0], [0, 1]] : List (List Int)) c f
        = readCell (1 :: List.replicate UINT_RANGE 0) (2 ^ 32 - 1) (min (2 ^ 32 - 1) 2) 2
            [[0, 0], [0, 0]] (min 2 2) c f
      have hC : min (2 ^ 32 - 1) 2 = 2 := by decide
      have hF : min 2 2 = 2 := by decide
      rw [hC, hF]
      unfold readCell
      by_cases hf : f < 2
      · by_cases hc : c < 2
        · simp only [hf, hc, if_true, getElem?_cons_replicate]
          interval_cases f <;> interval_cases c
          · rfl
          · have h1 : (0 * (2 ^ 32 - 1) + 1) % UINT_RANGE = 1 := by decide
            have h2 : (1 : Nat) ≤ UINT_RANGE := by decide
            rw [h1]
            simp only [h2, if_true, Nat.succ_ne_zero, if_false]
            rfl
          · have h1 : (1 * (2 ^ 32 - 1) + 0) % UINT_RANGE = 2 ^ 32 - 1 := by decide
            have h2 : (2 : Nat) ^ 32 - 1 ≠ 0 := by decide
            have h3 : (2 : Nat) ^ 32 - 1 ≤ UINT_RANGE := by decide
            rw [h1]
            simp only [h2, h3, if_false, if_true]
            rfl
          · have h1 : (1 * (2 ^ 32 - 1) + 1) % UINT_RANGE = 0 := by decide
            rw [h1]
            rfl
        · have h1 : sample ([[1, 0], [0, 1]] : List (List Int)) c f = none :=
            sample_eq_none_of_length_le f (by simp; omega)
          have h0 : sample ([[0, 0], [0, 0]] : List (List Int)) c f = none :=
            sample_eq_none_of_length_le f (by simp; omega)
          simp only [hf, hc, if_true, if_false, h1, h0]
      · have h1 : sample ([[1, 0], [0, 1]] : List (List Int)) c f = none :=
          sample_eq_none_of_frame_ge (F := 2) c (by decide) (by omega)
        have h0 : sample ([[0, 0], [0, 0]] : List (List Int)) c f = none :=
          sample_eq_none_of_frame_ge (F := 2) c (by decide) (by omega)
        simp only [hf, if_false, h1, h0]
  · rw [getElem?_cons_replicate]
    have h1 : (1 * (2 ^ 32 - 1) + 1 : Nat) ≠ 0 := by decide
    have h2 : (1 * (2 ^ 32 - 1) + 1 : Nat) ≤ UINT_RANGE := by decide
    simp only [h1, h2, if_false, if_true]

end ReadClaims

/-! ## AudioChannels.interleavedWrite -/

section WriteCopy

variable {α : Type}

/-- What a successful `outbuffer[p++] = fChannels[c][f]` does. -/
theorem writeSample_eq_ok {chans : List (List α)} {f c : Nat} {st st' : List α × Nat}
    (h : writeSample chans f c st = .ok st') :
    ∃ v, sample chans c f = some v ∧ st.2 < st.1.length ∧
      st' = (st.1.set st.2 v, (st.2 + 1) % UINT_RANGE) := by
  unfold writeSample at h
  cases hl : load2 chans c f with
  | error e => simp [hl] at h
  | ok v =>
    simp only [hl] at h
    cases hs : store st.1 st.2 v with
    | error e => simp [hs] at h
    | ok out =>
      simp only [hs, Except.ok.injEq] at h
      obtain ⟨hlt, rfl⟩ := store_eq_ok.1 hs
      exact ⟨v, load2_eq_ok.1 hl, hlt, h.symm⟩

theorem writeSample_ok {chans : List (List α)} {f c : Nat} {st : List α × Nat} {v : α}
    (hv : sample chans c f = some v) (hlt : st.2 < st.1.length) :
    writeSample chans f c st = .ok (st.1.set st.2 v, (st.2 + 1) % UINT_RANGE) := by
  simp only [writeSample, load2_eq_ok.2 hv, store_ok_of_lt v hlt]

theorem writeSample_error {chans : List (List α)} {f c : Nat} {st : List α × Nat}
    {e : Fault} (h : writeSample chans f c st = .error e) : e = .outOfBounds := by
  unfold writeSample at h
  cases hl : load2 chans c f with
  | error e' =>
    simp only [hl, Except.error.injEq] at h
    subst h
    exact load2_error hl
  | ok v =>
    simp only [hl] at h
    cases hs : store st.1 st.2 v with
    | error e' =>
      simp only [hs, Except.error.injEq] at h
      subst h
      exact store_error hs
    | ok out => simp [hs] at h

/-- Writing at the index of a sample of the `F` frames keeps the frame
invariant. -/
theorem writeFrameInv_set {n F : Nat} {out0 : List α} {f c : Nat} {st : List α × Nat}
    (v : α) (hf : f < F) (hc : c < n) (hinv : WriteFrameInv n F out0 f c st) :
    WriteFrameInv n F out0 f (c + 1) (st.1.set st.2 v, (st.2 + 1) % UINT_RANGE) := by
  obtain ⟨hp, hlen, hcells⟩ := hinv
  refine ⟨?_, ?_, ?_⟩
  · show (st.2 + 1) % UINT_RANGE = (f * n + (c + 1)) % UINT_RANGE
    rw [hp, succ_mod_uint]
    rfl
  · show (st.1.set st.2 v).length = out0.length
    rw [List.length_set, hlen]
  · intro i hi
    show (st.1.set st.2 v)[i]? = out0[i]?
    have hne : st.2 ≠ i := by
      rw [hp]
      exact fun e => hi f c hf hc e.symm
    rw [List.getElem?_set_ne hne]
    exact hcells i hi

theorem writeFrameInv_init (n F : Nat) (out : List α) (f : Nat) :
    WriteFrameInv n F out f 0 (out, (f * n) % UINT_RANGE) :=
  ⟨rfl, rfl, fun _ _ => rfl⟩

end WriteCopy

section Write

variable {α : Type} [Zero α]

/-- What a successful `outbuffer[p++] = 0` does. -/
theorem writeZero_eq_ok {c : Nat} {st st' : List α × Nat}
    (h : writeZero c st = .ok st') :
    st.2 < st.1.length ∧ st' = (st.1.set st.2 0, (st.2 + 1) % UINT_RANGE) := by
  unfold writeZero at h
  cases hs : store st.1 st.2 (0 : α) with
  | error e => simp [hs] at h
  | ok out =>
    simp only [hs, Except.ok.injEq] at h
    obtain ⟨hlt, rfl⟩ := store_eq_ok.1 hs
    exact ⟨hlt, h.symm⟩

theorem writeZero_ok (c : Nat) {st : List α × Nat} (hlt : st.2 < st.1.length) :
    writeZero c st = .ok (st.1.set st.2 0, (st.2 + 1) % UINT_RANGE) := by
  simp only [writeZero, store_ok_of_lt (0 : α) hlt]

theorem writeZero_error {c : Nat} {st : List α × Nat} {e : Fault}
    (h : writeZero c st = .error e) : e = .outOfBounds := by
  unfold writeZero at h
  cases hs : store st.1 st.2 (0 : α) with
  | error e' =>
    simp only [hs, Except.error.injEq] at h
    subst h
    exact store_error hs
  | ok out => simp [hs] at h

theorem writeFrame_error {chans : List (List α)} {n C f : Nat} {out : List α} {e : Fault}
    (h : writeFrame chans n C f out = .error e) : e = .outOfBounds := by
  unfold writeFrame at h
  simp only at h
  cases h1 : forLoop 0 C (writeSample chans f) (out, (f * n) % UINT_RANGE) with
  | error e' =>
    simp only [h1, Except.error.injEq] at h
    subst h
    exact forLoop_error (fun e => e = .outOfBounds) (fun _ _ _ hb => writeSample_error hb) h1
  | ok st =>
    simp only [h1] at h
    cases h2 : forLoop C n writeZero st with
    | error e' =>
      simp only [h2, Except.error.injEq] at h
      subst h
      exact forLoop_error (fun e => e = .outOfBounds) (fun _ _ _ hb => writeZero_error hb) h2
    | ok st' => simp [h2] at h

/-- One frame of `interleavedWrite`, wrap-around included: the length of the
destination is kept and only cells at the index of a sample of the `F` frames
are written. -/
theorem writeFrame_eq_ok_frame {chans : List (List α)} {n C F f : Nat}
    {out0 out out' : List α} (hC : C ≤ n) (hf : f < F)
    (hinv : out.length = out0.length ∧
      ∀ i, (∀ f' c', f' < F → c' < n → i ≠ (f' * n + c') % UINT_RANGE) → out[i]? = out0[i]?)
    (hb : writeFrame chans n C f out = .ok out') :
    out'.length = out0.length ∧
      ∀ i, (∀ f' c', f' < F → c' < n → i ≠ (f' * n + c') % UINT_RANGE) → out'[i]? = out0[i]? := by
  unfold writeFrame at hb
  simp only at hb
  cases h1 : forLoop 0 C (writeSample chans f) (out, (f * n) % UINT_RANGE) with
  | error e => simp [h1] at hb
  | ok st =>
    simp only [h1] at hb
    cases h2 : forLoop C n writeZero st with
    | error e => simp [h2] at hb
    | ok st' =>
      simp only [h2, Except.ok.injEq] at hb
      subst hb
      have hI1 := forLoop_inv 0 C _ (fun c st => WriteFrameInv n F out0 f c st)
        (out, (f * n) % UINT_RANGE) st (Nat.zero_le _)
        (fun c u u' _ hc hQ hb' => by
          obtain ⟨v, _, _, rfl⟩ := writeSample_eq_ok hb'
          exact writeFrameInv_set v hf (Nat.lt_of_lt_of_le hc hC) hQ)
        ⟨rfl, hinv.1, hinv.2⟩ h1
      have hI2 := forLoop_inv C n _ (fun c st => WriteFrameInv n F out0 f c st)
        st st' hC
        (fun c u u' _ hc hQ hb' => by
          obtain ⟨_, rfl⟩ := writeZero_eq_ok hb'
          exact writeFrameInv_set 0 hf hc hQ)
        hI1 h2
      exact ⟨hI2.2.1, hI2.2.2⟩

/-- One frame of `interleavedWrite` succeeds when the cells read exist and the
indices written are inside the destination. -/
theorem writeFrame_ok (chans : List (List α)) (n C f : Nat) (out : List α) (hC : C ≤ n)
    (hcell : ∀ c, c < C → (sample chans c f).isSome)
    (hidx : ∀ c, c < n → (f * n + c) % UINT_RANGE < out.length) :
    ∃ out', writeFrame chans n C f out = .ok out' := by
  obtain ⟨st, h1, hI1⟩ := forLoop_total 0 C (writeSample chans f)
    (fun c st => WriteFrameInv n (f + 1) out f c st)
    (out, (f * n) % UINT_RANGE) (Nat.zero_le _)
    (fun c u _ hc hQ => by
      obtain ⟨v, hv⟩ := Option.isSome_iff_exists.1 (hcell c hc)
      have hlt : u.2 < u.1.length := by
        rw [hQ.1, hQ.2.1]
        exact hidx c (Nat.lt_of_lt_of_le hc hC)
      exact ⟨_, writeSample_ok hv hlt,
        writeFrameInv_set v (Nat.lt_succ_self f) (Nat.lt_of_lt_of_le hc hC) hQ⟩)
    (writeFrameInv_init n (f + 1) out f)
  obtain ⟨st', h2, _⟩ := forLoop_total C n writeZero
    (fun c st => WriteFrameInv n (f + 1) out f c st) st hC
    (fun c u _ hc hQ => by
      have hlt : u.2 < u.1.length := by
        rw [hQ.1, hQ.2.1]
        exact hidx c hc
      exact ⟨_, writeZero_ok c hlt, writeFrameInv_set 0 (Nat.lt_succ_self f) hc hQ⟩)
    hI1
  exact ⟨st'.1, by simp only [writeFrame, h1, h2]⟩

/-- One frame of `interleavedWrite` reads only the cells `(c, f)` with
`c < C`. -/
theorem writeFrame_congr {chans1 chans2 : List (List α)} (n C f : Nat) (out : List α)
    (h : ∀ c, c < C → sample chans1 c f = sample chans2 c f) :
    writeFrame chans1 n C f out = writeFrame chans2 n C f out := by
  have h1 : forLoop 0 C (writeSample chans1 f) (out, (f * n) % UINT_RANGE)
      = forLoop 0 C (writeSample chans2 f) (out, (f * n) % UINT_RANGE) :=
    forLoop_congr 0 C _ _ (fun _ _ => True) _
      (fun c st _ hc _ => ⟨by
        simp only [writeSample, load2_eq_of_sample (h c hc)], fun _ _ => trivial⟩) trivial
  simp only [writeFrame, h1]


/-- Writing sample number `k` keeps the layout invariant, as long as `k` has
not wrapped around. -/
theorem writeInv_set {chans : List (List α)} {n C k : Nat} {out0 : List α}
    {st : List α × Nat} {v : α} (hk : k < UINT_RANGE)
    (hv : (if k % n < C then sample chans (k % n) (k / n) else some 0) = some v)
    (hlt : st.2 < st.1.length) (hinv : WriteInv chans n C out0 k st) :
    WriteInv chans n C out0 (k + 1) (st.1.set st.2 v, (st.2 + 1) % UINT_RANGE) := by
  obtain ⟨hp, hlen, hcells⟩ := hinv
  have hpk : st.2 = k := by rw [hp, Nat.mod_eq_of_lt hk]
  refine ⟨?_, ?_, ?_⟩
  · show (st.2 + 1) % UINT_RANGE = (k + 1) % UINT_RANGE
    rw [hpk]
  · show (st.1.set st.2 v).length = out0.length
    rw [List.length_set, hlen]
  · intro i
    show (st.1.set st.2 v)[i]? = writeCell chans n C out0 (k + 1) i
    rw [hpk] at hlt ⊢
    by_cases hi : i = k
    · subst hi
      have hlt' : i < i + 1 := Nat.lt_succ_self i
      simp only [writeCell, hlt', if_true, hv]
      exact List.getElem?_set_self hlt
    · have hne : k ≠ i := fun e => hi e.symm
      rw [List.getElem?_set_ne hne, hcells i]
      unfold writeCell
      have : (i < k + 1) ↔ (i < k) := by omega
      simp only [this]

theorem frame_index_mod {f n c : Nat} (hc : c < n) : (f * n + c) % n = c := by
  rw [Nat.add_comm, Nat.add_mul_mod_self_right]
  exact Nat.mod_eq_of_lt hc

theorem frame_index_div {f n c : Nat} (hc : c < n) : (f * n + c) / n = f := by
  rw [Nat.add_comm, Nat.add_mul_div_right _ _ (by omega), Nat.div_eq_of_lt hc]
  omega

/-- One frame of `interleavedWrite` without wrap-around: the frame is laid out
after the previous ones. -/
theorem writeFrame_eq_ok_layout {chans : List (List α)} {n C f : Nat}
    {out0 out out' : List α} (hC : C ≤ n) (hk : (f + 1) * n ≤ UINT_RANGE)
    (hinv : out.length = out0.length ∧ ∀ i, out[i]? = writeCell chans n C out0 (f * n) i)
    (hb : writeFrame chans n C f out = .ok out') :
    out'.length = out0.length ∧ ∀ i, out'[i]? = writeCell chans n C out0 ((f + 1) * n) i := by
  have hbound : ∀ c, c < n → f * n + c < UINT_RANGE := by
    intro c hc
    have : (f + 1) * n = f * n + n := by ring
    omega
  unfold writeFrame at hb
  simp only at hb
  cases h1 : forLoop 0 C (writeSample chans f) (out, (f * n) % UINT_RANGE) with
  | error e => simp [h1] at hb
  | ok st =>
    simp only [h1] at hb
    cases h2 : forLoop C n writeZero st with
    | error e => simp [h2] at hb
    | ok st' =>
      simp only [h2, Except.ok.injEq] at hb
      subst hb
      have hI1 := forLoop_inv 0 C _ (fun c st => WriteInv chans n C out0 (f * n + c) st)
        (out, (f * n) % UINT_RANGE) st (Nat.zero_le _)
        (fun c u u' _ hc hQ hb' => by
          obtain ⟨v, hv, hlt, rfl⟩ := writeSample_eq_ok hb'
          have hcn : c < n := Nat.lt_of_lt_of_le hc hC
          have hv' : (if (f * n + c) % n < C
              then sample chans ((f * n + c) % n) ((f * n + c) / n) else some 0) = some v := by
            rw [frame_index_mod hcn, frame_index_div hcn, if_pos hc, hv]
          exact writeInv_set (hbound c hcn) hv' hlt hQ)
        ⟨rfl, hinv.1, hinv.2⟩ h1
      have hI2 := forLoop_inv C n _ (fun c st => WriteInv chans n C out0 (f * n + c) st)
        st st' hC
        (fun c u u' hCc hc hQ hb' => by
          obtain ⟨hlt, rfl⟩ := writeZero_eq_ok hb'
          have hv' : (if (f * n + c) % n < C
              then sample chans ((f * n + c) % n) ((f * n + c) / n) else some 0)
              = some (0 : α) := by
            rw [frame_index_mod hc, if_neg (Nat.not_lt.2 hCc)]
          exact writeInv_set (hbound c hc) hv' hlt hQ)
        hI1 h2
      have e : (f + 1) * n = f * n + n := by ring
      rw [e]
      exact ⟨hI2.2.1, hI2.2.2⟩

end Write

/-! ## AudioChannels.interleavedWrite: the method -/

section WriteMethod

variable {α : Type} [Zero α]

/-- Partial correctness of `interleavedWrite`, wrap-around included: the
assertion held, the object is unchanged, the destination keeps its length,
and only cells at the index of a sample of the frames processed are written. -/
theorem interleavedWrite_eq_ok {nd : Bool} {ac : AudioChannels α} {out : List α}
    {len n : Nat} {r : AudioChannels α × List α}
    (h : ac.interleavedWrite nd out len n = .ok r) :
    (nd = false → len ≤ ac.fNumFrames) ∧ r.1 = ac ∧ r.2.length = out.length ∧
    ∀ i, (∀ f c, f < min len ac.fNumFrames → c < n → i ≠ (f * n + c) % UINT_RANGE) →
      r.2[i]? = out[i]? := by
  unfold AudioChannels.interleavedWrite at h
  by_cases ha : (!nd && decide (ac.fNumFrames < len)) = true
  · simp [ha] at h
  · simp only [ha] at h
    cases hl : forLoop 0 (min len ac.fNumFrames)
        (writeFrame ac.fChannels n (min n ac.fNumChannels)) out with
    | error e => simp [hl] at h
    | ok out' =>
      simp only [hl, Bool.false_eq_true, if_false, Except.ok.injEq] at h
      subst h
      have hI := forLoop_inv 0 (min len ac.fNumFrames) _
        (fun _ (o : List α) => o.length = out.length ∧
          ∀ i, (∀ f c, f < min len ac.fNumFrames → c < n → i ≠ (f * n + c) % UINT_RANGE) →
            o[i]? = out[i]?)
        out out' (Nat.zero_le _)
        (fun f t t' _ hf hP hb => writeFrame_eq_ok_frame (Nat.min_le_left _ _) hf hP hb)
        ⟨rfl, fun _ _ => rfl⟩ hl
      refine ⟨?_, rfl, hI.1, hI.2⟩
      intro hnd
      subst hnd
      simpa using ha

/-- Partial correctness of `interleavedWrite` without wrap-around: the
destination is given by `writeCell`. -/
theorem interleavedWrite_eq_ok_layout {nd : Bool} {ac : AudioChannels α} {out : List α}
    {len n : Nat} {r : AudioChannels α × List α}
    (hk : min len ac.fNumFrames * n ≤ UINT_RANGE)
    (h : ac.interleavedWrite nd out len n = .ok r) :
    ∀ i, r.2[i]? = writeCell ac.fChannels n (min n ac.fNumChannels) out
      (min len ac.fNumFrames * n) i := by
  unfold AudioChannels.interleavedWrite at h
  by_cases ha : (!nd && decide (ac.fNumFrames < len)) = true
  · simp [ha] at h
  · simp only [ha] at h
    cases hl : forLoop 0 (min len ac.fNumFrames)
        (writeFrame ac.fChannels n (min n ac.fNumChannels)) out with
    | error e => simp [hl] at h
    | ok out' =>
      simp only [hl, Bool.false_eq_true, if_false, Except.ok.injEq] at h
      subst h
      have hI := forLoop_inv 0 (min len ac.fNumFrames) _
        (fun f (o : List α) => o.length = out.length ∧
          ∀ i, o[i]? = writeCell ac.fChannels n (min n ac.fNumChannels) out (f * n) i)
        out out' (Nat.zero_le _)
        (fun f t t' _ hf hP hb => writeFrame_eq_ok_layout (Nat.min_le_left _ _)
          (Nat.le_trans (Nat.mul_le_mul_right n hf) hk) hP hb)
        ⟨rfl, fun i => by simp [writeCell]⟩ hl
      exact hI.2

/-- Total correctness of `interleavedWrite`: it succeeds when the assertion
holds, the cells read exist and the indices written are inside the
destination. -/
theorem interleavedWrite_ok (nd : Bool) (ac : AudioChannels α) (out : List α) (len n : Nat)
    (hassert : nd = true ∨ len ≤ ac.fNumFrames)
    (hcell : ∀ c f, c < min n ac.fNumChannels → f < min len ac.fNumFrames →
      (sample ac.fChannels c f).isSome)
    (hidx : ∀ f c, f < min len ac.fNumFrames → c < n →
      (f * n + c) % UINT_RANGE < out.length) :
    ∃ out', ac.interleavedWrite nd out len n = .ok (ac, out') := by
  have ha : ¬ (!nd && decide (ac.fNumFrames < len)) = true := by
    rcases hassert with h | h
    · simp [h]
    · simp [Nat.not_lt.2 h]
  obtain ⟨out', hl, _⟩ := forLoop_total 0 (min len ac.fNumFrames)
    (writeFrame ac.fChannels n (min n ac.fNumChannels))
    (fun _ (o : List α) => o.length = out.length ∧
      ∀ i, (∀ f c, f < min len ac.fNumFrames → c < n → i ≠ (f * n + c) % UINT_RANGE) →
        o[i]? = out[i]?)
    out (Nat.zero_le _)
    (fun f t _ hf hP => by
      obtain ⟨t', ht'⟩ := writeFrame_ok ac.fChannels n (min n ac.fNumChannels) f t
        (Nat.min_le_left _ _) (fun c hc => hcell c f hc hf)
        (fun c hc => by
          rw [hP.1]
          exact hidx f c hf hc)
      exact ⟨t', ht', writeFrame_eq_ok_frame (Nat.min_le_left _ _) hf hP ht'⟩)
    ⟨rfl, fun _ _ => rfl⟩
  exact ⟨out', by
    simp only [AudioChannels.interleavedWrite, ha, hl, Bool.false_eq_true, if_false]⟩

/-- The only faults of `interleavedWrite` are the failed assertion, raised
exactly when assertions are enabled and `length > fNumFrames`, and accesses
outside a buffer. -/
theorem interleavedWrite_error {nd : Bool} {ac : AudioChannels α} {out : List α}
    {len n : Nat} {e : Fault} (h : ac.interleavedWrite nd out len n = .error e) :
    (e = .assertion ∧ nd = false ∧ ac.fNumFrames < len) ∨
    (e = .outOfBounds ∧ (nd = true ∨ len ≤ ac.fNumFrames)) := by
  unfold AudioChannels.interleavedWrite at h
  by_cases ha : (!nd && decide (ac.fNumFrames < len)) = true
  · simp only [ha, if_true, Except.error.injEq] at h
    left
    simp only [Bool.and_eq_true, Bool.not_eq_true', decide_eq_true_eq] at ha
    exact ⟨h.symm, ha.1, ha.2⟩
  · simp only [ha] at h
    right
    cases hl : forLoop 0 (min len ac.fNumFrames)
        (writeFrame ac.fChannels n (min n ac.fNumChannels)) out with
    | ok out' => simp [hl] at h
    | error e' =>
      simp only [hl, Bool.false_eq_true, if_false, Except.error.injEq] at h
      subst h
      refine ⟨forLoop_error (fun e => e = .outOfBounds)
        (fun _ _ _ hb => writeFrame_error hb) hl, ?_⟩
      cases nd
      · right
        simpa using ha
      · left
        rfl

theorem interleavedWrite_assertion (ac : AudioChannels α) (out : List α) (len n : Nat)
    (h : ac.fNumFrames < len) : ac.interleavedWrite false out len n = .error .assertion := by
  simp [AudioChannels.interleavedWrite, h]

end WriteMethod

/-! ## What the two methods depend on -/

section DependenceCopy

variable {α : Type}

theorem readSample_snd {inbuffer : List α} {f c : Nat} {st st' : List (List α) × Nat}
    (h : readSample inbuffer f c st = .ok st') : st'.2 = (st.2 + 1) % UINT_RANGE := by
  unfold readSample at h
  cases hl : load inbuffer st.2 with
  | error e => simp [hl] at h
  | ok v =>
    simp only [hl] at h
    cases hs : store2 st.1 c f v with
    | error e => simp [hs] at h
    | ok chans =>
      simp only [hs, Except.ok.injEq] at h
      rw [← h]

end DependenceCopy

section Dependence

variable {α : Type} [Zero α]

/-- One frame of `interleavedRead` reads the source buffer only at the indices
`(f * n + c) mod 2^32` with `c < C`. -/
theorem readFrame_congr {buf1 buf2 : List α} (n C N f : Nat) (chans : List (List α))
    (h : ∀ c, c < C → buf1[(f * n + c) % UINT_RANGE]? = buf2[(f * n + c) % UINT_RANGE]?) :
    readFrame buf1 n C N f chans = readFrame buf2 n C N f chans := by
  have h1 : forLoop 0 C (readSample buf1 f) (chans, (f * n) % UINT_RANGE)
      = forLoop 0 C (readSample buf2 f) (chans, (f * n) % UINT_RANGE) :=
    forLoop_congr 0 C _ _
      (fun c (st : List (List α) × Nat) => st.2 = (f * n + c) % UINT_RANGE) _
      (fun c st _ hc hP => by
        constructor
        · have : load buf1 st.2 = load buf2 st.2 := by
            rw [hP]
            exact load_eq_of_getElem? (h c hc)
          simp only [readSample, this]
        · intro st' hb
          show st'.2 = (f * n + (c + 1)) % UINT_RANGE
          rw [readSample_snd hb, hP, succ_mod_uint]
          rfl)
      rfl
  simp only [readFrame, h1]

/-- The channel buffers produced by `interleavedRead` depend on the source
buffer only through the samples at the indices `(f * n + c) mod 2^32` with
`f < min(length, NF)` and `c < min(n, NC)`. -/
theorem interleavedRead_congr (nd : Bool) (ac : AudioChannels α) {buf1 buf2 : List α}
    (len n : Nat)
    (h : ∀ f c, f < min len ac.fNumFrames → c < min n ac.fNumChannels →
      buf1[(f * n + c) % UINT_RANGE]? = buf2[(f * n + c) % UINT_RANGE]?) :
    (ac.interleavedRead nd buf1 len n).map Prod.fst
      = (ac.interleavedRead nd buf2 len n).map Prod.fst := by
  have hl : forLoop 0 (min len ac.fNumFrames)
        (readFrame buf1 n (min n ac.fNumChannels) ac.fNumChannels) ac.fChannels
      = forLoop 0 (min len ac.fNumFrames)
        (readFrame buf2 n (min n ac.fNumChannels) ac.fNumChannels) ac.fChannels :=
    forLoop_congr 0 _ _ _ (fun _ _ => True) _
      (fun f t _ hf _ => ⟨readFrame_congr n _ _ f t (fun c hc => h f c hf hc),
        fun _ _ => trivial⟩) trivial
  unfold AudioChannels.interleavedRead
  simp only [hl]
  by_cases ha : (!nd && decide (ac.fNumFrames < len)) = true
  · simp [ha, Except.map]
  · simp only [ha]
    cases forLoop 0 (min len ac.fNumFrames)
        (readFrame buf2 n (min n ac.fNumChannels) ac.fNumChannels) ac.fChannels <;>
      simp [Except.map]

/-- The destination produced by `interleavedWrite` depends on the channel
buffers only through the cells `(c, f)` with `f < min(length, NF)` and
`c < min(n, NC)`. -/
theorem interleavedWrite_congr (nd : Bool) {ac1 ac2 : AudioChannels α} (out : List α)
    (len n : Nat) (hF : ac1.fNumFrames = ac2.fNumFrames)
    (hN : ac1.fNumChannels = ac2.fNumChannels)
    (h : ∀ f c, f < min len ac1.fNumFrames → c < min n ac1.fNumChannels →
      sample ac1.fChannels c f = sample ac2.fChannels c f) :
    (ac1.interleavedWrite nd out len n).map Prod.snd
      = (ac2.interleavedWrite nd out len n).map Prod.snd := by
  have hl : forLoop 0 (min len ac1.fNumFrames)
        (writeFrame ac1.fChannels n (min n ac1.fNumChannels)) out
      = forLoop 0 (min len ac1.fNumFrames)
        (writeFrame ac2.fChannels n (min n ac1.fNumChannels)) out :=
    forLoop_congr 0 _ _ _ (fun _ _ => True) _
      (fun f t _ hf _ => ⟨writeFrame_congr n _ f t (fun c hc => h f c hf hc),
        fun _ _ => trivial⟩) trivial
  unfold AudioChannels.interleavedWrite
  simp only [hl, ← hF, ← hN]
  by_cases ha : (!nd && decide (ac1.fNumFrames < len)) = true
  · simp [ha, Except.map]
  · simp only [ha]
    cases forLoop 0 (min len ac1.fNumFrames)
        (writeFrame ac2.fChannels n (min n ac1.fNumChannels)) out <;>
      simp [Except.map]

/-- Every index written by `interleavedWrite`, and every index read by
`interleavedRead`, is below `F * n`, wrapped around or not. -/
theorem wrapped_index_lt {F n f c : Nat} (hf : f < F) (hc : c < n) :
    (f * n + c) % UINT_RANGE < F * n := by
  have h1 : f * n + c < F * n := by
    have := interleaved_index_lt hc hf
    omega
  exact Nat.lt_of_le_of_lt (Nat.mod_le _ _) h1

end Dependence

/-! ## Claims on `AudioChannels.interleavedWrite` -/

section WriteClaims

variable {α : Type} [Zero α]

/-- C5, amended: the external index is computed in `unsigned int`, so the
layout is guaranteed when `length * outchannels <= 2^32`.  For every
well-formed `AudioChannels` (`NF` frames, `NC` channels), every destination
buffer, every `outchannels` and every `length <= NF` with
`length * outchannels <= 2^32`, and `C = min(outchannels, NC)`: the call
completes when the destination holds `length * outchannels` samples, it leaves
the object as it is, and after it, for every frame `f < length`,
`buffer[f*outchannels + c] = channel[c][f]` for `c < C` and
`buffer[f*outchannels + c] = 0` for `NC <= c < outchannels`. -/
theorem interleavedWrite_layout (nd : Bool) (ac : AudioChannels α) (hwf : ac.WF)
    (out : List α) (len n : Nat) (hlen : len ≤ ac.fNumFrames)
    (hk : len * n ≤ UINT_RANGE) :
    (len * n ≤ out.length → ∃ out', ac.interleavedWrite nd out len n = .ok (ac, out')) ∧
    (∀ ac' out', ac.interleavedWrite nd out len n = .ok (ac', out') →
      ac' = ac ∧
      ∀ f, f < len →
        (∀ c, c < min n ac.fNumChannels →
          ∃ v, sample ac.fChannels c f = some v ∧ out'[f * n + c]? = some v) ∧
        (∀ c, ac.fNumChannels ≤ c → c < n → out'[f * n + c]? = some 0)) := by
  have hF : min len ac.fNumFrames = len := Nat.min_eq_left hlen
  constructor
  · intro hout
    exact interleavedWrite_ok nd ac out len n (Or.inr hlen)
      (fun c f hc hf => sample_isSome_of_WF hwf
        (Nat.lt_of_lt_of_le hc (Nat.min_le_right _ _))
        (Nat.lt_of_lt_of_le hf (Nat.min_le_right _ _)))
      (fun f c hf hc => Nat.lt_of_lt_of_le (wrapped_index_lt (hF ▸ hf) hc) hout)
  · intro ac' out' h
    obtain ⟨_, hac, _, _⟩ := interleavedWrite_eq_ok h
    have hcells := interleavedWrite_eq_ok_layout (by rw [hF]; exact hk) h
    simp only [hF] at hcells
    refine ⟨hac, ?_⟩
    intro f hf
    constructor
    · intro c hc
      have hcn : c < n := Nat.lt_of_lt_of_le hc (Nat.min_le_left _ _)
      have hi : f * n + c < len * n := by
        have := interleaved_index_lt hcn hf
        omega
      obtain ⟨v, hv⟩ := Option.isSome_iff_exists.1 (sample_isSome_of_WF hwf
        (Nat.lt_of_lt_of_le hc (Nat.min_le_right _ _)) (Nat.lt_of_lt_of_le hf hlen))
      refine ⟨v, hv, ?_⟩
      rw [hcells (f * n + c)]
      simp only [writeCell, hi, if_true, frame_index_mod hcn, frame_index_div hcn, hc, hv]
    · intro c hN hcn
      have hi : f * n + c < len * n := by
        have := interleaved_index_lt hcn hf
        omega
      have hnot : ¬ c < min n ac.fNumChannels :=
        fun h => absurd (Nat.lt_of_lt_of_le h (Nat.min_le_right _ _)) (Nat.not_lt.2 hN)
      rw [hcells (f * n + c)]
      simp only [writeCell, hi, if_true, frame_index_mod hcn, hnot, if_false]

/-- An instance of C5 as amended: two channels of two frames written to a
three-channel destination. -/
theorem interleavedWrite_layout_witness :
    (⟨2, 2, [[1, 2], [3, 4]]⟩ : AudioChannels Int).WF ∧ 2 ≤ 2 ∧ 2 * 3 ≤ UINT_RANGE ∧
    (AudioChannels.interleavedWrite false (⟨2, 2, [[1, 2], [3, 4]]⟩ : AudioChannels Int)
      [9, 9, 9, 9, 9, 9, 9] 2 3 = .ok (⟨2, 2, [[1, 2], [3, 4]]⟩, [1, 3, 0, 2, 4, 0, 9])) ∧
    ((2 * 3 ≤ ([9, 9, 9, 9, 9, 9, 9] : List Int).length →
      ∃ out', AudioChannels.interleavedWrite false
        (⟨2, 2, [[1, 2], [3, 4]]⟩ : AudioChannels Int) [9, 9, 9, 9, 9, 9, 9] 2 3
        = .ok (⟨2, 2, [[1, 2], [3, 4]]⟩, out')) ∧
    (∀ ac' out', AudioChannels.interleavedWrite false
        (⟨2, 2, [[1, 2], [3, 4]]⟩ : AudioChannels Int) [9, 9, 9, 9, 9, 9, 9] 2 3
        = .ok (ac', out') →
      ac' = ⟨2, 2, [[1, 2], [3, 4]]⟩ ∧
      ∀ f, f < 2 →
        (∀ c, c < min 3 2 →
          ∃ v, sample ([[1, 2], [3, 4]] : List (List Int)) c f = some v ∧
            out'[f * 3 + c]? = some v) ∧
        (∀ c, 2 ≤ c → c < 3 → out'[f * 3 + c]? = some 0))) :=
  ⟨⟨rfl, by decide⟩, by decide, by decide, rfl,
    interleavedWrite_layout false ⟨2, 2, [[1, 2], [3, 4]]⟩ ⟨rfl, by decide⟩
      [9, 9, 9, 9, 9, 9, 9] 2 3 (by decide) (by decide)⟩

/-- C5 as stated fails when `f * outchannels` wraps around in `unsigned int`:
with `NF = 3`, `NC = 1`, channel buffer `[7, 8, 9]`, `length = 3`,
`outchannels = 2^31` and a destination of `2^32 + 1` samples equal to 5, the
call completes but frame 2 is written from index `2 * 2^31 mod 2^32 = 0` on:
`buffer[2 * 2^31 + 0]` still holds 5, whereas `channel[0][2] = 9`. -/
theorem interleavedWrite_layout_counterexample :
    (∃ out', AudioChannels.interleavedWrite false (⟨3, 1, [[7, 8, 9]]⟩ : AudioChannels Int)
        (List.replicate (UINT_RANGE + 1) 5) 3 (2 ^ 31) = .ok (⟨3, 1, [[7, 8, 9]]⟩, out') ∧
      out'[2 * 2 ^ 31 + 0]? = some 5) ∧
    sample ([[7, 8, 9]] : List (List Int)) 0 2 = some 9 ∧ (5 : Int) ≠ 9 := by
  refine ⟨?_, rfl, by decide⟩
  obtain ⟨out', h⟩ := interleavedWrite_ok false (⟨3, 1, [[7, 8, 9]]⟩ : AudioChannels Int)
    (List.replicate (UINT_RANGE + 1) 5) 3 (2 ^ 31) (Or.inr (by decide))
    (fun c f hc hf => by
      have hc0 : c = 0 := by
        have : c < 1 := Nat.lt_of_lt_of_le hc (Nat.min_le_right _ _)
        omega
      have hf3 : f < 3 := Nat.lt_of_lt_of_le hf (Nat.min_le_left _ _)
      subst hc0
      interval_cases f <;> rfl)
    (fun f c _ _ => by
      have : (f * 2 ^ 31 + c) % UINT_RANGE < UINT_RANGE := Nat.mod_lt _ (by decide)
      rw [List.length_replicate]
      exact Nat.lt_succ_of_lt this)
  refine ⟨out', h, ?_⟩
  obtain ⟨_, _, _, hframe⟩ := interleavedWrite_eq_ok h
  have e : 2 * 2 ^ 31 + 0 = UINT_RANGE := by decide
  rw [e]
  have := hframe UINT_RANGE (fun f c _ _ heq => by
    have : (f * 2 ^ 31 + c) % UINT_RANGE < UINT_RANGE := Nat.mod_lt _ (by decide)
    omega)
  rw [this, List.getElem?_replicate]
  simp

end WriteClaims

/-! ## Truncation and failure claims -/

section TruncationClaims

variable {α : Type} [Zero α]

/-- C8: frame truncation.  For every `AudioChannels` state, every external
buffer, every channel count `n` and every `length`, also above `NF` when the
assertion is disabled (`nd = true`), with `F = min(length, NF)`:
`interleavedRead` leaves `channel[c][f]` unchanged for every `f >= F`, and the
channel buffers it produces do not depend on the external samples at index
`>= F * n`; `interleavedWrite` leaves the external samples at index `>= F * n`
unchanged (and the length of the destination), and the destination it produces
does not depend on `channel[c][f]` for `f >= F`; neither method writes the
buffer it reads. -/
theorem frame_truncation (nd : Bool) (ac : AudioChannels α) (buf : List α) (len n : Nat) :
    (∀ ac' buf', ac.interleavedRead nd buf len n = .ok (ac', buf') →
      buf' = buf ∧
      ∀ c f, min len ac.fNumFrames ≤ f →
        sample ac'.fChannels c f = sample ac.fChannels c f) ∧
    (∀ buf2 : List α, (∀ i, i < min len ac.fNumFrames * n → buf[i]? = buf2[i]?) →
      (ac.interleavedRead nd buf len n).map Prod.fst
        = (ac.interleavedRead nd buf2 len n).map Prod.fst) ∧
    (∀ ac' buf', ac.interleavedWrite nd buf len n = .ok (ac', buf') →
      ac' = ac ∧ buf'.length = buf.length ∧
      ∀ i, min len ac.fNumFrames * n ≤ i → buf'[i]? = buf[i]?) ∧
    (∀ ac2 : AudioChannels α, ac2.fNumFrames = ac.fNumFrames →
      ac2.fNumChannels = ac.fNumChannels →
      (∀ c f, f < min len ac.fNumFrames →
        sample ac2.fChannels c f = sample ac.fChannels c f) →
      (ac.interleavedWrite nd buf len n).map Prod.snd
        = (ac2.interleavedWrite nd buf len n).map Prod.snd) := by
  refine ⟨?_, ?_, ?_, ?_⟩
  · intro ac' buf' h
    obtain ⟨_, hbuf, _, _, _, hcells⟩ := interleavedRead_eq_ok h
    refine ⟨hbuf, ?_⟩
    intro c f hf
    rw [hcells c f]
    simp [readCell, Nat.not_lt.2 hf]
  · intro buf2 h
    exact interleavedRead_congr nd ac len n (fun f c hf hc =>
      h _ (wrapped_index_lt hf (Nat.lt_of_lt_of_le hc (Nat.min_le_left _ _))))
  · intro ac' buf' h
    obtain ⟨_, hac, hlen, hframe⟩ := interleavedWrite_eq_ok h
    refine ⟨hac, hlen, ?_⟩
    intro i hi
    exact hframe i (fun f c hf hc heq => by
      have := wrapped_index_lt hf hc
      omega)
  · intro ac2 hF hN h
    exact interleavedWrite_congr nd buf len n hF.symm hN.symm
      (fun f c hf _ => (h c f hf).symm)

/-- Instances of C8: with the assertion disabled and `length = 3 > NF = 2`,
only two frames of the one-channel buffers are processed; with `length = 1`,
frame 1 of the channel buffer has no influence on what is written. -/
theorem frame_truncation_witness :
    (AudioChannels.interleavedRead true (⟨2, 1, [[5, 6]]⟩ : AudioChannels Int) [1, 2, 3] 3 1
      = .ok (⟨2, 1, [[1, 2]]⟩, [1, 2, 3])) ∧
    (AudioChannels.interleavedWrite true (⟨2, 1, [[5, 6]]⟩ : AudioChannels Int) [1, 2, 3] 3 1
      = .ok (⟨2, 1, [[5, 6]]⟩, [5, 6, 3])) ∧
    (([1, 2, 3] : List Int) = [1, 2, 3] ∧
      ∀ c f, min 3 2 ≤ f →
        sample ([[1, 2]] : List (List Int)) c f = sample ([[5, 6]] : List (List Int)) c f) ∧
    ((AudioChannels.interleavedRead true (⟨2, 1, [[5, 6]]⟩ : AudioChannels Int)
        [1, 2, 3] 3 1).map Prod.fst
      = (AudioChannels.interleavedRead true (⟨2, 1, [[5, 6]]⟩ : AudioChannels Int)
        [1, 2, 4, 4] 3 1).map Prod.fst) ∧
    ((⟨2, 1, [[5, 6]]⟩ : AudioChannels Int) = ⟨2, 1, [[5, 6]]⟩ ∧
      ([5, 6, 3] : List Int).length = ([1, 2, 3] : List Int).length ∧
      ∀ i, min 3 2 * 1 ≤ i → ([5, 6, 3] : List Int)[i]? = ([1, 2, 3] : List Int)[i]?) ∧
    ((AudioChannels.interleavedWrite false (⟨2, 1, [[5, 6]]⟩ : AudioChannels Int)
        [1, 2, 3] 1 1).map Prod.snd
      = (AudioChannels.interleavedWrite false (⟨2, 1, [[5, 7]]⟩ : AudioChannels Int)
        [1, 2, 3] 1 1).map Prod.snd) :=
  ⟨rfl, rfl,
    (frame_truncation true (⟨2, 1, [[5, 6]]⟩ : AudioChannels Int) [1, 2, 3] 3 1).1
      ⟨2, 1, [[1, 2]]⟩ [1, 2, 3] rfl,
    (frame_truncation true (⟨2, 1, [[5, 6]]⟩ : AudioChannels Int) [1, 2, 3] 3 1).2.1
      [1, 2, 4, 4] (by decide),
    (frame_truncation true (⟨2, 1, [[5, 6]]⟩ : AudioChannels Int) [1, 2, 3] 3 1).2.2.1
      ⟨2, 1, [[5, 6]]⟩ [5, 6, 3] rfl,
    (frame_truncation false (⟨2, 1, [[5, 6]]⟩ : AudioChannels Int) [1, 2, 3] 1 1).2.2.2
      ⟨2, 1, [[5, 7]]⟩ rfl rfl (by
        intro c f hf
        have hf1 : f < 1 := hf
        interval_cases f
        rcases c with _ | c <;> rfl)⟩


/-- C9, amended: the channels beyond `C = min(n, NC)` are never read, but they
are zero-filled.  For every `AudioChannels` state, every external buffer, every
`length` and every channel count `n`, with `F = min(length, NF)`:
`interleavedRead` does not modify the external buffer, the channel buffers it
produces depend on the external samples only at the indices
`(f*n + c) mod 2^32` with `f < F` and `c < C`, and it sets the internal channels
`C <= c < NC` of each processed frame to zero; `interleavedWrite` does not modify
the internal channels, the destination it produces depends on the internal
samples only at the cells `(c, f)` with `c < C` and `f < F`, and, when
`F * n <= 2^32`, it sets the external slots `f*n + c` of the channels
`C <= c < n` of each processed frame to zero. -/
theorem channel_truncation (nd : Bool) (ac : AudioChannels α) (buf : List α) (len n : Nat) :
    (∀ ac' buf', ac.interleavedRead nd buf len n = .ok (ac', buf') →
      buf' = buf ∧
      ∀ f c, f < min len ac.fNumFrames → min n ac.fNumChannels ≤ c → c < ac.fNumChannels →
        sample ac'.fChannels c f = some 0) ∧
    (∀ buf2 : List α,
      (∀ f c, f < min len ac.fNumFrames → c < min n ac.fNumChannels →
        buf[(f * n + c) % UINT_RANGE]? = buf2[(f * n + c) % UINT_RANGE]?) →
      (ac.interleavedRead nd buf len n).map Prod.fst
        = (ac.interleavedRead nd buf2 len n).map Prod.fst) ∧
    (∀ ac' buf', ac.interleavedWrite nd buf len n = .ok (ac', buf') →
      ac' = ac ∧
      (min len ac.fNumFrames * n ≤ UINT_RANGE →
        ∀ f c, f < min len ac.fNumFrames → min n ac.fNumChannels ≤ c → c < n →
          buf'[f * n + c]? = some 0)) ∧
    (∀ ac2 : AudioChannels α, ac2.fNumFrames = ac.fNumFrames →
      ac2.fNumChannels = ac.fNumChannels →
      (∀ f c, f < min len ac.fNumFrames → c < min n ac.fNumChannels →
        sample ac2.fChannels c f = sample ac.fChannels c f) →
      (ac.interleavedWrite nd buf len n).map Prod.snd
        = (ac2.interleavedWrite nd buf len n).map Prod.snd) := by
  refine ⟨?_, ?_, ?_, ?_⟩
  · intro ac' buf' h
    obtain ⟨_, hbuf, _, _, _, hcells⟩ := interleavedRead_eq_ok h
    refine ⟨hbuf, ?_⟩
    intro f c hf hC hN
    rw [hcells c f]
    simp [readCell, hf, Nat.not_lt.2 hC, hN]
  · intro buf2 h
    exact interleavedRead_congr nd ac len n h
  · intro ac' buf' h
    obtain ⟨_, hac, _, _⟩ := interleavedWrite_eq_ok h
    refine ⟨hac, ?_⟩
    intro hk f c hf hC hcn
    have hi : f * n + c < min len ac.fNumFrames * n := by
      have := interleaved_index_lt hcn hf
      omega
    rw [interleavedWrite_eq_ok_layout hk h (f * n + c)]
    simp only [writeCell, hi, if_true, frame_index_mod hcn, Nat.not_lt.2 hC, if_false]
  · intro ac2 hF hN h
    exact interleavedWrite_congr nd buf len n hF.symm hN.symm
      (fun f c hf hc => (h f c hf hc).symm)

/-- Instances of C9 as amended: reading one frame of a one-channel buffer into
two channels, and writing one frame of one channel to a two-channel
destination. -/
theorem channel_truncation_witness :
    (AudioChannels.interleavedRead false (⟨1, 2, [[5], [6]]⟩ : AudioChannels Int) [1] 1 1
      = .ok (⟨1, 2, [[1], [0]]⟩, [1])) ∧
    (AudioChannels.interleavedWrite false (⟨1, 1, [[5]]⟩ : AudioChannels Int) [8, 9] 1 2
      = .ok (⟨1, 1, [[5]]⟩, [5, 0])) ∧
    (([1] : List Int) = [1] ∧
      ∀ f c, f < min 1 1 → min 1 2 ≤ c → c < 2 →
        sample ([[1], [0]] : List (List Int)) c f = some 0) ∧
    ((AudioChannels.interleavedRead false (⟨1, 2, [[5], [6]]⟩ : AudioChannels Int)
        [1] 1 1).map Prod.fst
      = (AudioChannels.interleavedRead false (⟨1, 2, [[5], [6]]⟩ : AudioChannels Int)
        [1, 7] 1 1).map Prod.fst) ∧
    ((⟨1, 1, [[5]]⟩ : AudioChannels Int) = ⟨1, 1, [[5]]⟩ ∧
      (min 1 1 * 2 ≤ UINT_RANGE →
        ∀ f c, f < min 1 1 → min 2 1 ≤ c → c < 2 → ([5, 0] : List Int)[f * 2 + c]? = some 0)) ∧
    ((AudioChannels.interleavedWrite false (⟨1, 2, [[5], [6]]⟩ : AudioChannels Int)
        [8, 9] 1 1).map Prod.snd
      = (AudioChannels.interleavedWrite false (⟨1, 2, [[5], [7]]⟩ : AudioChannels Int)
        [8, 9] 1 1).map Prod.snd) :=
  ⟨rfl, rfl,
    (channel_truncation false (⟨1, 2, [[5], [6]]⟩ : AudioChannels Int) [1] 1 1).1
      ⟨1, 2, [[1], [0]]⟩ [1] rfl,
    (channel_truncation false (⟨1, 2, [[5], [6]]⟩ : AudioChannels Int) [1] 1 1).2.1
      [1, 7] (by
        intro f c hf hc
        have hf1 : f < 1 := hf
        have hc1 : c < 1 := hc
        interval_cases f
        interval_cases c
        rfl),
    (channel_truncation false (⟨1, 1, [[5]]⟩ : AudioChannels Int) [8, 9] 1 2).2.2.1
      ⟨1, 1, [[5]]⟩ [5, 0] rfl,
    (channel_truncation false (⟨1, 2, [[5], [6]]⟩ : AudioChannels Int) [8, 9] 1 1).2.2.2
      ⟨1, 2, [[5], [7]]⟩ rfl rfl (by
        intro f c hf hc
        have hf1 : f < 1 := hf
        have hc1 : c < 1 := hc
        interval_cases f
        interval_cases c
        rfl)⟩

/-- C9 as stated fails on the zero-fill: reading one frame of a one-channel
buffer into two channels `[5]`, `[6]` sets internal channel 1, whose index is
`>= min(1, 2)`, from 6 to 0; writing one frame of one channel to the
two-channel destination `[8, 9]` sets the external slot of channel 1, whose
index is `>= min(2, 1)`, from 9 to 0. -/
theorem channel_truncation_counterexample :
    (AudioChannels.interleavedRead false (⟨1, 2, [[5], [6]]⟩ : AudioChannels Int) [1] 1 1
      = .ok (⟨1, 2, [[1], [0]]⟩, [1]) ∧
      sample ([[5], [6]] : List (List Int)) 1 0 = some 6 ∧
      sample ([[1], [0]] : List (List Int)) 1 0 = some 0) ∧
    (AudioChannels.interleavedWrite false (⟨1, 1, [[5]]⟩ : AudioChannels Int) [8, 9] 1 2
      = .ok (⟨1, 1, [[5]]⟩, [5, 0]) ∧
      ([8, 9] : List Int)[0 * 2 + 1]? = some 9 ∧
      ([5, 0] : List Int)[0 * 2 + 1]? = some 0) ∧
    (6 : Int) ≠ 0 ∧ (9 : Int) ≠ 0 :=
  ⟨⟨rfl, rfl, rfl⟩, ⟨rfl, rfl, rfl⟩, by decide, by decide⟩

/-- C10: with assertions enabled, `interleavedRead` and `interleavedWrite` fail
on the assertion if and only if `length > NF`; the assertion is the only check
they make: every call with `length <= NF` on buffers that hold
`length * n` samples completes, whatever the external channel count `n`. -/
theorem assertion_only_failure (ac : AudioChannels α) (hwf : ac.WF) (buf : List α)
    (len n : Nat) :
    (ac.interleavedRead false buf len n = .error .assertion ↔ ac.fNumFrames < len) ∧
    (ac.interleavedWrite false buf len n = .error .assertion ↔ ac.fNumFrames < len) ∧
    (len ≤ ac.fNumFrames → len * n ≤ buf.length →
      (∃ ac', ac.interleavedRead false buf len n = .ok (ac', buf)) ∧
      (∃ buf', ac.interleavedWrite false buf len n = .ok (ac, buf'))) ∧
    (∀ e, ac.interleavedRead false buf len n = .error e ∨
        ac.interleavedWrite false buf len n = .error e →
      (e = .assertion ∧ ac.fNumFrames < len) ∨
      (e = .outOfBounds ∧ len ≤ ac.fNumFrames ∧ buf.length < len * n)) := by
  have hcomplete : len ≤ ac.fNumFrames → len * n ≤ buf.length →
      (∃ ac', ac.interleavedRead false buf len n = .ok (ac', buf)) ∧
      (∃ buf', ac.interleavedWrite false buf len n = .ok (ac, buf')) := by
    intro hlen hbuf
    have hF : min len ac.fNumFrames = len := Nat.min_eq_left hlen
    constructor
    · exact interleavedRead_ok false ac buf len n (Or.inr hlen)
        (fun f c hf hc => Nat.lt_of_lt_of_le
          (wrapped_index_lt (hF ▸ hf) (Nat.lt_of_lt_of_le hc (Nat.min_le_left _ _))) hbuf)
        (fun c f hc hf => sample_isSome_of_WF hwf hc
          (Nat.lt_of_lt_of_le hf (Nat.min_le_right _ _)))
    · exact interleavedWrite_ok false ac buf len n (Or.inr hlen)
        (fun c f hc hf => sample_isSome_of_WF hwf
          (Nat.lt_of_lt_of_le hc (Nat.min_le_right _ _))
          (Nat.lt_of_lt_of_le hf (Nat.min_le_right _ _)))
        (fun f c hf hc => Nat.lt_of_lt_of_le (wrapped_index_lt (hF ▸ hf) hc) hbuf)
  refine ⟨⟨?_, interleavedRead_assertion ac buf len n⟩,
    ⟨?_, interleavedWrite_assertion ac buf len n⟩, hcomplete, ?_⟩
  · intro h
    rcases interleavedRead_error h with ⟨_, _, hlt⟩ | ⟨he, _⟩
    · exact hlt
    · cases he
  · intro h
    rcases interleavedWrite_error h with ⟨_, _, hlt⟩ | ⟨he, _⟩
    · exact hlt
    · cases he
  · intro e he
    have hcases : (e = .assertion ∧ false = false ∧ ac.fNumFrames < len) ∨
        (e = .outOfBounds ∧ (false = true ∨ len ≤ ac.fNumFrames)) := by
      rcases he with he | he
      · exact interleavedRead_error he
      · exact interleavedWrite_error he
    rcases hcases with ⟨h1, _, h2⟩ | ⟨h1, h2⟩
    · exact Or.inl ⟨h1, h2⟩
    · right
      have hlen : len ≤ ac.fNumFrames := by
        rcases h2 with h2 | h2
        · cases h2
        · exact h2
      refine ⟨h1, hlen, ?_⟩
      by_contra hnot
      obtain ⟨⟨ac', hr⟩, ⟨buf', hw⟩⟩ := hcomplete hlen (Nat.le_of_not_lt hnot)
      rcases he with he | he
      · rw [hr] at he
        cases he
      · rw [hw] at he
        cases he

/-- Instances of C10 on `AudioChannels(2, 2)`: a call with `length = 3` fails on
the assertion; calls with `length = 2` complete with 0, 1, 2 and 3 external
channels. -/
theorem assertion_only_failure_witness :
    (⟨2, 2, [[1, 2], [3, 4]]⟩ : AudioChannels Int).WF ∧
    (AudioChannels.interleavedRead false (⟨2, 2, [[1, 2], [3, 4]]⟩ : AudioChannels Int)
      [5, 6, 7, 8, 9, 10] 3 2 = .error .assertion) ∧
    (AudioChannels.interleavedWrite false (⟨2, 2, [[1, 2], [3, 4]]⟩ : AudioChannels Int)
      [5, 6, 7, 8, 9, 10] 3 2 = .error .assertion) ∧
    (AudioChannels.interleavedRead false (⟨2, 2, [[1, 2], [3, 4]]⟩ : AudioChannels Int)
      [5, 6, 7, 8, 9, 10] 2 0 = .ok (⟨2, 2, [[0, 0], [0, 0]]⟩, [5, 6, 7, 8, 9, 10])) ∧
    (AudioChannels.interleavedRead false (⟨2, 2, [[1, 2], [3, 4]]⟩ : AudioChannels Int)
      [5, 6, 7, 8, 9, 10] 2 1 = .ok (⟨2, 2, [[5, 6], [0, 0]]⟩, [5, 6, 7, 8, 9, 10])) ∧
    (AudioChannels.interleavedRead false (⟨2, 2, [[1, 2], [3, 4]]⟩ : AudioChannels Int)
      [5, 6, 7, 8, 9, 10] 2 3 = .ok (⟨2, 2, [[5, 8], [6, 9]]⟩, [5, 6, 7, 8, 9, 10])) ∧
    (AudioChannels.interleavedWrite false (⟨2, 2, [[1, 2], [3, 4]]⟩ : AudioChannels Int)
      [5, 6, 7, 8, 9, 10] 2 3 = .ok (⟨2, 2, [[1, 2], [3, 4]]⟩, [1, 3, 0, 2, 4, 0])) ∧
    ((∃ ac', AudioChannels.interleavedRead false
        (⟨2, 2, [[1, 2], [3, 4]]⟩ : AudioChannels Int) [5, 6, 7, 8, 9, 10] 2 3
        = .ok (ac', [5, 6, 7, 8, 9, 10])) ∧
      (∃ buf', AudioChannels.interleavedWrite false
        (⟨2, 2, [[1, 2], [3, 4]]⟩ : AudioChannels Int) [5, 6, 7, 8, 9, 10] 2 3
        = .ok (⟨2, 2, [[1, 2], [3, 4]]⟩, buf'))) :=
  ⟨⟨rfl, by decide⟩, rfl, rfl, rfl, rfl, rfl, rfl,
    (assertion_only_failure (⟨2, 2, [[1, 2], [3, 4]]⟩ : AudioChannels Int) ⟨rfl, by decide⟩
      [5, 6, 7, 8, 9, 10] 2 3).2.2.1 (by decide) (by decide)⟩

end TruncationClaims

/-! ## Idempotence of `deinterleave()` -/

section Idempotence

variable {α : Type}

/-- What a successful `fOutputs[c][s] = fInput[c + s * fNumInputs]` does. -/
theorem deinterleaver_copy_eq_ok {d : Deinterleaver α} {s c : Nat}
    {outs outs' : List (List α)} (h : d.copy s c outs = .ok outs') :
    c + s * d.fNumInputs ≤ INT_MAX ∧
    ∃ v, d.fInput[c + s * d.fNumInputs]? = some v ∧ store2 outs c s v = .ok outs' := by
  unfold Deinterleaver.copy at h
  by_cases hov : INT_MAX < c + s * d.fNumInputs
  · simp [hov] at h
  · simp only [hov, if_false] at h
    cases hl : load d.fInput (c + s * d.fNumInputs) with
    | error e => simp [hl] at h
    | ok v =>
      simp only [hl] at h
      exact ⟨Nat.le_of_not_lt hov, v, load_eq_ok.1 hl, h⟩

theorem isSome_of_store2 {chans chans' : List (List α)} {c f : Nat} {v : α}
    (h : store2 chans c f v = .ok chans') : (sample chans c f).isSome := by
  obtain ⟨b, hb, hf, _⟩ := store2_eq_ok.1 h
  exact sample_isSome_iff.2 ⟨b, hb, hf⟩

theorem lt_length_of_getElem? {l : List α} {i : Nat} {v : α} (h : l[i]? = some v) :
    i < l.length := by
  obtain ⟨hlt, _⟩ := List.getElem?_eq_some.1 h
  exact hlt

/-- A successful `deinterleave()` made defined accesses only. -/
theorem deintReady_of_ok {d d' : Deinterleaver α} (h : d.deinterleave = .ok d') :
    DeintReady d := by
  unfold Deinterleaver.deinterleave at h
  cases hl : forLoop 0 d.fNumFrames
      (fun s outs => forLoop 0 d.fNumInputs (d.copy s) outs) d.fOutputs with
  | error e => simp [hl] at h
  | ok outs =>
    have hcond : ∀ s c (u u' : List (List α)),
        u.map List.length = d.fOutputs.map List.length → d.copy s c u = .ok u' →
        c + s * d.fNumInputs ≤ INT_MAX ∧ c + s * d.fNumInputs < d.fInput.length ∧
          (sample d.fOutputs c s).isSome := by
      intro s c u u' hsh hb
      obtain ⟨h1, v, hv, hst⟩ := deinterleaver_copy_eq_ok hb
      refine ⟨h1, lt_length_of_getElem? hv, ?_⟩
      rw [← sample_isSome_of_shape_eq hsh]
      exact isSome_of_store2 hst
    have hI := forLoop_inv 0 d.fNumFrames _
      (fun s (o : List (List α)) => o.map List.length = d.fOutputs.map List.length ∧
        ∀ s' c, s' < s → c < d.fNumInputs →
          c + s' * d.fNumInputs ≤ INT_MAX ∧ c + s' * d.fNumInputs < d.fInput.length ∧
            (sample d.fOutputs c s').isSome)
      d.fOutputs outs (Nat.zero_le _)
      (fun s t t' _ _ hP hb => by
        have hin := forLoop_inv 0 d.fNumInputs _
          (fun c (o : List (List α)) => o.map List.length = d.fOutputs.map List.length ∧
            ∀ c', c' < c →
              c' + s * d.fNumInputs ≤ INT_MAX ∧ c' + s * d.fNumInputs < d.fInput.length ∧
                (sample d.fOutputs c' s).isSome)
          t t' (Nat.zero_le _)
          (fun c u u' _ _ hQ hb' => by
            refine ⟨by rw [deinterleaver_copy_shape hb']; exact hQ.1, ?_⟩
            intro c' hc'
            by_cases hcc : c' < c
            · exact hQ.2 c' hcc
            · have : c' = c := by omega
              subst this
              exact hcond s c' u u' hQ.1 hb')
          ⟨hP.1, fun c' hc' => absurd hc' (Nat.not_lt_zero _)⟩ hb
        refine ⟨hin.1, ?_⟩
        intro s' c hs' hc
        by_cases hss : s' < s
        · exact hP.2 s' c hss hc
        · have : s' = s := by omega
          subst this
          exact hin.2 c hc)
      ⟨rfl, fun s' c hs' => absurd hs' (Nat.not_lt_zero _)⟩ hl
    intro c s hc hs
    exact hI.2 s c hs hc

/-- Total correctness of `deinterleave()`: it completes when its accesses are
defined. -/
theorem deinterleave_ok_of_ready {d : Deinterleaver α} (hr : DeintReady d) :
    ∃ d', d.deinterleave = .ok d' := by
  have hinner : ∀ s t, 0 ≤ s → s < d.fNumFrames →
      DeintInv d.fInput d.fNumInputs d.fOutputs s 0 t →
      ∃ t', forLoop 0 d.fNumInputs (d.copy s) t = .ok t' ∧
        DeintInv d.fInput d.fNumInputs d.fOutputs (s + 1) 0 t' := by
    intro s t _ hs hP
    have hstep : ∀ c u, 0 ≤ c → c < d.fNumInputs →
        DeintInv d.fInput d.fNumInputs d.fOutputs s c u →
        ∃ u', d.copy s c u = .ok u' ∧
          DeintInv d.fInput d.fNumInputs d.fOutputs s (c + 1) u' := by
      intro c u _ hc hQ
      obtain ⟨h1, hlt, h3⟩ := hr c s hc hs
      have hno : ¬ INT_MAX < c + s * d.fNumInputs := Nat.not_lt.2 h1
      have hcell : (sample u c s).isSome := by
        rw [hQ c s]
        simpa using h3
      obtain ⟨u', hu'⟩ := store2_ok_of_isSome d.fInput[c + s * d.fNumInputs] hcell
      have hb : d.copy s c u = .ok u' := by
        simp only [Deinterleaver.copy, hno, if_false, load_ok_of_lt hlt]
        exact hu'
      exact ⟨u', hb, deintInv_step hc hQ hb⟩
    obtain ⟨t', ht', hQ⟩ := forLoop_total 0 d.fNumInputs (d.copy s)
      (fun c outs => DeintInv d.fInput d.fNumInputs d.fOutputs s c outs)
      t (Nat.zero_le _) hstep hP
    exact ⟨t', ht', deintInv_next hQ⟩
  obtain ⟨outs, hl, _⟩ := forLoop_total 0 d.fNumFrames
    (fun s outs => forLoop 0 d.fNumInputs (d.copy s) outs)
    (fun s outs => DeintInv d.fInput d.fNumInputs d.fOutputs s 0 outs)
    d.fOutputs (Nat.zero_le _) hinner (deintInv_init _ _ _)
  exact ⟨{ d with fOutputs := outs }, by simp [Deinterleaver.deinterleave, hl]⟩

/-- C11: idempotence.  For every `Deinterleaver` state on which `deinterleave()`
completes, calling it a second time without changing the interleaved input
completes as well and yields exactly the state reached after the first call
(dimensions, input buffer and every output buffer). -/
theorem deinterleave_idempotent (d d' : Deinterleaver α) (h : d.deinterleave = .ok d') :
    d'.deinterleave = .ok d' := by
  obtain ⟨hrec, hcells⟩ := deinterleave_eq_ok h
  have hshape := deinterleave_shape h
  have hF : d'.fNumFrames = d.fNumFrames := by rw [hrec]
  have hN : d'.fNumInputs = d.fNumInputs := by rw [hrec]
  have hin : d'.fInput = d.fInput := by rw [hrec]
  have hready : DeintReady d' := by
    intro c s hc hs
    rw [hN] at hc
    rw [hF] at hs
    obtain ⟨h1, h2, h3⟩ := deintReady_of_ok h c s hc hs
    rw [hN, hin, sample_isSome_of_shape_eq hshape]
    exact ⟨h1, h2, h3⟩
  obtain ⟨d'', h2⟩ := deinterleave_ok_of_ready hready
  obtain ⟨hrec2, hcells2⟩ := deinterleave_eq_ok h2
  have hshape2 := deinterleave_shape h2
  have houts : d''.fOutputs = d'.fOutputs := by
    apply channels_ext hshape2
    intro c f
    rw [hcells2 c f, hN, hF, hin]
    by_cases hcf : c < d.fNumInputs ∧ f < d.fNumFrames
    · rw [if_pos hcf, hcells c f, if_pos hcf]
    · rw [if_neg hcf]
  rw [h2, hrec2, houts]

/-- An instance of C11: on `Deinterleaver(2, 2, 3)` holding `[1, 2, 3, 4]`, the
first call gives the outputs `[1,3]`, `[2,4]`, `[7,7]` and the second call
leaves that state as it is. -/
theorem deinterleave_idempotent_witness :
    (Deinterleaver.deinterleave
        (⟨2, 2, 3, [1, 2, 3, 4], [[7, 7], [7, 7], [7, 7]]⟩ : Deinterleaver Int)
      = .ok ⟨2, 2, 3, [1, 2, 3, 4], [[1, 3], [2, 4], [7, 7]]⟩) ∧
    (Deinterleaver.deinterleave
        (⟨2, 2, 3, [1, 2, 3, 4], [[1, 3], [2, 4], [7, 7]]⟩ : Deinterleaver Int)
      = .ok ⟨2, 2, 3, [1, 2, 3, 4], [[1, 3], [2, 4], [7, 7]]⟩) :=
  ⟨rfl, deinterleave_idempotent
    ⟨2, 2, 3, [1, 2, 3, 4], [[7, 7], [7, 7], [7, 7]]⟩
    ⟨2, 2, 3, [1, 2, 3, 4], [[1, 3], [2, 4], [7, 7]]⟩ rfl⟩

end Idempotence

/-! ## Claims on construction -/

section ConstructionClaims

variable {α : Type}

theorem length_of_mem_of_shape {chans : List (List α)} {n F : Nat}
    (h : chans.map List.length = List.replicate n F) : ∀ b ∈ chans, b.length = F := by
  intro b hb
  have : b.length ∈ chans.map List.length := List.mem_map_of_mem _ hb
  rw [h] at this
  exact List.eq_of_mem_replicate this

/-- C12, amended: the channel table holds 256 entries and the size of the
interleaved buffer is an `int`.  For every `F`, `Cin`, `Cout`: constructing a
`Deinterleaver(F, Cin, Cout)` succeeds exactly when `max(Cin, Cout) <= 256` and
`F * Cin <= INT_MAX`, and then yields one interleaved buffer of `F * Cin` samples
and exactly `max(Cin, Cout)` per-channel buffers of `F` samples each;
constructing an `Interleaver(F, Cin, Cout)` succeeds exactly when
`max(Cin, Cout) <= 256` and `F * Cout <= INT_MAX`, and then yields exactly
`max(Cin, Cout)` per-channel buffers of `F` samples each and one interleaved
buffer of `F * Cout` samples. -/
theorem constructors_allocate (F Cin Cout : Nat) (uIn : Nat → α) (uOut : Nat → Nat → α)
    (vIn : Nat → Nat → α) (vOut : Nat → α) :
    ((∃ d, Deinterleaver.new F Cin Cout uIn uOut = .ok d) ↔
      (max Cin Cout ≤ MAX_CHANNELS ∧ F * Cin ≤ INT_MAX)) ∧
    (∀ d, Deinterleaver.new F Cin Cout uIn uOut = .ok d →
      d.fNumFrames = F ∧ d.fNumInputs = Cin ∧ d.fNumOutputs = max Cin Cout ∧
      d.fInput.length = F * Cin ∧ d.fOutputs.length = max Cin Cout ∧
      ∀ b ∈ d.fOutputs, b.length = F) ∧
    ((∃ it, Interleaver.new F Cin Cout vIn vOut = .ok it) ↔
      (max Cin Cout ≤ MAX_CHANNELS ∧ F * Cout ≤ INT_MAX)) ∧
    (∀ it, Interleaver.new F Cin Cout vIn vOut = .ok it →
      it.fNumFrames = F ∧ it.fNumInputs = max Cin Cout ∧ it.fNumOutputs = Cout ∧
      it.fInputs.length = max Cin Cout ∧ (∀ b ∈ it.fInputs, b.length = F) ∧
      it.fOutput.length = F * Cout) := by
  refine ⟨⟨?_, ?_⟩, ?_, ⟨?_, ?_⟩, ?_⟩
  · rintro ⟨d, hd⟩
    obtain ⟨h1, h2, _⟩ := deinterleaver_new_eq_ok hd
    exact ⟨h2, h1⟩
  · rintro ⟨h1, h2⟩
    exact deinterleaver_new_ok F Cin Cout uIn uOut h1 h2
  · intro d hd
    obtain ⟨_, _, h3, h4, h5, h6, h7, _⟩ := deinterleaver_new_eq_ok hd
    exact ⟨h3, h4, h5, by rw [h6]; simp, h7,
      length_of_mem_of_shape (deinterleaver_new_shape hd)⟩
  · rintro ⟨it, hit⟩
    obtain ⟨h1, h2, _⟩ := interleaver_new_eq_ok hit
    exact ⟨h2, h1⟩
  · rintro ⟨h1, h2⟩
    exact interleaver_new_ok F Cin Cout vIn vOut h1 h2
  · intro it hit
    obtain ⟨_, _, h3, h4, h5, h6, h7, _⟩ := interleaver_new_eq_ok hit
    exact ⟨h3, h4, h5, h7, length_of_mem_of_shape (interleaver_new_shape hit),
      by rw [h6]; simp⟩

/-- An instance of C12 as amended: `Deinterleaver(2, 1, 3)` and
`Interleaver(2, 1, 3)`. -/
theorem constructors_allocate_witness :
    (Deinterleaver.new 2 1 3 (fun _ => (0 : Int)) (fun _ _ => 0)
      = .ok ⟨2, 1, 3, [0, 0], [[0, 0], [0, 0], [0, 0]]⟩) ∧
    (Interleaver.new 2 1 3 (fun _ _ => (0 : Int)) (fun _ => 0)
      = .ok ⟨2, 3, 3, [[0, 0], [0, 0], [0, 0]], [0, 0, 0, 0, 0, 0]⟩) ∧
    (∃ d, Deinterleaver.new 2 1 3 (fun _ => (0 : Int)) (fun _ _ => 0) = .ok d) ∧
    (([0, 0] : List Int).length = 2 * 1 ∧
      ([[0, 0], [0, 0], [0, 0]] : List (List Int)).length = max 1 3 ∧
      ∀ b ∈ ([[0, 0], [0, 0], [0, 0]] : List (List Int)), b.length = 2) ∧
    (∃ it, Interleaver.new 2 1 3 (fun _ _ => (0 : Int)) (fun _ => 0) = .ok it) ∧
    (([[0, 0], [0, 0], [0, 0]] : List (List Int)).length = max 1 3 ∧
      (∀ b ∈ ([[0, 0], [0, 0], [0, 0]] : List (List Int)), b.length = 2) ∧
      ([0, 0, 0, 0, 0, 0] : List Int).length = 2 * 3) :=
  ⟨rfl, rfl,
    (constructors_allocate 2 1 3 (fun _ => (0 : Int)) (fun _ _ => 0)
      (fun _ _ => 0) (fun _ => 0)).1.2 ⟨by decide, by decide⟩,
    ((constructors_allocate 2 1 3 (fun _ => (0 : Int)) (fun _ _ => 0)
      (fun _ _ => 0) (fun _ => 0)).2.1
        ⟨2, 1, 3, [0, 0], [[0, 0], [0, 0], [0, 0]]⟩ rfl).2.2.2,
    (constructors_allocate 2 1 3 (fun _ => (0 : Int)) (fun _ _ => 0)
      (fun _ _ => 0) (fun _ => 0)).2.2.1.2 ⟨by decide, by decide⟩,
    ((constructors_allocate 2 1 3 (fun _ => (0 : Int)) (fun _ _ => 0)
      (fun _ _ => 0) (fun _ => 0)).2.2.2
        ⟨2, 3, 3, [[0, 0], [0, 0], [0, 0]], [0, 0, 0, 0, 0, 0]⟩ rfl).2.2.2⟩

/-- C12 as stated fails above the capacity of the channel table and above the
range of `int`: `Deinterleaver(1, 257, 0)` and `Interleaver(1, 0, 257)` store a
257th pointer in a table of 256, and `Deinterleaver(2^30, 2, 0)` computes the
size `2^30 * 2` of its interleaved buffer outside the range of `int`. -/
theorem constructors_allocate_counterexample :
    (Deinterleaver.new 1 257 0 (fun _ => (0 : Int)) (fun _ _ => 0) = .error .outOfBounds) ∧
    (Interleaver.new 1 0 257 (fun _ _ => (0 : Int)) (fun _ => 0) = .error .outOfBounds) ∧
    (Deinterleaver.new (2 ^ 30) 2 0 (fun _ => (0 : Int)) (fun _ _ => 0)
      = .error .overflow) := by
  refine ⟨rfl, rfl, ?_⟩
  have hov : INT_MAX < 2 ^ 30 * 2 := by norm_num [INT_MAX]
  simp only [Deinterleaver.new, hov, if_true]

end ConstructionClaims

/-! ## Boundary claims -/

section BoundaryClaims

variable {α : Type}

/-- A loop whose body leaves the state as it is leaves the state as it is. -/
theorem forLoop_const {σ : Type} (lo hi : Nat) (body : Nat → σ → Except Fault σ) (s : σ)
    (h : ∀ j, lo ≤ j → j < hi → body j s = .ok s) : forLoop lo hi body s = .ok s := by
  rcases Nat.lt_or_ge hi lo with hlt | hle
  · exact forLoop_empty body s (Nat.le_of_lt hlt)
  · obtain ⟨s', hs', he⟩ := forLoop_total lo hi body (fun _ t => t = s) s hle
      (fun j t h1 h2 ht => ⟨s, by rw [ht]; exact h j h1 h2, rfl⟩) rfl
    rw [hs', he]

theorem deinterleave_no_frames (d : Deinterleaver α) (h : d.fNumFrames = 0) :
    d.deinterleave = .ok d := by
  have hl : forLoop 0 d.fNumFrames
      (fun s outs => forLoop 0 d.fNumInputs (d.copy s) outs) d.fOutputs = .ok d.fOutputs := by
    rw [h]
    exact forLoop_empty _ _ (Nat.le_refl 0)
  unfold Deinterleaver.deinterleave
  rw [hl]

theorem deinterleave_no_channels (d : Deinterleaver α) (h : d.fNumInputs = 0) :
    d.deinterleave = .ok d := by
  have hl : forLoop 0 d.fNumFrames
      (fun s outs => forLoop 0 d.fNumInputs (d.copy s) outs) d.fOutputs = .ok d.fOutputs :=
    forLoop_const 0 d.fNumFrames _ d.fOutputs (fun s _ _ => by
      show forLoop 0 d.fNumInputs (d.copy s) d.fOutputs = .ok d.fOutputs
      rw [h]
      exact forLoop_empty _ _ (Nat.le_refl 0))
  unfold Deinterleaver.deinterleave
  rw [hl]

theorem interleave_no_frames (it : Interleaver α) (h : it.fNumFrames = 0) :
    it.interleave = .ok it := by
  have hl : forLoop 0 it.fNumFrames
      (fun s out => forLoop 0 it.fNumOutputs (it.copy s) out) it.fOutput = .ok it.fOutput := by
    rw [h]
    exact forLoop_empty _ _ (Nat.le_refl 0)
  unfold Interleaver.interleave
  rw [hl]

theorem interleave_no_channels (it : Interleaver α) (h : it.fNumOutputs = 0) :
    it.interleave = .ok it := by
  have hl : forLoop 0 it.fNumFrames
      (fun s out => forLoop 0 it.fNumOutputs (it.copy s) out) it.fOutput = .ok it.fOutput :=
    forLoop_const 0 it.fNumFrames _ it.fOutput (fun s _ _ => by
      show forLoop 0 it.fNumOutputs (it.copy s) it.fOutput = .ok it.fOutput
      rw [h]
      exact forLoop_empty _ _ (Nat.le_refl 0))
  unfold Interleaver.interleave
  rw [hl]

theorem eq_nil_of_mem_of_shape_zero {chans : List (List α)} {n : Nat}
    (h : chans.map List.length = List.replicate n 0) : ∀ b ∈ chans, b = [] :=
  fun b hb => List.length_eq_zero.1 (length_of_mem_of_shape h b hb)

end BoundaryClaims

section BoundaryAudio

variable {α : Type} [Zero α]

theorem interleavedRead_no_frames (nd : Bool) (ac : AudioChannels α) (buf : List α)
    (n : Nat) : ac.interleavedRead nd buf 0 n = .ok (ac, buf) := by
  unfold AudioChannels.interleavedRead
  have ha : ¬ (!nd && decide (ac.fNumFrames < 0)) = true := by simp
  have hF : min 0 ac.fNumFrames = 0 := Nat.zero_min _
  simp only [ha, hF, forLoop_empty _ _ (Nat.le_refl 0), Bool.false_eq_true, if_false]

theorem interleavedWrite_no_frames (nd : Bool) (ac : AudioChannels α) (buf : List α)
    (n : Nat) : ac.interleavedWrite nd buf 0 n = .ok (ac, buf) := by
  unfold AudioChannels.interleavedWrite
  have ha : ¬ (!nd && decide (ac.fNumFrames < 0)) = true := by simp
  have hF : min 0 ac.fNumFrames = 0 := Nat.zero_min _
  simp only [ha, hF, forLoop_empty _ _ (Nat.le_refl 0), Bool.false_eq_true, if_false]

theorem interleavedRead_no_channels (nd : Bool) (ac : AudioChannels α) (buf : List α)
    (len : Nat) (hN : ac.fNumChannels = 0) (hlen : len ≤ ac.fNumFrames) :
    ac.interleavedRead nd buf len 0 = .ok (ac, buf) := by
  unfold AudioChannels.interleavedRead
  have ha : ¬ (!nd && decide (ac.fNumFrames < len)) = true := by
    simp [Nat.not_lt.2 hlen]
  have hl : forLoop 0 (min len ac.fNumFrames)
      (readFrame buf 0 (min 0 ac.fNumChannels) ac.fNumChannels) ac.fChannels
      = .ok ac.fChannels :=
    forLoop_const 0 _ _ ac.fChannels (fun f _ _ => by
      rw [hN]
      simp only [readFrame, Nat.zero_min, forLoop_empty _ _ (Nat.le_refl 0)])
  simp only [ha, hl, Bool.false_eq_true, if_false]

theorem interleavedWrite_no_channels (nd : Bool) (ac : AudioChannels α) (buf : List α)
    (len : Nat) (hlen : len ≤ ac.fNumFrames) :
    ac.interleavedWrite nd buf len 0 = .ok (ac, buf) := by
  unfold AudioChannels.interleavedWrite
  have ha : ¬ (!nd && decide (ac.fNumFrames < len)) = true := by
    simp [Nat.not_lt.2 hlen]
  have hl : forLoop 0 (min len ac.fNumFrames)
      (writeFrame ac.fChannels 0 (min 0 ac.fNumChannels)) buf = .ok buf :=
    forLoop_const 0 _ _ buf (fun f _ _ => by
      simp only [writeFrame, Nat.zero_min, forLoop_empty _ _ (Nat.le_refl 0)])
  simp only [ha, hl, Bool.false_eq_true, if_false]

/-- C13, amended: the channel table holds 256 entries.  Constructing a
`Deinterleaver` or an `Interleaver` with frame count 0 and at most 256
channels, or with all channel counts 0, and constructing an `AudioChannels`
with 0 frames or 0 channels, succeeds and produces buffers with zero elements
(with `F = 0` every per-channel buffer and the interleaved buffer are empty;
with 0 channels there is no per-channel buffer and the interleaved buffer is
empty); `deinterleave()` and `interleave()` on such an adapter, and
`interleavedRead` and `interleavedWrite` with length 0 or with 0 external
channels (and `length <= NF`: length 0 on an `AudioChannels` without frames,
length 0 or 0 external channels on an `AudioChannels` without channels),
complete on every external buffer, the empty one included, and leave the
adapter and the external buffer unchanged. -/
theorem boundary_adapters (F Cin Cout NF NC : Nat) (uIn : Nat → α) (uOut : Nat → Nat → α)
    (vIn : Nat → Nat → α) (vOut : Nat → α) (nd : Bool) (ac : AudioChannels α)
    (buf : List α) (len n : Nat) :
    (max Cin Cout ≤ MAX_CHANNELS →
      ∃ d, Deinterleaver.new 0 Cin Cout uIn uOut = .ok d ∧ d.fInput = [] ∧
        d.fOutputs.length = max Cin Cout ∧ (∀ b ∈ d.fOutputs, b = []) ∧
        d.deinterleave = .ok d) ∧
    (Deinterleaver.new F 0 0 uIn uOut = .ok ⟨F, 0, 0, [], []⟩ ∧
      Deinterleaver.deinterleave (⟨F, 0, 0, [], []⟩ : Deinterleaver α)
        = .ok ⟨F, 0, 0, [], []⟩) ∧
    (max Cin Cout ≤ MAX_CHANNELS →
      ∃ it, Interleaver.new 0 Cin Cout vIn vOut = .ok it ∧ it.fOutput = [] ∧
        it.fInputs.length = max Cin Cout ∧ (∀ b ∈ it.fInputs, b = []) ∧
        it.interleave = .ok it) ∧
    (Interleaver.new F 0 0 vIn vOut = .ok ⟨F, 0, 0, [], []⟩ ∧
      Interleaver.interleave (⟨F, 0, 0, [], []⟩ : Interleaver α)
        = .ok ⟨F, 0, 0, [], []⟩) ∧
    ((AudioChannels.new 0 NC : AudioChannels α) = ⟨0, NC, List.replicate NC []⟩ ∧
      (AudioChannels.new NF 0 : AudioChannels α) = ⟨NF, 0, []⟩) ∧
    (ac.interleavedRead nd buf 0 n = .ok (ac, buf) ∧
      ac.interleavedWrite nd buf 0 n = .ok (ac, buf)) ∧
    (len ≤ NF →
      (AudioChannels.new NF 0 : AudioChannels α).interleavedRead nd buf len 0
        = .ok (AudioChannels.new NF 0, buf) ∧
      (AudioChannels.new NF 0 : AudioChannels α).interleavedWrite nd buf len 0
        = .ok (AudioChannels.new NF 0, buf)) := by
  refine ⟨?_, ⟨?_, ?_⟩, ?_, ⟨?_, ?_⟩, ⟨rfl, rfl⟩, ⟨?_, ?_⟩, ?_⟩
  · intro hcap
    obtain ⟨d, hd⟩ := deinterleaver_new_ok 0 Cin Cout uIn uOut hcap (by simp)
    obtain ⟨_, _, hF, _, _, hin, hlen, _⟩ := deinterleaver_new_eq_ok hd
    exact ⟨d, hd, by simpa using hin, hlen,
      eq_nil_of_mem_of_shape_zero (deinterleaver_new_shape hd),
      deinterleave_no_frames d hF⟩
  · have hov : ¬ INT_MAX < F * 0 := by simp
    simp [Deinterleaver.new, forLoop, iterate]
  · exact deinterleave_no_channels _ rfl
  · intro hcap
    obtain ⟨it, hit⟩ := interleaver_new_ok 0 Cin Cout vIn vOut hcap (by simp)
    obtain ⟨_, _, hF, _, _, hout, hlen, _⟩ := interleaver_new_eq_ok hit
    exact ⟨it, hit, by simpa using hout, hlen,
      eq_nil_of_mem_of_shape_zero (interleaver_new_shape hit),
      interleave_no_frames it hF⟩
  · simp [Interleaver.new, forLoop, iterate]
  · exact interleave_no_channels _ rfl
  · exact interleavedRead_no_frames nd ac buf n
  · exact interleavedWrite_no_frames nd ac buf n
  · intro hlen
    exact ⟨interleavedRead_no_channels nd _ buf len rfl hlen,
      interleavedWrite_no_channels nd _ buf len hlen⟩

/-- Instances of C13 as amended: `Deinterleaver(0, 2, 3)`, `Interleaver(0, 2, 3)`
and `AudioChannels(4, 0)` with `length = 3` and 0 external channels on the
empty buffer. -/
theorem boundary_adapters_witness :
    (Deinterleaver.new 0 2 3 (fun _ => (0 : Int)) (fun _ _ => 0)
      = .ok ⟨0, 2, 3, [], [[], [], []]⟩) ∧
    (∃ d, Deinterleaver.new 0 2 3 (fun _ => (0 : Int)) (fun _ _ => 0) = .ok d ∧
      d.fInput = [] ∧ d.fOutputs.length = max 2 3 ∧ (∀ b ∈ d.fOutputs, b = []) ∧
      d.deinterleave = .ok d) ∧
    (∃ it, Interleaver.new 0 2 3 (fun _ _ => (0 : Int)) (fun _ => 0) = .ok it ∧
      it.fOutput = [] ∧ it.fInputs.length = max 2 3 ∧ (∀ b ∈ it.fInputs, b = []) ∧
      it.interleave = .ok it) ∧
    ((AudioChannels.new 4 0 : AudioChannels Int).interleavedRead false [] 3 0
        = .ok (AudioChannels.new 4 0, []) ∧
      (AudioChannels.new 4 0 : AudioChannels Int).interleavedWrite false [] 3 0
        = .ok (AudioChannels.new 4 0, [])) :=
  ⟨rfl,
    (boundary_adapters 5 2 3 4 2 (fun _ => (0 : Int)) (fun _ _ => 0) (fun _ _ => 0)
      (fun _ => 0) false (AudioChannels.new 0 2) [] 3 1).1 (by decide),
    (boundary_adapters 5 2 3 4 2 (fun _ => (0 : Int)) (fun _ _ => 0) (fun _ _ => 0)
      (fun _ => 0) false (AudioChannels.new 0 2) [] 3 1).2.2.1 (by decide),
    (boundary_adapters 5 2 3 4 2 (fun _ => (0 : Int)) (fun _ _ => 0) (fun _ _ => 0)
      (fun _ => 0) false (AudioChannels.new 0 2) [] 3 1).2.2.2.2.2.2 (by decide)⟩

/-- C13 as stated fails above the capacity of the channel table:
`Deinterleaver(0, 257, 0)` and `Interleaver(0, 257, 0)` have frame count 0 but
store a 257th pointer in a table of 256. -/
theorem boundary_adapters_counterexample :
    (Deinterleaver.new 0 257 0 (fun _ => (0 : Int)) (fun _ _ => 0) = .error .outOfBounds) ∧
    (Interleaver.new 0 257 0 (fun _ _ => (0 : Int)) (fun _ => 0) = .error .outOfBounds) :=
  ⟨rfl, rfl⟩

end BoundaryAudio

/-! ## Dependence of `interleavedRead` on the source buffer -/

section SourceDependence

variable {α : Type} [Zero α]

/-- Reading three frames into one channel: the closed form of the result when
the three samples read are inside the source buffer. -/
theorem interleavedRead_three_frames (buf : List α) (n : Nat) (hn : 0 < n)
    (x0 x1 x2 v0 v1 v2 : α)
    (h0 : buf[(0 * n + 0) % UINT_RANGE]? = some v0)
    (h1 : buf[(1 * n + 0) % UINT_RANGE]? = some v1)
    (h2 : buf[(2 * n + 0) % UINT_RANGE]? = some v2) :
    AudioChannels.interleavedRead false (⟨3, 1, [[x0, x1, x2]]⟩ : AudioChannels α) buf 3 n
      = .ok (⟨3, 1, [[v0, v1, v2]]⟩, buf) := by
  have hC : min n 1 = 1 := Nat.min_eq_right hn
  have hF : min 3 3 = 3 := rfl
  refine interleavedRead_eq_of_cells false ⟨3, 1, [[x0, x1, x2]]⟩ buf 3 n
    (Or.inr (Nat.le_refl 3)) ?_ ?_ [[v0, v1, v2]] rfl ?_
  · intro f c hf hc
    have hf3 : f < 3 := hf
    have hc0 : c = 0 := by
      have : c < 1 := Nat.lt_of_lt_of_le hc (Nat.min_le_right _ _)
      omega
    subst hc0
    interval_cases f
    · exact lt_length_of_getElem? h0
    · exact lt_length_of_getElem? h1
    · exact lt_length_of_getElem? h2
  · intro c f hc hf
    have hc0 : c = 0 := by
      have : c < 1 := hc
      omega
    have hf3 : f < 3 := hf
    subst hc0
    interval_cases f <;> rfl
  · intro c f
    show sample [[v0, v1, v2]] c f = readCell buf n (min n 1) 1 [[x0, x1, x2]] (min 3 3) c f
    rw [hC, hF]
    unfold readCell
    by_cases hf : f < 3
    · by_cases hc : c < 1
      · have hc0 : c = 0 := by omega
        subst hc0
        simp only [hf, hc, if_true]
        interval_cases f
        · rw [h0]
          rfl
        · rw [h1]
          rfl
        · rw [h2]
          rfl
      · have ha : sample [[v0, v1, v2]] c f = none :=
          sample_eq_none_of_length_le f (by simp; omega)
        have hb : sample [[x0, x1, x2]] c f = none :=
          sample_eq_none_of_length_le f (by simp; omega)
        simp only [hf, hc, if_true, if_false, ha, hb]
    · have ha : sample [[v0, v1, v2]] c f = none :=
        sample_eq_none_of_frame_ge (F := 3) c (by simp) (by omega)
      have hb : sample [[x0, x1, x2]] c f = none :=
        sample_eq_none_of_frame_ge (F := 3) c (by simp) (by omega)
      simp only [hf, if_false, ha, hb]

/-- C14, amended: the external index is computed in `unsigned int`.  For every
`AudioChannels` state, every `length <= NF` and every `inchannels`: if two
source buffers agree on every sample at position
`(f*inchannels + c) mod 2^32` with `f < length` and `c < min(inchannels, NC)`,
then `interleavedRead` produces the same internal channel buffers (or the same
fault) from both; when `length * inchannels <= 2^32` these positions are
`f*inchannels + c`, so that the samples of the source channels
`NC..inchannels-1` have no influence on the result. -/
theorem excess_source_channels (nd : Bool) (ac : AudioChannels α) (buf1 buf2 : List α)
    (len n : Nat) (hlen : len ≤ ac.fNumFrames) :
    ((∀ f c, f < len → c < min n ac.fNumChannels →
        buf1[(f * n + c) % UINT_RANGE]? = buf2[(f * n + c) % UINT_RANGE]?) →
      (ac.interleavedRead nd buf1 len n).map Prod.fst
        = (ac.interleavedRead nd buf2 len n).map Prod.fst) ∧
    (len * n ≤ UINT_RANGE →
      (∀ f c, f < len → c < min n ac.fNumChannels → buf1[f * n + c]? = buf2[f * n + c]?) →
      (ac.interleavedRead nd buf1 len n).map Prod.fst
        = (ac.interleavedRead nd buf2 len n).map Prod.fst) := by
  have hF : min len ac.fNumFrames = len := Nat.min_eq_left hlen
  constructor
  · intro h
    exact interleavedRead_congr nd ac len n (fun f c hf hc => h f c (hF ▸ hf) hc)
  · intro hk h
    refine interleavedRead_congr nd ac len n (fun f c hf hc => ?_)
    have hf' : f < len := hF ▸ hf
    rw [wrapped_index_eq hk hf' (Nat.lt_of_lt_of_le hc (Nat.min_le_left _ _))]
    exact h f c hf' hc

/-- An instance of C14 as amended: the second channel of a two-channel source
has no influence on what a one-channel `AudioChannels` reads. -/
theorem excess_source_channels_witness :
    2 ≤ 2 ∧
    ((AudioChannels.interleavedRead false (⟨2, 1, [[5, 6]]⟩ : AudioChannels Int)
        [1, 7, 2, 7] 2 2).map Prod.fst
      = .ok ⟨2, 1, [[1, 2]]⟩) ∧
    (((∀ f c, f < 2 → c < min 2 1 →
        ([1, 7, 2, 7] : List Int)[(f * 2 + c) % UINT_RANGE]?
          = ([1, 8, 2, 9] : List Int)[(f * 2 + c) % UINT_RANGE]?) →
      (AudioChannels.interleavedRead false (⟨2, 1, [[5, 6]]⟩ : AudioChannels Int)
          [1, 7, 2, 7] 2 2).map Prod.fst
        = (AudioChannels.interleavedRead false (⟨2, 1, [[5, 6]]⟩ : AudioChannels Int)
          [1, 8, 2, 9] 2 2).map Prod.fst) ∧
    (2 * 2 ≤ UINT_RANGE →
      (∀ f c, f < 2 → c < min 2 1 →
        ([1, 7, 2, 7] : List Int)[f * 2 + c]? = ([1, 8, 2, 9] : List Int)[f * 2 + c]?) →
      (AudioChannels.interleavedRead false (⟨2, 1, [[5, 6]]⟩ : AudioChannels Int)
          [1, 7, 2, 7] 2 2).map Prod.fst
        = (AudioChannels.interleavedRead false (⟨2, 1, [[5, 6]]⟩ : AudioChannels Int)
          [1, 8, 2, 9] 2 2).map Prod.fst)) :=
  ⟨by decide, rfl,
    excess_source_channels false (⟨2, 1, [[5, 6]]⟩ : AudioChannels Int)
      [1, 7, 2, 7] [1, 8, 2, 9] 2 2 (by decide)⟩

/-- C14 as stated fails when `f * inchannels` wraps around in `unsigned int`:
with `NF = 3`, `NC = 1`, `length = 3` and `inchannels = 2^32 - 1`, the positions
`f*inchannels + c` are `0`, `2^32 - 1` and `2^33 - 2`, on which the two source
buffers of `2^32` samples agree, but frame 2 is read at index
`(2^33 - 2) mod 2^32 = 2^32 - 2`, where they differ. -/
theorem excess_source_channels_counterexample :
    (∀ f c, f < 3 → c < min (UINT_RANGE - 1) 1 →
      (List.replicate UINT_RANGE (0 : Int))[f * (UINT_RANGE - 1) + c]?
        = ((List.replicate UINT_RANGE (0 : Int)).set (UINT_RANGE - 2) 1)[
            f * (UINT_RANGE - 1) + c]?) ∧
    (AudioChannels.interleavedRead false (⟨3, 1, [[5, 5, 5]]⟩ : AudioChannels Int)
        (List.replicate UINT_RANGE 0) 3 (UINT_RANGE - 1)
      = .ok (⟨3, 1, [[0, 0, 0]]⟩, List.replicate UINT_RANGE 0)) ∧
    (AudioChannels.interleavedRead false (⟨3, 1, [[5, 5, 5]]⟩ : AudioChannels Int)
        ((List.replicate UINT_RANGE 0).set (UINT_RANGE - 2) 1) 3 (UINT_RANGE - 1)
      = .ok (⟨3, 1, [[0, 0, 1]]⟩, (List.replicate UINT_RANGE 0).set (UINT_RANGE - 2) 1)) := by
  have e0 : (0 * (UINT_RANGE - 1) + 0) % UINT_RANGE = 0 := by decide
  have e1 : (1 * (UINT_RANGE - 1) + 0) % UINT_RANGE = UINT_RANGE - 1 := by decide
  have e2 : (2 * (UINT_RANGE - 1) + 0) % UINT_RANGE = UINT_RANGE - 2 := by decide
  have hpos : 0 < UINT_RANGE - 1 := by decide
  have k0 : (0 : Nat) < UINT_RANGE := by decide
  have k1 : UINT_RANGE - 1 < UINT_RANGE := by decide
  have k2 : UINT_RANGE - 2 < UINT_RANGE := by decide
  have n0 : UINT_RANGE - 2 ≠ 0 := by decide
  have n1 : UINT_RANGE - 2 ≠ UINT_RANGE - 1 := by decide
  refine ⟨?_, ?_, ?_⟩
  · intro f c hf hc
    have hc0 : c = 0 := by
      have : c < 1 := Nat.lt_of_lt_of_le hc (Nat.min_le_right _ _)
      omega
    subst hc0
    rw [List.getElem?_set, List.length_replicate]
    have hne : UINT_RANGE - 2 ≠ f * (UINT_RANGE - 1) + 0 := by
      interval_cases f <;> decide
    simp only [hne, if_false]
  · refine interleavedRead_three_frames _ _ hpos 5 5 5 0 0 0 ?_ ?_ ?_
    · rw [e0, List.getElem?_replicate, if_pos k0]
    · rw [e1, List.getElem?_replicate, if_pos k1]
    · rw [e2, List.getElem?_replicate, if_pos k2]
  · refine interleavedRead_three_frames _ _ hpos 5 5 5 0 0 1 ?_ ?_ ?_
    · rw [e0, List.getElem?_set, List.length_replicate, if_neg n0,
        List.getElem?_replicate, if_pos k0]
    · rw [e1, List.getElem?_set, List.length_replicate, if_neg n1,
        List.getElem?_replicate, if_pos k1]
    · rw [e2, List.getElem?_set, List.length_replicate, if_pos rfl, if_pos k2]

end SourceDependence

/-! ## In-bounds claims -/

section InBoundsLayout

variable {α : Type}

/-- C15: `deinterleave()` and `interleave()` are total on every constructed
adapter.  For every `F`, `Cin`, `Cout` with `max(Cin, Cout) <= 256` and
`F * Cin`, `F * Cout` representable as `int`, the constructors succeed and, on
the adapters they build (whatever the content of the buffers),
`deinterleave()` and `interleave()` complete; every index they use is in
bounds: for `s < F` and `c < Cin` (resp. `c < Cout`) the channel index `c` is
below the number of allocated per-channel buffers, the cell `(c, s)` exists,
and the interleaved index `c + s*Cin` (resp. `c + s*Cout`) is below the size
`F * Cin` (resp. `F * Cout`) of the interleaved buffer and within `int`. -/
theorem conversions_in_bounds (F Cin Cout : Nat) (uIn : Nat → α) (uOut : Nat → Nat → α)
    (vIn : Nat → Nat → α) (vOut : Nat → α) (hcap : max Cin Cout ≤ MAX_CHANNELS)
    (hIn : F * Cin ≤ INT_MAX) (hOut : F * Cout ≤ INT_MAX) :
    (∃ d d', Deinterleaver.new F Cin Cout uIn uOut = .ok d ∧ d.deinterleave = .ok d' ∧
      d.fInput.length = F * Cin ∧
      ∀ s c, s < F → c < Cin →
        c < d.fOutputs.length ∧ (sample d.fOutputs c s).isSome ∧
        c + s * Cin < d.fInput.length ∧ c + s * Cin ≤ INT_MAX) ∧
    (∃ it it', Interleaver.new F Cin Cout vIn vOut = .ok it ∧ it.interleave = .ok it' ∧
      it.fOutput.length = F * Cout ∧
      ∀ s c, s < F → c < Cout →
        c < it.fInputs.length ∧ (sample it.fInputs c s).isSome ∧
        c + s * Cout < it.fOutput.length ∧ c + s * Cout ≤ INT_MAX) := by
  constructor
  · obtain ⟨d, hd⟩ := deinterleaver_new_ok F Cin Cout uIn uOut hcap hIn
    obtain ⟨_, _, hF, hC, _, hin, hlen, _⟩ := deinterleaver_new_eq_ok hd
    have hinlen : d.fInput.length = F * Cin := by rw [hin]; simp
    have hidx : ∀ s c, s < F → c < Cin →
        c < d.fOutputs.length ∧ (sample d.fOutputs c s).isSome ∧
        c + s * Cin < d.fInput.length ∧ c + s * Cin ≤ INT_MAX := by
      intro s c hs hc
      have hlt := interleaved_index_lt hc hs
      refine ⟨by rw [hlen]; exact lt_max_of_lt_left hc, ?_, by rw [hinlen]; exact hlt,
        by omega⟩
      rw [deinterleaver_sample_new hd (lt_max_of_lt_left hc) hs]
      rfl
    obtain ⟨d', hd'⟩ := deinterleave_ok_of_ready (d := d) (fun c s hc hs => by
      rw [hC] at hc ⊢
      rw [hF] at hs
      obtain ⟨_, h2, h3, h4⟩ := hidx s c hs hc
      exact ⟨h4, h3, h2⟩)
    exact ⟨d, d', hd, hd', hinlen, hidx⟩
  · obtain ⟨it, hit⟩ := interleaver_new_ok F Cin Cout vIn vOut hcap hOut
    obtain ⟨_, _, hF, _, hC, hout, hlen, _⟩ := interleaver_new_eq_ok hit
    have houtlen : it.fOutput.length = F * Cout := by rw [hout]; simp
    have hidx : ∀ s c, s < F → c < Cout →
        c < it.fInputs.length ∧ (sample it.fInputs c s).isSome ∧
        c + s * Cout < it.fOutput.length ∧ c + s * Cout ≤ INT_MAX := by
      intro s c hs hc
      have hlt := interleaved_index_lt hc hs
      refine ⟨by rw [hlen]; exact lt_max_of_lt_right hc, ?_, by rw [houtlen]; exact hlt,
        by omega⟩
      rw [interleaver_sample_new hit (lt_max_of_lt_right hc) hs]
      rfl
    obtain ⟨it', hit'⟩ := interleave_ok it (by rw [hF, hC]; exact hOut)
      (by rw [hF, hC, houtlen])
      (fun c f hc hf => by
        rw [hC] at hc
        rw [hF] at hf
        exact (hidx f c hf hc).2.1)
    exact ⟨it, it', hit, hit', houtlen, hidx⟩

/-- An instance of C15: `Deinterleaver(2, 2, 3)` and `Interleaver(2, 2, 3)`. -/
theorem conversions_in_bounds_witness :
    max 2 3 ≤ MAX_CHANNELS ∧ 2 * 2 ≤ INT_MAX ∧ 2 * 3 ≤ INT_MAX ∧
    (Deinterleaver.deinterleave
        (⟨2, 2, 3, [1, 2, 3, 4], [[0, 0], [0, 0], [0, 0]]⟩ : Deinterleaver Int)
      = .ok ⟨2, 2, 3, [1, 2, 3, 4], [[1, 3], [2, 4], [0, 0]]⟩) ∧
    ((∃ d d', Deinterleaver.new 2 2 3 (fun i => ((i : Int) + 1)) (fun _ _ => 0) = .ok d ∧
      d.deinterleave = .ok d' ∧ d.fInput.length = 2 * 2 ∧
      ∀ s c, s < 2 → c < 2 →
        c < d.fOutputs.length ∧ (sample d.fOutputs c s).isSome ∧
        c + s * 2 < d.fInput.length ∧ c + s * 2 ≤ INT_MAX) ∧
    (∃ it it', Interleaver.new 2 2 3 (fun _ _ => (0 : Int)) (fun _ => 0) = .ok it ∧
      it.interleave = .ok it' ∧ it.fOutput.length = 2 * 3 ∧
      ∀ s c, s < 2 → c < 3 →
        c < it.fInputs.length ∧ (sample it.fInputs c s).isSome ∧
        c + s * 3 < it.fOutput.length ∧ c + s * 3 ≤ INT_MAX)) :=
  ⟨by decide, by decide, by decide, rfl,
    conversions_in_bounds 2 2 3 (fun i => ((i : Int) + 1)) (fun _ _ => 0)
      (fun _ _ => 0) (fun _ => 0) (by decide) (by decide) (by decide)⟩

end InBoundsLayout

/-! ## The running external index -/

section RunningIndex

variable {α : Type}

/-- After `c` iterations of the copy loop of `interleavedRead` in frame `f`,
the running index is `f * n + c` modulo `2^32`. -/
theorem readSample_index (buf : List α) (n f c : Nat) (chans : List (List α))
    (st : List (List α) × Nat)
    (h : forLoop 0 c (readSample buf f) (chans, (f * n) % UINT_RANGE) = .ok st) :
    st.2 = (f * n + c) % UINT_RANGE :=
  forLoop_inv 0 c _ (fun j (u : List (List α) × Nat) => u.2 = (f * n + j) % UINT_RANGE)
    (chans, (f * n) % UINT_RANGE) st (Nat.zero_le _)
    (fun j u u' _ _ hQ hb => by
      show u'.2 = (f * n + (j + 1)) % UINT_RANGE
      rw [readSample_snd hb, hQ, succ_mod_uint]
      rfl)
    rfl h

/-- After `c` iterations of the copy loop of `interleavedWrite` in frame `f`,
the running index is `f * n + c` modulo `2^32`. -/
theorem writeSample_index (chans : List (List α)) (n f c : Nat) (out : List α)
    (st : List α × Nat)
    (h : forLoop 0 c (writeSample chans f) (out, (f * n) % UINT_RANGE) = .ok st) :
    st.2 = (f * n + c) % UINT_RANGE :=
  forLoop_inv 0 c _ (fun j (u : List α × Nat) => u.2 = (f * n + j) % UINT_RANGE)
    (out, (f * n) % UINT_RANGE) st (Nat.zero_le _)
    (fun j u u' _ _ hQ hb => by
      obtain ⟨v, _, _, rfl⟩ := writeSample_eq_ok hb
      show (u.2 + 1) % UINT_RANGE = (f * n + (j + 1)) % UINT_RANGE
      rw [hQ, succ_mod_uint]
      rfl)
    rfl h

end RunningIndex

section InBoundsAudio

variable {α : Type} [Zero α]

/-- When the zero-fill loop of `interleavedWrite` starts at channel `C` with the
running index `k + C` modulo `2^32`, the running index before channel `c` is
`k + c` modulo `2^32`. -/
theorem writeZero_index (k C c : Nat) (hC : C ≤ c) (st0 st : List α × Nat)
    (h0 : st0.2 = (k + C) % UINT_RANGE) (h : forLoop C c writeZero st0 = .ok st) :
    st.2 = (k + c) % UINT_RANGE :=
  forLoop_inv C c _ (fun j (u : List α × Nat) => u.2 = (k + j) % UINT_RANGE)
    st0 st hC
    (fun j u u' _ _ hQ hb => by
      obtain ⟨_, rfl⟩ := writeZero_eq_ok hb
      show (u.2 + 1) % UINT_RANGE = (k + (j + 1)) % UINT_RANGE
      rw [hQ, succ_mod_uint]
      rfl)
    h0 h

/-- C16: for every well-formed `AudioChannels` (`NF` frames, `NC` channels),
every `length <= NF` and every external channel count `n`, if the external
buffer holds at least `length * n` samples and `length * n` does not overflow
`unsigned int`, then `interleavedRead` and `interleavedWrite` complete, every
index they use being in bounds: the internal cells `(c, f)` with `c < NC` and
`f < length` exist (and `f < NF`); for `f < length` and `c < n` the external
index `f*n + c` is not wrapped around and is below `length * n`, hence inside
the buffer; and the running index `p` equals `f*n + c` before channel `c` of
frame `f`, in the copy loops and in the zero-fill loop. -/
theorem audio_channels_in_bounds (nd : Bool) (ac : AudioChannels α) (hwf : ac.WF)
    (buf : List α) (len n : Nat) (hlen : len ≤ ac.fNumFrames)
    (hbuf : len * n ≤ buf.length) (hov : len * n < UINT_RANGE) :
    (∃ ac', ac.interleavedRead nd buf len n = .ok (ac', buf)) ∧
    (∃ buf', ac.interleavedWrite nd buf len n = .ok (ac, buf')) ∧
    (∀ f c, f < len → c < ac.fNumChannels →
      f < ac.fNumFrames ∧ (sample ac.fChannels c f).isSome) ∧
    (∀ f c, f < len → c < n →
      (f * n + c) % UINT_RANGE = f * n + c ∧ f * n + c < len * n ∧
      f * n + c < buf.length) ∧
    (∀ f c chans st, f < len → c ≤ n →
      forLoop 0 c (readSample buf f) (chans, (f * n) % UINT_RANGE) = .ok st →
      st.2 = f * n + c) ∧
    (∀ f c out st, f < len → c ≤ n →
      forLoop 0 c (writeSample ac.fChannels f) (out, (f * n) % UINT_RANGE) = .ok st →
      st.2 = f * n + c) ∧
    (∀ f C c (st0 st : List α × Nat), f < len → C ≤ c → c ≤ n → st0.2 = f * n + C →
      forLoop C c writeZero st0 = .ok st → st.2 = f * n + c) := by
  have hF : min len ac.fNumFrames = len := Nat.min_eq_left hlen
  have hle : ∀ f c, f < len → c ≤ n → f * n + c ≤ len * n := by
    intro f c hf hc
    have h1 : (f + 1) * n ≤ len * n := Nat.mul_le_mul_right n hf
    have h2 : (f + 1) * n = f * n + n := by ring
    omega
  have hmod : ∀ f c, f < len → c ≤ n → (f * n + c) % UINT_RANGE = f * n + c :=
    fun f c hf hc => Nat.mod_eq_of_lt (Nat.lt_of_le_of_lt (hle f c hf hc) hov)
  have hlt : ∀ f c, f < len → c < n → f * n + c < len * n := by
    intro f c hf hc
    have := interleaved_index_lt hc hf
    omega
  have hcell : ∀ f c, f < len → c < ac.fNumChannels →
      f < ac.fNumFrames ∧ (sample ac.fChannels c f).isSome :=
    fun f c hf hc => ⟨Nat.lt_of_lt_of_le hf hlen,
      sample_isSome_of_WF hwf hc (Nat.lt_of_lt_of_le hf hlen)⟩
  refine ⟨?_, ?_, hcell, ?_, ?_, ?_, ?_⟩
  · exact interleavedRead_ok nd ac buf len n (Or.inr hlen)
      (fun f c hf hc => Nat.lt_of_lt_of_le
        (wrapped_index_lt (hF ▸ hf) (Nat.lt_of_lt_of_le hc (Nat.min_le_left _ _))) hbuf)
      (fun c f hc hf => (hcell f c (hF ▸ hf) hc).2)
  · exact interleavedWrite_ok nd ac buf len n (Or.inr hlen)
      (fun c f hc hf => (hcell f c (hF ▸ hf)
        (Nat.lt_of_lt_of_le hc (Nat.min_le_right _ _))).2)
      (fun f c hf hc => Nat.lt_of_lt_of_le (wrapped_index_lt (hF ▸ hf) hc) hbuf)
  · intro f c hf hc
    exact ⟨hmod f c hf (Nat.le_of_lt hc), hlt f c hf hc,
      Nat.lt_of_lt_of_le (hlt f c hf hc) hbuf⟩
  · intro f c chans st hf hc h
    rw [readSample_index buf n f c chans st h, hmod f c hf hc]
  · intro f c out st hf hc h
    rw [writeSample_index ac.fChannels n f c out st h, hmod f c hf hc]
  · intro f C c st0 st hf hCc hc h0 h
    have h0' : st0.2 = (f * n + C) % UINT_RANGE := by
      rw [h0, hmod f C hf (Nat.le_trans hCc hc)]
    rw [writeZero_index (f * n) C c hCc st0 st h0' h, hmod f c hf hc]

/-- An instance of C16: two channels of two frames against a three-channel
buffer of six samples. -/
theorem audio_channels_in_bounds_witness :
    (⟨2, 2, [[1, 2], [3, 4]]⟩ : AudioChannels Int).WF ∧ 2 ≤ 2 ∧
    2 * 3 ≤ ([5, 6, 7, 8, 9, 10] : List Int).length ∧ 2 * 3 < UINT_RANGE ∧
    (AudioChannels.interleavedRead false (⟨2, 2, [[1, 2], [3, 4]]⟩ : AudioChannels Int)
      [5, 6, 7, 8, 9, 10] 2 3 = .ok (⟨2, 2, [[5, 8], [6, 9]]⟩, [5, 6, 7, 8, 9, 10])) ∧
    (AudioChannels.interleavedWrite false (⟨2, 2, [[1, 2], [3, 4]]⟩ : AudioChannels Int)
      [5, 6, 7, 8, 9, 10] 2 3 = .ok (⟨2, 2, [[1, 2], [3, 4]]⟩, [1, 3, 0, 2, 4, 0])) ∧
    (∀ f c, f < 2 → c < 3 →
      (f * 3 + c) % UINT_RANGE = f * 3 + c ∧ f * 3 + c < 2 * 3 ∧
      f * 3 + c < ([5, 6, 7, 8, 9, 10] : List Int).length) :=
  ⟨⟨rfl, by decide⟩, by decide, by decide, by decide, rfl, rfl,
    (audio_channels_in_bounds false (⟨2, 2, [[1, 2], [3, 4]]⟩ : AudioChannels Int)
      ⟨rfl, by decide⟩ [5, 6, 7, 8, 9, 10] 2 3 (by decide) (by decide) (by decide)).2.2.2.1⟩

end InBoundsAudio

/-! ## Reverse round trip -/

section ReverseRoundTrip

variable {α : Type}

theorem shape_of_lengths {chans : List (List α)} {n F : Nat} (hlen : chans.length = n)
    (hbuf : ∀ b ∈ chans, b.length = F) : chans.map List.length = List.replicate n F := by
  rw [List.eq_replicate_iff]
  refine ⟨by simp [hlen], ?_⟩
  intro x hx
  obtain ⟨b, hb, rfl⟩ := List.mem_map.1 hx
  exact hbuf b hb

theorem sample_eq_none_of_isSome_eq {a b : List (List α)} {c f : Nat}
    (h : (sample a c f).isSome = (sample b c f).isSome) (hb : sample b c f = none) :
    sample a c f = none := by
  rw [hb] at h
  cases ha : sample a c f with
  | none => rfl
  | some v => simp [ha] at h

/-- C17: reverse round trip.  For every `F`, `C` and every family `inputs` of
`C` per-channel buffers of `F` samples each, loading them as the inputs of a
constructed `Interleaver(F, C, C)`, calling `interleave()`, loading the
interleaved output (which has the size of the input buffer of the
`Deinterleaver`) as the input of a constructed `Deinterleaver(F, C, C)` and
calling `deinterleave()` completes and yields per-channel outputs equal to
`inputs`. -/
theorem deinterleave_interleave_roundtrip (F C : Nat)
    (uIn : Nat → α) (uOut : Nat → Nat → α) (vIn : Nat → Nat → α) (vOut : Nat → α)
    (d : Deinterleaver α) (it : Interleaver α)
    (hd : Deinterleaver.new F C C uIn uOut = .ok d)
    (hit : Interleaver.new F C C vIn vOut = .ok it)
    (inputs : List (List α)) (hlen : inputs.length = C)
    (hbuf : ∀ b ∈ inputs, b.length = F) :
    ∃ it' d', Interleaver.interleave { it with fInputs := inputs } = .ok it' ∧
      it'.fOutput.length = d.fInput.length ∧
      Deinterleaver.deinterleave { d with fInput := it'.fOutput } = .ok d' ∧
      d'.fOutputs = inputs := by
  obtain ⟨hov, _, hF, _, hCout, hout, _, _⟩ := interleaver_new_eq_ok hit
  obtain ⟨hov', _, hF', hCin', _, hin', _, _⟩ := deinterleaver_new_eq_ok hd
  have holen : it.fOutput.length = F * C := by simp [hout]
  have hilen : d.fInput.length = F * C := by simp [hin']
  have hsome : ∀ c f, c < C → f < F → (sample inputs c f).isSome := fun c f hc hf =>
    sample_isSome_of_shape (Nat.le_of_eq hlen.symm) hbuf hc hf
  obtain ⟨it', hit'⟩ := interleave_ok { it with fInputs := inputs }
    (by simpa [hF, hCout] using hov) (by simp [hF, hCout, holen])
    (by simpa [hF, hCout] using hsome)
  obtain ⟨_, hlen', hcells⟩ := interleave_eq_ok hit'
  simp only [hF, hCout] at hcells hlen'
  have hlen'' : it'.fOutput.length = F * C := by rw [hlen', holen]
  obtain ⟨d', hd'⟩ := deinterleave_ok { d with fInput := it'.fOutput }
    (by simpa [hF', hCin'] using hov') (by simp [hF', hCin', hlen''])
    (by
      intro c f hc hf
      simp only [hF', hCin'] at hc hf
      rw [deinterleaver_sample_new hd (lt_max_of_lt_left hc) hf]
      rfl)
  obtain ⟨_, hcells'⟩ := deinterleave_eq_ok hd'
  simp only [hF', hCin'] at hcells'
  have hshape : d'.fOutputs.map List.length = inputs.map List.length := by
    have h1 := deinterleave_shape hd'
    have h2 : d.fOutputs.map List.length = List.replicate (max C C) F :=
      deinterleaver_new_shape hd
    rw [h1, h2, max_self, shape_of_lengths hlen hbuf]
  refine ⟨it', d', hit', by rw [hlen'', hilen], hd', ?_⟩
  apply channels_ext hshape
  intro c f
  by_cases hcf : c < C ∧ f < F
  · have hi := interleaved_index_lt hcf.1 hcf.2
    rw [hcells' c f, if_pos hcf, hcells (c + f * C), if_pos hi,
      Nat.add_mul_mod_self_right, Nat.mod_eq_of_lt hcf.1,
      Nat.add_mul_div_right _ _ (by omega), Nat.div_eq_of_lt hcf.1, Nat.zero_add]
  · have hnone : sample inputs c f = none := by
      by_cases hc : c < C
      · have hf : F ≤ f := by
          by_contra hlt
          exact hcf ⟨hc, Nat.lt_of_not_le hlt⟩
        exact sample_eq_none_of_frame_ge c hbuf hf
      · exact sample_eq_none_of_length_le f (by omega)
    rw [hnone]
    exact sample_eq_none_of_isSome_eq (sample_isSome_of_shape_eq hshape c f) hnone

/-- An instance of C17 with `F = 2`, `C = 2` and the per-channel buffers
`[1, 2]` and `[3, 4]`. -/
theorem deinterleave_interleave_roundtrip_witness :
    (Interleaver.interleave (⟨2, 2, 2, [[1, 2], [3, 4]], [8, 8, 8, 8]⟩ : Interleaver Int)
      = .ok ⟨2, 2, 2, [[1, 2], [3, 4]], [1, 3, 2, 4]⟩) ∧
    (∃ it' d', Interleaver.interleave
        (⟨2, 2, 2, [[1, 2], [3, 4]], [8, 8, 8, 8]⟩ : Interleaver Int) = .ok it' ∧
      it'.fOutput.length = ([7, 7, 7, 7] : List Int).length ∧
      Deinterleaver.deinterleave
        (⟨2, 2, 2, it'.fOutput, [[7, 7], [7, 7]]⟩ : Deinterleaver Int) = .ok d' ∧
      d'.fOutputs = [[1, 2], [3, 4]]) :=
  ⟨rfl, deinterleave_interleave_roundtrip 2 2 (fun _ => (7 : Int)) (fun _ _ => 7)
    (fun _ _ => 8) (fun _ => 8)
    ⟨2, 2, 2, [7, 7, 7, 7], [[7, 7], [7, 7]]⟩ ⟨2, 2, 2, [[8, 8], [8, 8]], [8, 8, 8, 8]⟩
    rfl rfl [[1, 2], [3, 4]] rfl (by decide)⟩

end ReverseRoundTrip

/-! ## Read-then-write round trip of `AudioChannels` -/

section ReadWriteRoundTrip

variable {α : Type} [Zero α]

/-- C18, amended: the external index is computed in `unsigned int`, so the
round trip is guaranteed when `length * n <= 2^32`.  For every well-formed
`AudioChannels` (`NF` frames, `NC` channels), every `length <= NF`, every
channel count `n` with `length * n <= 2^32`, every source buffer `src` and every
destination buffer `dst` of at least `length * n` samples:
`interleavedRead(src, length, n)` followed by `interleavedWrite(dst, length, n)`
completes, and afterwards, when `n <= NC`, `dst[i] = src[i]` for every
`i < length * n`, and when `n > NC`, `dst[f*n + c] = src[f*n + c]` for `c < NC`
and `dst[f*n + c] = 0` for `NC <= c < n`, for every `f < length`. -/
theorem read_write_roundtrip (nd : Bool) (ac : AudioChannels α) (hwf : ac.WF)
    (src dst : List α) (len n : Nat) (hlen : len ≤ ac.fNumFrames)
    (hsrc : len * n ≤ src.length) (hdst : len * n ≤ dst.length)
    (hk : len * n ≤ UINT_RANGE) :
    ∃ ac' dst', ac.interleavedRead nd src len n = .ok (ac', src) ∧
      ac'.interleavedWrite nd dst len n = .ok (ac', dst') ∧
      (n ≤ ac.fNumChannels → ∀ i, i < len * n →
        ∃ v, src[i]? = some v ∧ dst'[i]? = some v) ∧
      (ac.fNumChannels < n → ∀ f, f < len →
        (∀ c, c < ac.fNumChannels →
          ∃ v, src[f * n + c]? = some v ∧ dst'[f * n + c]? = some v) ∧
        (∀ c, ac.fNumChannels ≤ c → c < n → dst'[f * n + c]? = some 0)) := by
  have hF : min len ac.fNumFrames = len := Nat.min_eq_left hlen
  obtain ⟨ac', hr⟩ := interleavedRead_ok nd ac src len n (Or.inr hlen)
    (fun f c hf hc => Nat.lt_of_lt_of_le
      (wrapped_index_lt (hF ▸ hf) (Nat.lt_of_lt_of_le hc (Nat.min_le_left _ _))) hsrc)
    (fun c f hc hf => sample_isSome_of_WF hwf hc
      (Nat.lt_of_lt_of_le hf (Nat.min_le_right _ _)))
  obtain ⟨_, _, hNF, hNC, hshape, hcells⟩ := interleavedRead_eq_ok hr
  simp only at hNF hNC hshape hcells
  rw [hF] at hcells
  have hF' : min len ac'.fNumFrames = len := by rw [hNF]; exact hF
  obtain ⟨dst', hw⟩ := interleavedWrite_ok nd ac' dst len n (Or.inr (hNF ▸ hlen))
    (fun c f hc hf => by
      rw [sample_isSome_of_shape_eq hshape]
      rw [hNC] at hc
      rw [hNF] at hf
      exact sample_isSome_of_WF hwf (Nat.lt_of_lt_of_le hc (Nat.min_le_right _ _))
        (Nat.lt_of_lt_of_le hf (Nat.min_le_right _ _)))
    (fun f c hf hc => Nat.lt_of_lt_of_le (wrapped_index_lt (hF' ▸ hf) hc) hdst)
  have hlay := interleavedWrite_eq_ok_layout (by rw [hF']; exact hk) hw
  simp only [hF', hNC] at hlay
  -- the destination, slot by slot
  have hslot : ∀ f c, f < len → c < n →
      dst'[f * n + c]? =
        if c < min n ac.fNumChannels then src[f * n + c]? else some 0 := by
    intro f c hf hc
    have hi : f * n + c < len * n := by
      have := interleaved_index_lt hc hf
      omega
    rw [hlay (f * n + c)]
    simp only [writeCell, hi, if_true, frame_index_mod hc, frame_index_div hc]
    by_cases hcC : c < min n ac.fNumChannels
    · rw [if_pos hcC, if_pos hcC, hcells c f]
      simp only [readCell, hf, hcC, if_true, wrapped_index_eq hk hf hc]
    · rw [if_neg hcC, if_neg hcC]
  have hsrcsome : ∀ i, i < len * n → ∃ v, src[i]? = some v := by
    intro i hi
    have hlt : i < src.length := Nat.lt_of_lt_of_le hi hsrc
    exact ⟨src[i], List.getElem?_eq_getElem hlt⟩
  refine ⟨ac', dst', hr, hw, ?_, ?_⟩
  · intro hn i hi
    obtain ⟨v, hv⟩ := hsrcsome i hi
    refine ⟨v, hv, ?_⟩
    have hc : i % n < n := mod_lt_of_lt_mul_right hi
    have hf : i / n < len := div_lt_of_lt_mul_right hi
    have e : i / n * n + i % n = i := by
      rw [Nat.add_comm]
      exact mod_add_div_mul i n
    have := hslot (i / n) (i % n) hf hc
    rw [e, Nat.min_eq_left hn, if_pos hc] at this
    rw [this, hv]
  · intro hn f hf
    have hC : min n ac.fNumChannels = ac.fNumChannels := Nat.min_eq_right (Nat.le_of_lt hn)
    constructor
    · intro c hc
      have hcn : c < n := Nat.lt_trans hc hn
      have hi : f * n + c < len * n := by
        have := interleaved_index_lt hcn hf
        omega
      obtain ⟨v, hv⟩ := hsrcsome _ hi
      refine ⟨v, hv, ?_⟩
      rw [hslot f c hf hcn, hC, if_pos hc, hv]
    · intro c hc hcn
      rw [hslot f c hf hcn, hC, if_neg (Nat.not_lt.2 hc)]

/-- Instances of C18 as amended: two channels of two frames, with a
two-channel and with a three-channel external layout. -/
theorem read_write_roundtrip_witness :
    (⟨2, 2, [[0, 0], [0, 0]]⟩ : AudioChannels Int).WF ∧
    (AudioChannels.interleavedRead false (⟨2, 2, [[0, 0], [0, 0]]⟩ : AudioChannels Int)
      [1, 2, 3, 4, 5, 6] 2 3 = .ok (⟨2, 2, [[1, 4], [2, 5]]⟩, [1, 2, 3, 4, 5, 6])) ∧
    (AudioChannels.interleavedWrite false (⟨2, 2, [[1, 4], [2, 5]]⟩ : AudioChannels Int)
      [9, 9, 9, 9, 9, 9] 2 3 = .ok (⟨2, 2, [[1, 4], [2, 5]]⟩, [1, 2, 0, 4, 5, 0])) ∧
    (∃ ac' dst', AudioChannels.interleavedRead false
        (⟨2, 2, [[0, 0], [0, 0]]⟩ : AudioChannels Int) [1, 2, 3, 4, 5, 6] 2 3
        = .ok (ac', [1, 2, 3, 4, 5, 6]) ∧
      ac'.interleavedWrite false [9, 9, 9, 9, 9, 9] 2 3 = .ok (ac', dst') ∧
      (3 ≤ 2 → ∀ i, i < 2 * 3 →
        ∃ v, ([1, 2, 3, 4, 5, 6] : List Int)[i]? = some v ∧ dst'[i]? = some v) ∧
      (2 < 3 → ∀ f, f < 2 →
        (∀ c, c < 2 →
          ∃ v, ([1, 2, 3, 4, 5, 6] : List Int)[f * 3 + c]? = some v ∧
            dst'[f * 3 + c]? = some v) ∧
        (∀ c, 2 ≤ c → c < 3 → dst'[f * 3 + c]? = some 0))) ∧
    (∃ ac' dst', AudioChannels.interleavedRead false
        (⟨2, 2, [[0, 0], [0, 0]]⟩ : AudioChannels Int) [1, 2, 3, 4] 2 2
        = .ok (ac', [1, 2, 3, 4]) ∧
      ac'.interleavedWrite false [9, 9, 9, 9] 2 2 = .ok (ac', dst') ∧
      (2 ≤ 2 → ∀ i, i < 2 * 2 →
        ∃ v, ([1, 2, 3, 4] : List Int)[i]? = some v ∧ dst'[i]? = some v) ∧
      (2 < 2 → ∀ f, f < 2 →
        (∀ c, c < 2 →
          ∃ v, ([1, 2, 3, 4] : List Int)[f * 2 + c]? = some v ∧
            dst'[f * 2 + c]? = some v) ∧
        (∀ c, 2 ≤ c → c < 2 → dst'[f * 2 + c]? = some 0))) :=
  ⟨⟨rfl, by decide⟩, rfl, rfl,
    read_write_roundtrip false (⟨2, 2, [[0, 0], [0, 0]]⟩ : AudioChannels Int)
      ⟨rfl, by decide⟩ [1, 2, 3, 4, 5, 6] [9, 9, 9, 9, 9, 9] 2 3
      (by decide) (by decide) (by decide) (by decide),
    read_write_roundtrip false (⟨2, 2, [[0, 0], [0, 0]]⟩ : AudioChannels Int)
      ⟨rfl, by decide⟩ [1, 2, 3, 4] [9, 9, 9, 9] 2 2
      (by decide) (by decide) (by decide) (by decide)⟩

/-- C18 as stated fails when `f * n` wraps around in `unsigned int`: with
`NF = 3`, `NC = 1`, `length = 3`, `n = 2^31`, a source of `3 * 2^31` samples
equal to 1 and a destination of `3 * 2^31` samples equal to 5, both calls
complete, but frame 2 is written from index `2 * 2^31 mod 2^32 = 0` on, so
`dst[2 * 2^31 + 0]` still holds 5 whereas `src[2 * 2^31 + 0] = 1`. -/
theorem read_write_roundtrip_counterexample :
    (AudioChannels.interleavedRead false (⟨3, 1, [[0, 0, 0]]⟩ : AudioChannels Int)
        (List.replicate (3 * 2 ^ 31) 1) 3 (2 ^ 31)
      = .ok (⟨3, 1, [[1, 1, 1]]⟩, List.replicate (3 * 2 ^ 31) 1)) ∧
    (∃ dst', AudioChannels.interleavedWrite false (⟨3, 1, [[1, 1, 1]]⟩ : AudioChannels Int)
        (List.replicate (3 * 2 ^ 31) 5) 3 (2 ^ 31) = .ok (⟨3, 1, [[1, 1, 1]]⟩, dst') ∧
      dst'[2 * 2 ^ 31 + 0]? = some 5) ∧
    (List.replicate (3 * 2 ^ 31) (1 : Int))[2 * 2 ^ 31 + 0]? = some 1 ∧ (5 : Int) ≠ 1 := by
  have e0 : (0 * 2 ^ 31 + 0) % UINT_RANGE = 0 := by decide
  have e1 : (1 * 2 ^ 31 + 0) % UINT_RANGE = 2 ^ 31 := by decide
  have e2 : (2 * 2 ^ 31 + 0) % UINT_RANGE = 0 := by decide
  have k0 : (0 : Nat) < 3 * 2 ^ 31 := by decide
  have k1 : (2 : Nat) ^ 31 < 3 * 2 ^ 31 := by decide
  have k2 : (2 * 2 ^ 31 + 0 : Nat) < 3 * 2 ^ 31 := by decide
  have kR : UINT_RANGE ≤ 3 * 2 ^ 31 := by decide
  refine ⟨?_, ?_, ?_, by decide⟩
  · refine interleavedRead_three_frames _ _ (by decide) 0 0 0 1 1 1 ?_ ?_ ?_
    · rw [e0, List.getElem?_replicate, if_pos k0]
    · rw [e1, List.getElem?_replicate, if_pos k1]
    · rw [e2, List.getElem?_replicate, if_pos k0]
  · obtain ⟨dst', h⟩ := interleavedWrite_ok false (⟨3, 1, [[1, 1, 1]]⟩ : AudioChannels Int)
      (List.replicate (3 * 2 ^ 31) 5) 3 (2 ^ 31) (Or.inr (by decide))
      (fun c f hc hf => by
        have hc0 : c = 0 := by
          have : c < 1 := Nat.lt_of_lt_of_le hc (Nat.min_le_right _ _)
          omega
        have hf3 : f < 3 := Nat.lt_of_lt_of_le hf (Nat.min_le_left _ _)
        subst hc0
        interval_cases f <;> rfl)
      (fun f c _ _ => by
        have : (f * 2 ^ 31 + c) % UINT_RANGE < UINT_RANGE := Nat.mod_lt _ (by decide)
        rw [List.length_replicate]
        exact Nat.lt_of_lt_of_le this kR)
    refine ⟨dst', h, ?_⟩
    obtain ⟨_, _, _, hframe⟩ := interleavedWrite_eq_ok h
    have e : 2 * 2 ^ 31 + 0 = UINT_RANGE := by decide
    have := hframe UINT_RANGE (fun f c _ _ heq => by
      have : (f * 2 ^ 31 + c) % UINT_RANGE < UINT_RANGE := Nat.mod_lt _ (by decide)
      omega)
    rw [e, this, List.getElem?_replicate, if_pos (by decide)]
  · rw [List.getElem?_replicate, if_pos k2]

end ReadWriteRoundTrip

/-! ## Repeating `interleavedWrite` -/

section Simulation

variable {σ τ : Type}

/-- Simulation of a loop by another one: if every successful iteration of the
first loop is matched by a successful iteration of the second one that keeps
the relation, a successful run of the first loop is matched by a successful
run of the second one. -/
theorem iterate_sim (body1 : Nat → σ → Except Fault σ) (body2 : Nat → τ → Except Fault τ)
    (R : Nat → σ → τ → Prop) :
    ∀ (n i : Nat) (s1 : σ) (s2 : τ) (s1' : σ),
      (∀ j t1 t2 t1', i ≤ j → j < i + n → R j t1 t2 → body1 j t1 = .ok t1' →
        ∃ t2', body2 j t2 = .ok t2' ∧ R (j + 1) t1' t2') →
      R i s1 s2 → iterate body1 n i s1 = .ok s1' →
      ∃ s2', iterate body2 n i s2 = .ok s2' ∧ R (i + n) s1' s2' := by
  intro n
  induction n with
  | zero =>
    intro i s1 s2 s1' _ hR h
    simp only [iterate, Except.ok.injEq] at h
    subst h
    exact ⟨s2, rfl, by simpa using hR⟩
  | succ n ih =>
    intro i s1 s2 s1' hstep hR h
    simp only [iterate] at h
    cases hb : body1 i s1 with
    | error e => simp [hb] at h
    | ok t1 =>
      simp only [hb] at h
      obtain ⟨t2, hb2, hR'⟩ := hstep i s1 s2 t1 (Nat.le_refl i) (by omega) hR hb
      obtain ⟨s2', hs2', hQ⟩ := ih (i + 1) t1 t2 s1'
        (fun j u1 u2 u1' h1 h2 => hstep j u1 u2 u1' (by omega) (by omega)) hR' h
      refine ⟨s2', ?_, ?_⟩
      · simp only [iterate, hb2]
        exact hs2'
      · have e : i + 1 + n = i + (n + 1) := by omega
        rw [e] at hQ
        exact hQ

theorem forLoop_sim (lo hi : Nat) (body1 : Nat → σ → Except Fault σ)
    (body2 : Nat → τ → Except Fault τ) (R : Nat → σ → τ → Prop)
    (s1 : σ) (s2 : τ) (s1' : σ) (hle : lo ≤ hi)
    (hstep : ∀ j t1 t2 t1', lo ≤ j → j < hi → R j t1 t2 → body1 j t1 = .ok t1' →
      ∃ t2', body2 j t2 = .ok t2' ∧ R (j + 1) t1' t2')
    (hR : R lo s1 s2) (h : forLoop lo hi body1 s1 = .ok s1') :
    ∃ s2', forLoop lo hi body2 s2 = .ok s2' ∧ R hi s1' s2' := by
  have := iterate_sim body1 body2 R (hi - lo) lo s1 s2 s1'
    (fun j t1 t2 t1' h1 h2 => hstep j t1 t2 t1' h1 (by omega)) hR h
  have e : lo + (hi - lo) = hi := by omega
  rw [e] at this
  exact this

end Simulation

section Repeat

variable {α : Type}

/-- Two destinations of the same length that agree on the indices written so
far still do after the same sample is written at the running index. -/
theorem written_set {n f c : Nat} {st1 st2 : List α × Nat} (v : α)
    (hp : st1.2 = st2.2 ∧ st1.2 = (f * n + c) % UINT_RANGE)
    (hlen : st1.1.length = st2.1.length) (hlt : st1.2 < st1.1.length)
    (hw : ∀ i, Written n f c i → st1.1[i]? = st2.1[i]?) :
    ∀ i, Written n f (c + 1) i → (st1.1.set st1.2 v)[i]? = (st2.1.set st2.2 v)[i]? := by
  intro i hi
  rw [← hp.1]
  by_cases hip : st1.2 = i
  · subst hip
    rw [List.getElem?_set_self hlt, List.getElem?_set_self (hlen ▸ hlt)]
  · rw [List.getElem?_set_ne hip, List.getElem?_set_ne hip]
    apply hw i
    obtain ⟨f', c', hlt', hc', he⟩ := hi
    refine ⟨f', c', ?_, hc', he⟩
    rcases hlt' with h1 | ⟨h1, h2⟩
    · exact Or.inl h1
    · right
      refine ⟨h1, ?_⟩
      have hne : c' ≠ c := by
        intro hcc
        apply hip
        rw [hp.2, he, h1, hcc]
      omega

theorem written_next {n f i : Nat} : Written n f n i ↔ Written n (f + 1) 0 i := by
  constructor
  · rintro ⟨f', c', h, hc', he⟩
    refine ⟨f', c', Or.inl ?_, hc', he⟩
    rcases h with h | ⟨h, _⟩ <;> omega
  · rintro ⟨f', c', h, hc', he⟩
    refine ⟨f', c', ?_, hc', he⟩
    rcases h with h | ⟨_, h⟩
    · by_cases hf : f' < f
      · exact Or.inl hf
      · exact Or.inr ⟨by omega, hc'⟩
    · exact absurd h (Nat.not_lt_zero _)

/-- The relation kept by the inner loops of two runs of `interleavedWrite` on
two destinations: same running index, same length, same content on the
indices written so far. -/
theorem written_step {n f c : Nat} {st1 st2 : List α × Nat} (v : α)
    (hR : st1.2 = st2.2 ∧ st1.2 = (f * n + c) % UINT_RANGE ∧
      st1.1.length = st2.1.length ∧ ∀ i, Written n f c i → st1.1[i]? = st2.1[i]?)
    (hlt : st1.2 < st1.1.length) :
    (st1.2 + 1) % UINT_RANGE = (st2.2 + 1) % UINT_RANGE ∧
    (st1.2 + 1) % UINT_RANGE = (f * n + (c + 1)) % UINT_RANGE ∧
    (st1.1.set st1.2 v).length = (st2.1.set st2.2 v).length ∧
    ∀ i, Written n f (c + 1) i → (st1.1.set st1.2 v)[i]? = (st2.1.set st2.2 v)[i]? := by
  obtain ⟨h1, h2, h3, h4⟩ := hR
  refine ⟨by rw [h1], ?_, by rw [List.length_set, List.length_set, h3],
    written_set v ⟨h1, h2⟩ h3 hlt h4⟩
  rw [h2, succ_mod_uint]
  rfl

end Repeat

section RepeatWrite

variable {α : Type} [Zero α]

/-- One frame of `interleavedWrite` on two destinations of the same length:
if it completes on the first one it completes on the second one, and the two
results agree on every index written so far. -/
theorem writeFrame_sim {chans : List (List α)} {n C f : Nat} {o1 o2 o1' : List α}
    (hC : C ≤ n)
    (hR : o1.length = o2.length ∧ ∀ i, Written n f 0 i → o1[i]? = o2[i]?)
    (h : writeFrame chans n C f o1 = .ok o1') :
    ∃ o2', writeFrame chans n C f o2 = .ok o2' ∧
      o1'.length = o2'.length ∧ ∀ i, Written n (f + 1) 0 i → o1'[i]? = o2'[i]? := by
  unfold writeFrame at h
  simp only at h
  cases h1 : forLoop 0 C (writeSample chans f) (o1, (f * n) % UINT_RANGE) with
  | error e => simp [h1] at h
  | ok st =>
    simp only [h1] at h
    cases h2 : forLoop C n writeZero st with
    | error e => simp [h2] at h
    | ok st' =>
      simp only [h2, Except.ok.injEq] at h
      subst h
      obtain ⟨u, hu, hRu⟩ := forLoop_sim 0 C (writeSample chans f) (writeSample chans f)
        (fun c (a b : List α × Nat) => a.2 = b.2 ∧ a.2 = (f * n + c) % UINT_RANGE ∧
          a.1.length = b.1.length ∧ ∀ i, Written n f c i → a.1[i]? = b.1[i]?)
        (o1, (f * n) % UINT_RANGE) (o2, (f * n) % UINT_RANGE) st (Nat.zero_le _)
        (fun c t1 t2 t1' _ _ hQ hb => by
          obtain ⟨v, hv, hlt, rfl⟩ := writeSample_eq_ok hb
          have hlt2 : t2.2 < t2.1.length := by
            rw [← hQ.1, ← hQ.2.2.1]
            exact hlt
          exact ⟨_, writeSample_ok hv hlt2, written_step v hQ hlt⟩)
        ⟨rfl, rfl, hR.1, hR.2⟩ h1
      obtain ⟨u', hu', hRu'⟩ := forLoop_sim C n writeZero writeZero
        (fun c (a b : List α × Nat) => a.2 = b.2 ∧ a.2 = (f * n + c) % UINT_RANGE ∧
          a.1.length = b.1.length ∧ ∀ i, Written n f c i → a.1[i]? = b.1[i]?)
        st u st' hC
        (fun c t1 t2 t1' _ _ hQ hb => by
          obtain ⟨hlt, rfl⟩ := writeZero_eq_ok hb
          have hlt2 : t2.2 < t2.1.length := by
            rw [← hQ.1, ← hQ.2.2.1]
            exact hlt
          exact ⟨_, writeZero_ok c hlt2, written_step 0 hQ hlt⟩)
        hRu h2
      refine ⟨u'.1, by simp only [writeFrame, hu, hu'], hRu'.2.2.1, ?_⟩
      intro i hi
      exact hRu'.2.2.2 i (written_next.2 hi)

/-- Running `interleavedWrite` on a second destination of the same length: if
the call completes on the first destination it completes on the second one,
and the two results agree on every index written by the call. -/
theorem interleavedWrite_sim {nd : Bool} {ac : AudioChannels α} {out1 out2 : List α}
    {len n : Nat} {r : AudioChannels α × List α} (hlen : out1.length = out2.length)
    (h : ac.interleavedWrite nd out1 len n = .ok r) :
    ∃ out2', ac.interleavedWrite nd out2 len n = .ok (ac, out2') ∧
      r.2.length = out2'.length ∧
      ∀ f c, f < min len ac.fNumFrames → c < n →
        r.2[(f * n + c) % UINT_RANGE]? = out2'[(f * n + c) % UINT_RANGE]? := by
  unfold AudioChannels.interleavedWrite at h
  by_cases ha : (!nd && decide (ac.fNumFrames < len)) = true
  · simp [ha] at h
  · simp only [ha] at h
    cases hl : forLoop 0 (min len ac.fNumFrames)
        (writeFrame ac.fChannels n (min n ac.fNumChannels)) out1 with
    | error e => simp [hl] at h
    | ok o1' =>
      simp only [hl, Bool.false_eq_true, if_false, Except.ok.injEq] at h
      subst h
      obtain ⟨o2', h2, hR⟩ := forLoop_sim 0 (min len ac.fNumFrames)
        (writeFrame ac.fChannels n (min n ac.fNumChannels))
        (writeFrame ac.fChannels n (min n ac.fNumChannels))
        (fun f (a b : List α) => a.length = b.length ∧
          ∀ i, Written n f 0 i → a[i]? = b[i]?)
        out1 out2 o1' (Nat.zero_le _)
        (fun f t1 t2 t1' _ _ hQ hb => writeFrame_sim (Nat.min_le_left _ _) hQ hb)
        ⟨hlen, fun i hi => by
          obtain ⟨f', c', h, _, _⟩ := hi
          rcases h with h | ⟨_, h⟩ <;> exact absurd h (Nat.not_lt_zero _)⟩ hl
      refine ⟨o2', by
        simp only [AudioChannels.interleavedWrite, ha, h2, Bool.false_eq_true, if_false],
        hR.1, ?_⟩
      intro f c hf hc
      exact hR.2 _ ⟨f, c, Or.inl hf, hc, rfl⟩

/-- C19: `interleavedWrite` does not modify the `AudioChannels` it is called
on.  For every `AudioChannels` state, every destination buffer, every `length`
and every `outchannels`, after a call that completes the object is unchanged:
every internal sample `channel[c][f]` has the same value as before; so
repeating the same `interleavedWrite`, on a destination equal to the original
one or on the destination just written, completes and produces the same
destination content. -/
theorem interleavedWrite_preserves_channels (nd : Bool) (ac ac' : AudioChannels α)
    (out out' : List α) (len n : Nat)
    (h : ac.interleavedWrite nd out len n = .ok (ac', out')) :
    ac' = ac ∧
    (∀ c f, sample ac'.fChannels c f = sample ac.fChannels c f) ∧
    ac'.interleavedWrite nd out len n = .ok (ac', out') ∧
    ac'.interleavedWrite nd out' len n = .ok (ac', out') := by
  obtain ⟨_, hac, hlen, hframe⟩ := interleavedWrite_eq_ok h
  simp only at hac hlen hframe
  subst hac
  refine ⟨rfl, fun _ _ => rfl, h, ?_⟩
  obtain ⟨out2, h2, hlen2, hagree⟩ := interleavedWrite_sim hlen.symm h
  simp only at hlen2 hagree
  obtain ⟨_, _, _, hframe2⟩ := interleavedWrite_eq_ok h2
  simp only at hframe2
  have : out2 = out' := by
    apply List.ext_getElem?
    intro i
    by_cases hi : ∃ f c, f < min len ac'.fNumFrames ∧ c < n ∧ i = (f * n + c) % UINT_RANGE
    · obtain ⟨f, c, hf, hc, rfl⟩ := hi
      exact (hagree f c hf hc).symm
    · exact hframe2 i (fun f c hf hc he => hi ⟨f, c, hf, hc, he⟩)
  rw [h2, this]

/-- An instance of C19: two channels of two frames written to a three-channel
destination, once and twice. -/
theorem interleavedWrite_preserves_channels_witness :
    (AudioChannels.interleavedWrite false (⟨2, 2, [[1, 2], [3, 4]]⟩ : AudioChannels Int)
      [9, 9, 9, 9, 9, 9, 9] 2 3 = .ok (⟨2, 2, [[1, 2], [3, 4]]⟩, [1, 3, 0, 2, 4, 0, 9])) ∧
    ((⟨2, 2, [[1, 2], [3, 4]]⟩ : AudioChannels Int) = ⟨2, 2, [[1, 2], [3, 4]]⟩ ∧
      (∀ c f, sample ([[1, 2], [3, 4]] : List (List Int)) c f
        = sample ([[1, 2], [3, 4]] : List (List Int)) c f) ∧
      AudioChannels.interleavedWrite false (⟨2, 2, [[1, 2], [3, 4]]⟩ : AudioChannels Int)
        [9, 9, 9, 9, 9, 9, 9] 2 3 = .ok (⟨2, 2, [[1, 2], [3, 4]]⟩, [1, 3, 0, 2, 4, 0, 9]) ∧
      AudioChannels.interleavedWrite false (⟨2, 2, [[1, 2], [3, 4]]⟩ : AudioChannels Int)
        [1, 3, 0, 2, 4, 0, 9] 2 3 = .ok (⟨2, 2, [[1, 2], [3, 4]]⟩, [1, 3, 0, 2, 4, 0, 9])) :=
  ⟨rfl, interleavedWrite_preserves_channels false
    (⟨2, 2, [[1, 2], [3, 4]]⟩ : AudioChannels Int) ⟨2, 2, [[1, 2], [3, 4]]⟩
    [9, 9, 9, 9, 9, 9, 9] [1, 3, 0, 2, 4, 0, 9] 2 3 rfl⟩

end RepeatWrite

/-! ## What `deinterleave()` leaves untouched -/

section DeinterleaveFrame

variable {α : Type}

/-- C20: `deinterleave()` writes only the output channels `0..Cin-1`.  For every
`Deinterleaver` state on which `deinterleave()` completes, the dimensions and
the interleaved input buffer are unchanged, the number of output buffers is
unchanged, and every output buffer of index `c >= Cin` (the extra channels
`Cin..Cout-1` when `Cout > Cin`) is the same after the call as before: each of
its samples has kept its value. -/
theorem deinterleave_extra_channels (d d' : Deinterleaver α)
    (h : d.deinterleave = .ok d') :
    d'.fInput = d.fInput ∧
    d'.fNumFrames = d.fNumFrames ∧ d'.fNumInputs = d.fNumInputs ∧
    d'.fNumOutputs = d.fNumOutputs ∧
    d'.fOutputs.length = d.fOutputs.length ∧
    (∀ c f, d.fNumInputs ≤ c → sample d'.fOutputs c f = sample d.fOutputs c f) ∧
    (∀ c, d.fNumInputs ≤ c → d'.fOutputs[c]? = d.fOutputs[c]?) := by
  obtain ⟨hrec, hcells⟩ := deinterleave_eq_ok h
  have hshape := deinterleave_shape h
  have hsame : ∀ c f, d.fNumInputs ≤ c →
      sample d'.fOutputs c f = sample d.fOutputs c f := by
    intro c f hc
    rw [hcells c f]
    have : ¬ (c < d.fNumInputs ∧ f < d.fNumFrames) := fun hcf => absurd hcf.1 (Nat.not_lt.2 hc)
    rw [if_neg this]
  have hlen : d'.fOutputs.length = d.fOutputs.length := by
    have := congrArg List.length hshape
    simpa using this
  refine ⟨by rw [hrec], by rw [hrec], by rw [hrec], by rw [hrec], hlen, hsame, ?_⟩
  intro c hc
  have hl := getElem?_length_of_shape hshape c
  cases ha : d'.fOutputs[c]? with
  | none =>
    cases hb : d.fOutputs[c]? with
    | none => rfl
    | some y => simp [ha, hb] at hl
  | some x =>
    cases hb : d.fOutputs[c]? with
    | none => simp [ha, hb] at hl
    | some y =>
      congr 1
      apply List.ext_getElem?
      intro f
      have := hsame c f hc
      simpa [sample, ha, hb] using this

/-- An instance of C20: on `Deinterleaver(2, 1, 3)` holding the input `[1, 2]`
the extra output channels 1 and 2 keep their content `[7, 7]`. -/
theorem deinterleave_extra_channels_witness :
    (Deinterleaver.new 2 1 3 (fun i => ((i : Int) + 1)) (fun _ _ => 7)
      = .ok ⟨2, 1, 3, [1, 2], [[7, 7], [7, 7], [7, 7]]⟩) ∧
    (Deinterleaver.deinterleave
        (⟨2, 1, 3, [1, 2], [[7, 7], [7, 7], [7, 7]]⟩ : Deinterleaver Int)
      = .ok ⟨2, 1, 3, [1, 2], [[1, 2], [7, 7], [7, 7]]⟩) ∧
    (([1, 2] : List Int) = [1, 2] ∧ 2 = 2 ∧ 1 = 1 ∧ 3 = 3 ∧
      ([[1, 2], [7, 7], [7, 7]] : List (List Int)).length
        = ([[7, 7], [7, 7], [7, 7]] : List (List Int)).length ∧
      (∀ c f, 1 ≤ c →
        sample ([[1, 2], [7, 7], [7, 7]] : List (List Int)) c f
          = sample ([[7, 7], [7, 7], [7, 7]] : List (List Int)) c f) ∧
      (∀ c, 1 ≤ c →
        ([[1, 2], [7, 7], [7, 7]] : List (List Int))[c]?
          = ([[7, 7], [7, 7], [7, 7]] : List (List Int))[c]?)) :=
  ⟨rfl, rfl, deinterleave_extra_channels
    ⟨2, 1, 3, [1, 2], [[7, 7], [7, 7], [7, 7]]⟩
    ⟨2, 1, 3, [1, 2], [[1, 2], [7, 7], [7, 7]]⟩ rfl⟩

end DeinterleaveFrame

end McpUI
